import Mathlib

/-!
Verification of the rectangular K2-tree implementation (KrKcTree) against its
specification.  The C++ source is shallowly embedded: machine integers become
Nat, the packed bit vectors T and L become Lean lists, the rank structure R is
the recomputed rank over T, and the recursive/iterative navigation algorithms
become Lean functions over those lists.

The source's recursions and loops are driven by the subtree extent shrinking
by the arity at each level; on a structure of height h they reach depth at
most h.  To keep every embedded function computable by the kernel, each such
recursion is made structural on an explicit fuel counter that the entry points
initialize to the height h of the structure (which the original recursions
never exceed); out-of-fuel cases are unreachable on structures built by the
constructors with arities >= 2 and return the same default the source's
dead branches would.
-/

namespace K2

variable {E : Type} [DecidableEq E]

/-- Fuelled loop of the integer-logarithm helper. -/
def logKGo : Nat → Nat → Nat → Nat
  | 0, _, _ => 0
  | fuel + 1, n, k => if k ≤ 1 ∨ n ≤ 1 then 0 else 1 + logKGo fuel ((n + k - 1) / k) k

/-- Modelled from the spec: the integer-logarithm helper logK from the external
Utility header (not under src/).  Per the spec, the height is
h = max(1, ceil(log_kr R), ceil(log_kc C)), so logK n k is the least e with
n <= k ^ e (for k >= 2; for k <= 1 the helper is never used meaningfully).
The iteration divides n by k rounding up until it reaches 1, so it runs fewer
than n times and the fuel n is never exhausted. -/
def logK (n k : Nat) : Nat :=
  logKGo n n k

/-- Rank over the bit sequence T: the number of 1-bits among the first z
positions (the interface of the external static rank structure R). -/
def rank1 (T : List Bool) (z : Nat) : Nat :=
  (T.take z).count true

/-- Row-major enumeration of the kr * kc child slots of a node: the source
iterates i over rows and j over columns, slot index i * kc + j. -/
def slots (kr kc : Nat) : List (Nat × Nat) :=
  (List.range kr).flatMap (fun i => (List.range kc).map (fun j => (i, j)))

/-- Bounds-checked matrix access used by the matrix-based builder: the source
reads mat[p][q] when p < mat.size() and q < mat[0].size(), and uses the null
element otherwise (padding). -/
def matRead (mat : List (List E)) (null : E) (p q : Nat) : E :=
  if p < mat.length ∧ q < (mat.headD []).length then (mat.getD p []).getD q null else null

/-- State of a constructed KrKcTree: the packed internal bit sequence T, the
leaf-level value sequence L, and the immutable configuration.  The rank
structure R is not a field because it is a pure function of T (rank1). -/
structure KrKcTree (E : Type) where
  T : List Bool
  L : List E
  h : Nat
  kr : Nat
  kc : Nat
  numRows : Nat
  numCols : Nat
  null : E

/-- Embedding of the recursive helper buildFromMatrix.  The source threads two
append-only accumulators (the per-level buffers levels[0..h-2] and the leaf
buffer L_); the embedding renders each call's own appends as returned chunks,
which the caller concatenates in the same left-to-right order in which the
source appends.  The source's level counter l always equals h - d (d = depth
still to descend) and only selects the buffer levels[l-1], so it is dropped.
The result is (chunks, Lpart, flag): chunks.getD u [] is what this call
appended to levels[(l-1)+u], Lpart is what it appended to L_, and flag is the
returned bool (subtree non-empty). -/
def buildFromMatrix (mat : List (List E)) (null : E) (kr kc : Nat) :
    (d : Nat) → (numRows numCols p q : Nat) → List (List Bool) × List E × Bool
  | 0, _, _, p, q =>
      let C := (slots kr kc).map (fun ij => matRead mat null (p + ij.1) (q + ij.2))
      if C.all (fun e => decide (e = null)) then ([], [], false)
      else ([], C, true)
  | d + 1, numRows, numCols, p, q =>
      let sub := (slots kr kc).map (fun ij =>
        buildFromMatrix mat null kr kc d (numRows / kr) (numCols / kc)
          (p + ij.1 * (numRows / kr)) (q + ij.2 * (numCols / kc)))
      let C : List Bool := sub.map (fun r => r.2.2)
      let chunks : List (List Bool) :=
        (List.range d).map (fun u => (sub.map (fun r => r.1.getD u [])).flatten)
      let Lout : List E := (sub.map (fun r => r.2.1)).flatten
      if C.all (fun b => !b) then ([] :: chunks, Lout, false)
      else (C :: chunks, Lout, true)

/-- Embedding of the matrix-based constructor (Mode M): derive h and the padded
dimensions, run buildFromMatrix from the root (source call has l = 1, that is
d = h - 1), and concatenate the per-level buffers top level first to form T. -/
def krKcTreeOfMatrix (mat : List (List E)) (kr kc : Nat) (null : E) : KrKcTree E :=
  let h := max 1 (max (logK mat.length kr) (logK (mat.headD []).length kc))
  let numRows := kr ^ h
  let numCols := kc ^ h
  let r := buildFromMatrix mat null kr kc (h - 1) numRows numCols 0 0
  { T := r.1.flatten, L := r.2.1, h := h, kr := kr, kc := kc,
    numRows := numRows, numCols := numCols, null := null }

/-- Embedding of the recursive point query helper get (fuelled; the entry
point getInit supplies fuel h, the exact depth of the source recursion). -/
def get (tr : KrKcTree E) : (fuel : Nat) → (numRows numCols p q z : Nat) → E
  | 0, _, _, _, _, _ => tr.null
  | fuel + 1, numRows, numCols, p, q, z =>
    if z ≥ tr.T.length then tr.L.getD (z - tr.T.length) tr.null
    else if tr.T.getD z false then
      get tr fuel (numRows / tr.kr) (numCols / tr.kc) (p % (numRows / tr.kr))
        (q % (numCols / tr.kc))
        (rank1 tr.T (z + 1) * tr.kr * tr.kc + p / (numRows / tr.kr) * tr.kc
          + q / (numCols / tr.kc))
    else tr.null

/-- Embedding of getInit: the empty-L early exit and the first-level slot
computation. -/
def getInit (tr : KrKcTree E) (p q : Nat) : E :=
  if tr.L.isEmpty then tr.null
  else get tr tr.h (tr.numRows / tr.kr) (tr.numCols / tr.kc) (p % (tr.numRows / tr.kr))
    (q % (tr.numCols / tr.kc))
    (p / (tr.numRows / tr.kr) * tr.kc + q / (tr.numCols / tr.kc))

/-- Embedding of getElement (public point query). -/
def getElement (tr : KrKcTree E) (i j : Nat) : E :=
  getInit tr i j

/-- Embedding of the recursive helper set of setNull (fuelled as get).  The
source overwrites the reached leaf cell of L_ in place; the embedding returns
the updated structure.  List.set is a no-op out of range, where the source
would be undefined. -/
def set (tr : KrKcTree E) : (fuel : Nat) → (numRows numCols p q z : Nat) → KrKcTree E
  | 0, _, _, _, _, _ => tr
  | fuel + 1, numRows, numCols, p, q, z =>
    if z ≥ tr.T.length then { tr with L := tr.L.set (z - tr.T.length) tr.null }
    else if tr.T.getD z false then
      set tr fuel (numRows / tr.kr) (numCols / tr.kc) (p % (numRows / tr.kr))
        (q % (numCols / tr.kc))
        (rank1 tr.T (z + 1) * tr.kr * tr.kc + p / (numRows / tr.kr) * tr.kc
          + q / (numCols / tr.kc))
    else tr

/-- Embedding of setInit. -/
def setInit (tr : KrKcTree E) (p q : Nat) : KrKcTree E :=
  if tr.L.isEmpty then tr
  else set tr tr.h (tr.numRows / tr.kr) (tr.numCols / tr.kc) (p % (tr.numRows / tr.kr))
    (q % (tr.numCols / tr.kc))
    (p / (tr.numRows / tr.kr) * tr.kc + q / (tr.numCols / tr.kc))

/-- Embedding of setNull (public local clear). -/
def setNull (tr : KrKcTree E) (i j : Nat) : KrKcTree E :=
  setInit tr i j

/-- Inclusive index interval a..b, rendering the source loops
for (i = a; i <= b; i++). -/
def rangeIncl (a b : Nat) : List Nat :=
  List.range' a (b + 1 - a)

/-- Embedding of the recursive helper rangePos of getPositionsInRange
(fuelled as get).  The source appends hits to an out-parameter vector; the
embedding returns the emitted list, and the caller concatenates in loop
order.  The conditional products (i == p1 / w) * (p1 % w) of the source are
rendered as if-then-else. -/
def rangePos (tr : KrKcTree E) :
    (fuel : Nat) → (numRows numCols p1 p2 q1 q2 dp dq z : Nat) → List (Nat × Nat)
  | 0, _, _, _, _, _, _, _, _, _ => []
  | fuel + 1, numRows, numCols, p1, p2, q1, q2, dp, dq, z =>
    if z ≥ tr.T.length then
      (if tr.L.getD (z - tr.T.length) tr.null ≠ tr.null then [(dp, dq)] else [])
    else if tr.T.getD z false then
      let y := rank1 tr.T (z + 1) * tr.kr * tr.kc
      let wr := numRows / tr.kr
      let wc := numCols / tr.kc
      (rangeIncl (p1 / wr) (p2 / wr)).flatMap (fun i =>
        (rangeIncl (q1 / wc) (q2 / wc)).flatMap (fun j =>
          rangePos tr fuel wr wc
            (if i = p1 / wr then p1 % wr else 0)
            (if i = p2 / wr then p2 % wr else wr - 1)
            (if j = q1 / wc then q1 % wc else 0)
            (if j = q2 / wc then q2 % wc else wc - 1)
            (dp + wr * i) (dq + wc * j) (y + tr.kc * i + j)))
    else []

/-- Embedding of rangePosInit. -/
def rangePosInit (tr : KrKcTree E) (p1 p2 q1 q2 : Nat) : List (Nat × Nat) :=
  if tr.L.isEmpty then []
  else
    let wr := tr.numRows / tr.kr
    let wc := tr.numCols / tr.kc
    (rangeIncl (p1 / wr) (p2 / wr)).flatMap (fun i =>
      (rangeIncl (q1 / wc) (q2 / wc)).flatMap (fun j =>
        rangePos tr tr.h wr wc
          (if i = p1 / wr then p1 % wr else 0)
          (if i = p2 / wr then p2 % wr else wr - 1)
          (if j = q1 / wc then q1 % wc else 0)
          (if j = q2 / wc then q2 % wc else wc - 1)
          (wr * i) (wc * j) (tr.kc * i + j)))

/-- Embedding of getPositionsInRange. -/
def getPositionsInRange (tr : KrKcTree E) (i1 i2 j1 j2 : Nat) : List (Nat × Nat) :=
  rangePosInit tr i1 i2 j1 j2

/-- Embedding of the recursive helper elemInRange of containsElement (fuelled
as get).  At a leaf crossing the source returns L_[z - T_.size()] converted to
bool by the element type's implicit conversion; the conversion is passed in as
truthy (for the numeric instances truthy x = decide (x is not the zero value),
for the bool specialisation it is the identity). -/
def elemInRange (truthy : E → Bool) (tr : KrKcTree E) :
    (fuel : Nat) → (numRows numCols p1 p2 q1 q2 z : Nat) → Bool
  | 0, _, _, _, _, _, _, _ => false
  | fuel + 1, numRows, numCols, p1, p2, q1, q2, z =>
    if z ≥ tr.T.length then truthy (tr.L.getD (z - tr.T.length) tr.null)
    else if tr.T.getD z false then
      if p1 = 0 ∧ q1 = 0 ∧ p2 = numRows - 1 ∧ q2 = numCols - 1 then true
      else
        let y := rank1 tr.T (z + 1) * tr.kr * tr.kc
        let wr := numRows / tr.kr
        let wc := numCols / tr.kc
        (rangeIncl (p1 / wr) (p2 / wr)).any (fun i =>
          (rangeIncl (q1 / wc) (q2 / wc)).any (fun j =>
            elemInRange truthy tr fuel wr wc
              (if i = p1 / wr then p1 % wr else 0)
              (if i = p2 / wr then p2 % wr else wr - 1)
              (if j = q1 / wc then q1 % wc else 0)
              (if j = q2 / wc then q2 % wc else wc - 1)
              (y + tr.kc * i + j)))
    else false

/-- Embedding of elemInRangeInit, including the whole-extent shortcut. -/
def elemInRangeInit (truthy : E → Bool) (tr : KrKcTree E) (p1 p2 q1 q2 : Nat) : Bool :=
  if tr.L.isEmpty then false
  else if p1 = 0 ∧ q1 = 0 ∧ p2 = tr.numRows - 1 ∧ q2 = tr.numCols - 1 then true
  else
    let wr := tr.numRows / tr.kr
    let wc := tr.numCols / tr.kc
    (rangeIncl (p1 / wr) (p2 / wr)).any (fun i =>
      (rangeIncl (q1 / wc) (q2 / wc)).any (fun j =>
        elemInRange truthy tr tr.h wr wc
          (if i = p1 / wr then p1 % wr else 0)
          (if i = p2 / wr then p2 % wr else wr - 1)
          (if j = q1 / wc then q1 % wc else 0)
          (if j = q2 / wc then q2 % wc else wc - 1)
          (tr.kc * i + j)))

/-- Embedding of containsElement. -/
def containsElement (truthy : E → Bool) (tr : KrKcTree E) (i1 i2 j1 j2 : Nat) : Bool :=
  elemInRangeInit truthy tr i1 i2 j1 j2

/-- Embedding of the recursive helper predecessorsPos of
getPredecessorPositions (fuelled as get; emitted rows returned as a list). -/
def predecessorsPos (tr : KrKcTree E) :
    (fuel : Nat) → (numRows numCols q p z : Nat) → List Nat
  | 0, _, _, _, _, _ => []
  | fuel + 1, numRows, numCols, q, p, z =>
    if z ≥ tr.T.length then
      (if tr.L.getD (z - tr.T.length) tr.null ≠ tr.null then [p] else [])
    else if tr.T.getD z false then
      let y := rank1 tr.T (z + 1) * tr.kr * tr.kc + q / (numCols / tr.kc)
      (List.range tr.kr).flatMap (fun i =>
        predecessorsPos tr fuel (numRows / tr.kr) (numCols / tr.kc) (q % (numCols / tr.kc))
          (p + (numRows / tr.kr) * i) (y + i * tr.kc))
    else []

/-- Embedding of predecessorsPosInit. -/
def predecessorsPosInit (tr : KrKcTree E) (q : Nat) : List Nat :=
  if tr.L.isEmpty then []
  else
    let y := q / (tr.numCols / tr.kc)
    (List.range tr.kr).flatMap (fun i =>
      predecessorsPos tr tr.h (tr.numRows / tr.kr) (tr.numCols / tr.kc)
        (q % (tr.numCols / tr.kc)) ((tr.numRows / tr.kr) * i) (y + i * tr.kc))

/-- Embedding of getPredecessorPositions. -/
def getPredecessorPositions (tr : KrKcTree E) (j : Nat) : List Nat :=
  predecessorsPosInit tr j

/-- Queue entry of the iterative row-successor algorithm: the column offset dq
of a subrow and its absolute bit position z. -/
structure SubrowInfo where
  dq : Nat
  z : Nat
deriving DecidableEq, Repr

/-- One pass of the level loop of allSuccessorPositionsIterative: every queued
entry whose bit is set enqueues its kc children for the next level. -/
def succStep (tr : KrKcTree E) (nr nc relP : Nat) (queue : List SubrowInfo) :
    List SubrowInfo :=
  queue.flatMap (fun cur =>
    if tr.T.getD cur.z false then
      (List.range tr.kc).map (fun j =>
        ⟨cur.dq + j * nc, rank1 tr.T (cur.z + 1) * tr.kr * tr.kc + tr.kc * (relP / nr) + j⟩)
    else [])

/-- State of the level loop: current subtree extents, row residual and the
queue. -/
structure SuccState where
  nr : Nat
  nc : Nat
  relP : Nat
  queue : List SubrowInfo

/-- The level loop of allSuccessorPositionsIterative (fuelled; the entry point
supplies fuel h, an upper bound on the h - 2 passes the source loop makes).
The source loop condition is nr > 1, updating relP %= nr with the current nr
and then dividing nr and nc by the arities. -/
def succLoop (tr : KrKcTree E) : (fuel : Nat) → (nr nc relP : Nat) →
    List SubrowInfo → SuccState
  | 0, nr, nc, relP, queue => ⟨nr, nc, relP, queue⟩
  | fuel + 1, nr, nc, relP, queue =>
    if 1 < nr then
      succLoop tr fuel (nr / tr.kr) (nc / tr.kc) (relP % nr) (succStep tr nr nc relP queue)
    else ⟨nr, nc, relP, queue⟩

/-- Embedding of allSuccessorPositionsIterative: the empty-L and empty-T early
exits, the seed of the first-level stripes, the level loop, and the final pass
that reads L. -/
def allSuccessorPositionsIterative (tr : KrKcTree E) (p : Nat) : List Nat :=
  if tr.L.isEmpty then []
  else if tr.T.length = 0 then
    (List.range tr.numCols).filterMap (fun i =>
      if tr.L.getD (p * tr.numCols + i) tr.null ≠ tr.null then some i else none)
  else
    let nr0 := tr.numRows / tr.kr
    let nc0 := tr.numCols / tr.kc
    let q0 : List SubrowInfo := (List.range tr.kc).map (fun j =>
      ⟨j * nc0, tr.kc * (p / nr0) + j⟩)
    let st := succLoop tr tr.h (nr0 / tr.kr) (nc0 / tr.kc) (p % nr0) q0
    st.queue.flatMap (fun cur =>
      if tr.T.getD cur.z false then
        let y := rank1 tr.T (cur.z + 1) * tr.kr * tr.kc + tr.kc * (st.relP / st.nr)
          - tr.T.length
        (List.range tr.kc).filterMap (fun j =>
          if tr.L.getD (y + j) tr.null ≠ tr.null then some (cur.dq + j * st.nc) else none)
      else [])

/-- Embedding of getSuccessorPositions. -/
def getSuccessorPositions (tr : KrKcTree E) (i : Nat) : List Nat :=
  allSuccessorPositionsIterative tr i

/-- Stack frame of the iterative first-successor search
(ExtendedSubrowInfo): subtree extents, row residual, column offset, absolute
bit position and the next child index j. -/
structure ExtSubrow where
  nr : Nat
  nc : Nat
  p : Nat
  dq : Nat
  z : Nat
  j : Nat
deriving DecidableEq, Repr

/-- Termination potential of one stack frame of the first-successor machine. -/
def frameMu (kc : Nat) (fr : ExtSubrow) : Nat :=
  (kc - fr.j) * (kc + 2) ^ fr.nr

/-- Termination potential of the whole stack; every machine step except a pop
decreases it, and the pops are bounded by the pushes, so
2 * stackMu + length + 1 steps always suffice. -/
def stackMu (kc : Nat) (s : List ExtSubrow) : Nat :=
  (s.map (frameMu kc)).sum

/-- The frame advance cur.dq += cur.nc; cur.z++; cur.j++ performed by the
source after examining (and possibly descending into) the current child. -/
def frameAdvance (fr : ExtSubrow) : ExtSubrow :=
  { fr with dq := fr.dq + fr.nc, z := fr.z + 1, j := fr.j + 1 }

/-- The child frame the source pushes when the current child's bit is set. -/
def framePush (tr : KrKcTree E) (fr : ExtSubrow) : ExtSubrow :=
  ⟨fr.nr / tr.kr, fr.nc / tr.kc, fr.p % (fr.nr / tr.kr), fr.dq,
    rank1 tr.T (fr.z + 1) * tr.kr * tr.kc + tr.kc * (fr.p / (fr.nr / tr.kr)), 0⟩

/-- Embedding of the while loop of firstSuccessorPositionIterative as a
fuelled function of the explicit stack.  Each step inspects the top frame: a
finished frame (j = kc in the source; j >= kc here, which is the same for the
frames the machine creates since j starts at 0 and increases by 1) is popped;
a leaf hit returns its column offset dq; a set internal bit pushes a child
frame before the advance of the current frame, exactly as in the source.  An
empty stack returns numCols.  The divisor guard only changes the degenerate
parameters kr <= 1 on which the source would not terminate (the push is then
skipped). -/
def firstSuccMachine (tr : KrKcTree E) : (fuel : Nat) → List ExtSubrow → Nat
  | 0, _ => tr.numCols
  | _ + 1, [] => tr.numCols
  | fuel + 1, fr :: rest =>
    if fr.j ≥ tr.kc then firstSuccMachine tr fuel rest
    else
      if fr.z ≥ tr.T.length then
        if tr.L.getD (fr.z - tr.T.length) tr.null ≠ tr.null then fr.dq
        else firstSuccMachine tr fuel (frameAdvance fr :: rest)
      else
        if tr.T.getD fr.z false then
          if fr.nr / tr.kr < fr.nr then
            firstSuccMachine tr fuel (framePush tr fr :: frameAdvance fr :: rest)
          else firstSuccMachine tr fuel (frameAdvance fr :: rest)
        else firstSuccMachine tr fuel (frameAdvance fr :: rest)

/-- Embedding of firstSuccessorPositionIterative: the empty-L and empty-T
early exits (the empty-T branch scans row p of L and falls through to
numCols), then the stack machine seeded with the row's first-level frame and
enough fuel for any run from that frame. -/
def firstSuccessorPositionIterative (tr : KrKcTree E) (p : Nat) : Nat :=
  if tr.L.isEmpty then tr.numCols
  else if tr.T.length = 0 then
    match (List.range tr.numCols).find? (fun i =>
        decide (tr.L.getD (p * tr.numCols + i) tr.null ≠ tr.null)) with
    | some i => i
    | none => tr.numCols
  else
    let fr : ExtSubrow := ⟨tr.numRows / tr.kr, tr.numCols / tr.kc,
      p % (tr.numRows / tr.kr), 0, tr.kc * (p / (tr.numRows / tr.kr)), 0⟩
    firstSuccMachine tr (2 * stackMu tr.kc [fr] + 2) [fr]

/-- Embedding of getFirstSuccessor. -/
def getFirstSuccessor (tr : KrKcTree E) (i : Nat) : Nat :=
  firstSuccessorPositionIterative tr i

/-- Insertion of a block of values at a position of a list, rendering the
source calls L.insert(L.begin() + pos, count, value) and
T.insert(T.begin() + pos, count, value). -/
def insertBlockAt (l : List α) (pos : Nat) (blk : List α) : List α :=
  l.take pos ++ blk ++ l.drop pos

/-- Embedding of the recursive helper insert of the Mode L2 builder (dynamic
bitmaps), fuelled (the entry point supplies fuel h; the source recursion stops
at l + 1 = h).  The NaiveDynamicRank sidecar R is specified (spec section 6)
to always answer the number of 1-bits in the first pos positions of the
current T, and the source keeps it in sync through increaseFrom and insert;
the embedding therefore recomputes rank1 on the current T at each use.  The
parameter one is the elem_type value of the C++ literal 1 that the source
assigns to the leaf cell (note: the source assigns 1, not val). -/
def dynInsert (null one : E) (kr kc hh : Nat) :
    (fuel : Nat) → (numRows numCols p q : Nat) → (val : E) → (z l : Nat) →
      List Bool × List E → List Bool × List E
  | 0, _, _, _, _, _, _, _, st => st
  | fuel + 1, numRows, numCols, p, q, val, z, l, st =>
    let T := st.1
    let L := st.2
    if T.getD z false = false then
      let T1 := T.set z true
      let y := rank1 T1 (z + 1) * kr * kc + p / (numRows / kr) * kc + q / (numCols / kc)
      if l + 1 = hh then
        let L1 := insertBlockAt L (rank1 T1 (z + 1) * kr * kc - T1.length)
          (List.replicate (kr * kc) null)
        (T1, L1.set (y - T1.length) one)
      else
        let T2 := insertBlockAt T1 (rank1 T1 (z + 1) * kr * kc)
          (List.replicate (kr * kc) false)
        dynInsert null one kr kc hh fuel (numRows / kr) (numCols / kc)
          (p % (numRows / kr)) (q % (numCols / kc)) val y (l + 1) (T2, L)
    else
      let y := rank1 T (z + 1) * kr * kc + p / (numRows / kr) * kc + q / (numCols / kc)
      if l + 1 = hh then
        (T, L.set (y - T.length) one)
      else
        dynInsert null one kr kc hh fuel (numRows / kr) (numCols / kc)
          (p % (numRows / kr)) (q % (numCols / kc)) val y (l + 1) (T, L)

/-- Embedding of insertInit of the Mode L2 builder. -/
def dynInsertInit (null one : E) (kr kc hh numRows numCols : Nat) (p q : Nat) (val : E)
    (st : List Bool × List E) : List Bool × List E :=
  let st1 := if st.1.isEmpty then (List.replicate (kr * kc) false, st.2) else st
  dynInsert null one kr kc hh hh (numRows / kr) (numCols / kc) (p % (numRows / kr))
    (q % (numCols / kc)) val (p / (numRows / kr) * kc + q / (numCols / kc)) 1 st1

/-- Embedding of buildFromListsDynamicBitmaps (Mode L2, unwindowed): the h = 1
special case writes directly into a presized L, otherwise every (row, column,
value) entry is inserted into the growing bitmaps. -/
def buildFromListsDynamicBitmaps (lists : List (List (Nat × E)))
    (null one : E) (kr kc hh numRows numCols : Nat) : List Bool × List E :=
  if hh = 1 then
    let L0 : List E := List.replicate (kr * kc) null
    let L1 := (lists.enum).foldl (fun L ir =>
      ir.2.foldl (fun L cv => L.set (ir.1 * kc + cv.1) cv.2) L) L0
    ([], if L1.all (fun e => decide (e = null)) then [] else L1)
  else
    (lists.enum).foldl (fun st ir =>
      ir.2.foldl (fun st cv => dynInsertInit null one kr kc hh numRows numCols ir.1 cv.1 cv.2 st)
        st) ([], [])

/-- Embedding of the list-of-lists constructor for mode = 2 (Mode L2): derive
the column bound maxCol and the height exactly as the source does, then run
the dynamic-bitmap builder. -/
def krKcTreeOfListsMode2 (lists : List (List (Nat × E))) (kr kc : Nat) (null one : E) :
    KrKcTree E :=
  let maxCol := (lists.foldl (fun m row => row.foldl (fun m cv => max m cv.1) m) 0) + 1
  let h := max 1 (max (logK lists.length kr) (logK maxCol kc))
  let numRows := kr ^ h
  let numCols := kc ^ h
  let st := buildFromListsDynamicBitmaps lists null one kr kc h numRows numCols
  { T := st.1, L := st.2, h := h, kr := kr, kc := kc,
    numRows := numRows, numCols := numCols, null := null }

/-- Embedding of the bool specialisation's buildFromMatrix.  Unlike the
generic version, the leaf-level bits are a level buffer levels[h-1] (rendered
as the last chunk), and the common tail suppresses an all-zero group, leaf or
internal, by returning false without appending.  A node of remaining depth d
touches levels (l-1) .. (h-1), so it returns d+1 chunks. -/
def boolBuildFromMatrix (mat : List (List Bool)) (kr kc : Nat) :
    (d : Nat) → (numRows numCols p q : Nat) → List (List Bool) × Bool
  | 0, _, _, p, q =>
      let C := (slots kr kc).map (fun ij => matRead mat false (p + ij.1) (q + ij.2))
      if C.all (fun b => !b) then ([[]], false)
      else ([C], true)
  | d + 1, numRows, numCols, p, q =>
      let sub := (slots kr kc).map (fun ij =>
        boolBuildFromMatrix mat kr kc d (numRows / kr) (numCols / kc)
          (p + ij.1 * (numRows / kr)) (q + ij.2 * (numCols / kc)))
      let C : List Bool := sub.map (fun r => r.2)
      let chunks : List (List Bool) :=
        (List.range (d + 1)).map (fun u => (sub.map (fun r => r.1.getD u [])).flatten)
      if C.all (fun b => !b) then ([] :: chunks, false)
      else (C :: chunks, true)

/-- Embedding of the bool specialisation's matrix constructor: T is the
concatenation of the first h - 1 level buffers and L is the last one
(levels[h-1]). -/
def boolKrKcTreeOfMatrix (mat : List (List Bool)) (kr kc : Nat) : KrKcTree Bool :=
  let h := max 1 (max (logK mat.length kr) (logK (mat.headD []).length kc))
  let numRows := kr ^ h
  let numCols := kc ^ h
  let r := boolBuildFromMatrix mat kr kc (h - 1) numRows numCols 0 0
  { T := (r.1.take (h - 1)).flatten, L := r.1.getD (h - 1) [], h := h, kr := kr, kc := kc,
    numRows := numRows, numCols := numCols, null := false }

/-- Embedding of the error message built by checkParameters.  In the source
the expression contains a single = (assignment) where a + was intended; since
assignment binds looser than concatenation and evaluates to the assigned
value, the whole prefix up to and including the text nr = <nr> is discarded
and the message starts with the digits of nc. -/
def checkParametersMessage (_nr nc kr kc hh numRows numCols : Nat) : String :=
  toString nc ++ ", kr = " ++ toString kr ++ " and kc = " ++ toString kc
    ++ " leading to h = " ++ toString hh ++ " and " ++ toString numRows
    ++ " rows resp. " ++ toString numCols ++ " columns."

/-- Embedding of checkParameters: throws exactly when the window dimensions
differ from the padded dimensions computed from the derived height. -/
def checkParameters (nr nc kr kc hh numRows numCols : Nat) : Except String Unit :=
  if numRows ≠ nr ∨ numCols ≠ nc then
    Except.error (checkParametersMessage nr nc kr kc hh numRows numCols)
  else Except.ok ()

/-- The parameter validation performed by every windowed constructor: derive h
from the window dimensions, compute the padded dimensions, and run
checkParameters. -/
def windowedCheck (nr nc kr kc : Nat) : Except String Unit :=
  let h := max 1 (max (logK nr kr) (logK nc kc))
  checkParameters nr nc kr kc h (kr ^ h) (kc ^ h)

/-- Example: the 1 x 4 relation holding value 5 at cell (0, 2), as a dense
matrix. -/
def exMatRow5 : List (List Nat) :=
  [[0, 0, 5, 0]]

/-- The same relation as a list-of-lists (row 0 maps column 2 to value 5). -/
def exListsRow5 : List (List (Nat × Nat)) :=
  [[(2, 5)]]

/-- Example: a 2 x 2 boolean-like numeric relation with a single non-null cell
at (0, 0), built by the matrix constructor with null = 0 (height 1, T empty,
L = [1, 0, 0, 0]). -/
def exTreeOne : KrKcTree Nat :=
  krKcTreeOfMatrix [[1, 0], [0, 0]] 2 2 0

/-- exTreeOne after clearing its only non-null cell with setNull: the leaf
bits are [0, 0, 0, 0] but L stays non-empty, so the whole-extent shortcut of
containsElement still fires. -/
def exTreeCleared : KrKcTree Nat :=
  setNull exTreeOne 0 0

/-- Example: a 4 x 4 boolean matrix with a single one at (0, 0); three of the
four visited leaf groups are all-zero. -/
def exBoolMat : List (List Bool) :=
  [[true, false, false, false], [false, false, false, false],
   [false, false, false, false], [false, false, false, false]]

/-!
Proof-side description of the built encoding.  A region of the padded
relation is identified by its cell origin (p, q) and its size exponents
(a, b), covering the cells [p, p + kr^a) x [q, q + kc^b).  The conceptual
tree's nodes at depth t below a region are the occupied (non-pruned)
sub-regions with exponents reduced by t, listed in level order.
-/

/-- Occupancy of the region at (p, q) with exponents (a, b): true iff some
cell of the region differs from null. -/
def occ (f : Nat → Nat → E) (null : E) (kr kc p q a b : Nat) : Bool :=
  (List.range (kr ^ a)).any (fun i => (List.range (kc ^ b)).any (fun j =>
    decide (f (p + i) (q + j) ≠ null)))

/-- Origins of the kr * kc child regions (with exponents (a, b)) of the
region at (p, q) with exponents (a + 1, b + 1), in slot order. -/
def childOrigins (kr kc p q a b : Nat) : List (Nat × Nat) :=
  (slots kr kc).map (fun ij => (p + ij.1 * kr ^ a, q + ij.2 * kc ^ b))

/-- The occupied nodes at relative depth t below the region at (p, q) with
exponents (a, b), in level order (each node given by its origin; depth-t
nodes have exponents (a - t, b - t)). -/
def lvl (f : Nat → Nat → E) (null : E) (kr kc : Nat) :
    (t : Nat) → (p q a b : Nat) → List (Nat × Nat)
  | 0, p, q, a, b => if occ f null kr kc p q a b then [(p, q)] else []
  | t + 1, p, q, a, b =>
      (childOrigins kr kc p q (a - 1) (b - 1)).flatMap
        (fun c => lvl f null kr kc t c.1 c.2 (a - 1) (b - 1))

/-- The level-t bitmap contributed by the subtree of the region at (p, q)
with exponents (a, b): one kr * kc bit group per occupied depth-t node, one
bit per child slot, set iff that child region is occupied. -/
def lvlBits (f : Nat → Nat → E) (null : E) (kr kc : Nat) :
    (t : Nat) → (p q a b : Nat) → List Bool
  | 0, p, q, a, b =>
      if occ f null kr kc p q a b then
        (childOrigins kr kc p q (a - 1) (b - 1)).map
          (fun c => occ f null kr kc c.1 c.2 (a - 1) (b - 1))
      else []
  | t + 1, p, q, a, b =>
      (childOrigins kr kc p q (a - 1) (b - 1)).flatMap
        (fun c => lvlBits f null kr kc t c.1 c.2 (a - 1) (b - 1))

/-- The leaf values contributed by the subtree of the region at (p, q) with
exponents (a, b), the depth-t nodes being the leaf groups: one kr * kc value
group per occupied depth-t node (used with t such that the nodes have
exponents (1, 1), so the group members are single cells). -/
def lvlVals (f : Nat → Nat → E) (null : E) (kr kc : Nat) :
    (t : Nat) → (p q a b : Nat) → List E
  | 0, p, q, a, b =>
      if occ f null kr kc p q a b then
        (childOrigins kr kc p q (a - 1) (b - 1)).map (fun c => f c.1 c.2)
      else []
  | t + 1, p, q, a, b =>
      (childOrigins kr kc p q (a - 1) (b - 1)).flatMap
        (fun c => lvlVals f null kr kc t c.1 c.2 (a - 1) (b - 1))

/-- The padded-relation view of a dense matrix: the matrix entry inside the
original extent and null outside. -/
def matF (mat : List (List E)) (null : E) : Nat → Nat → E :=
  matRead mat null

/-- The level-order node list of the whole structure at depth t. -/
def rootLvl (f : Nat → Nat → E) (null : E) (kr kc h t : Nat) : List (Nat × Nat) :=
  lvl f null kr kc t 0 0 h h

/-- Number of occupied nodes at depth t. -/
def lvlCount (f : Nat → Nat → E) (null : E) (kr kc h t : Nat) : Nat :=
  (rootLvl f null kr kc h t).length

/-- Bit offset of the level-t bitmap inside absT. -/
def lvlOff (f : Nat → Nat → E) (null : E) (kr kc h t : Nat) : Nat :=
  ((List.range t).map (fun u => lvlCount f null kr kc h u * (kr * kc))).sum

/-- The level-t bitmap of the whole structure. -/
def rootBits (f : Nat → Nat → E) (null : E) (kr kc h t : Nat) : List Bool :=
  lvlBits f null kr kc t 0 0 h h

/-- The abstract internal bit sequence of a built structure of height h:
concatenation of the level bitmaps of levels 0 .. h - 2. -/
def absT (f : Nat → Nat → E) (null : E) (kr kc h : Nat) : List Bool :=
  ((List.range (h - 1)).map (rootBits f null kr kc h)).flatten

/-- The abstract leaf value sequence of a built structure of height h. -/
def absL (f : Nat → Nat → E) (null : E) (kr kc h : Nat) : List E :=
  lvlVals f null kr kc (h - 1) 0 0 h h

/-- The n-th occupied node at depth t (origin). -/
def nodeAt (f : Nat → Nat → E) (null : E) (kr kc h t n : Nat) : Nat × Nat :=
  (rootLvl f null kr kc h t).getD n (0, 0)

/-- The origin of the slot-s child region of the n-th depth-t node (the child
has exponents (h - t - 1, h - t - 1)). -/
def childRegion (f : Nat → Nat → E) (null : E) (kr kc h t n s : Nat) : Nat × Nat :=
  (childOrigins kr kc (nodeAt f null kr kc h t n).1 (nodeAt f null kr kc h t n).2
    (h - t - 1) (h - t - 1)).getD s (0, 0)

/-- The index within the depth-(t+1) node list of the slot-s child of the
n-th depth-t node (meaningful when that child is occupied). -/
def mIdx (f : Nat → Nat → E) (null : E) (kr kc h t n s : Nat) : Nat :=
  (((rootLvl f null kr kc h t).take n).flatMap (fun c =>
    (childOrigins kr kc c.1 c.2 (h - t - 1) (h - t - 1)).filter
      (fun cc => occ f null kr kc cc.1 cc.2 (h - t - 1) (h - t - 1)))).length
  + ((childOrigins kr kc (nodeAt f null kr kc h t n).1 (nodeAt f null kr kc h t n).2
      (h - t - 1) (h - t - 1)).take s).countP
      (fun cc => occ f null kr kc cc.1 cc.2 (h - t - 1) (h - t - 1))

/-- Number of 1-bits in the level bitmaps above level t. -/
def sumN (f : Nat → Nat → E) (null : E) (kr kc h t : Nat) : Nat :=
  ((List.range t).map (fun u => lvlCount f null kr kc h (u + 1))).sum

/-- Proof-side replay of the point-navigation route: standing on slot s of the
n-th occupied depth-t node with residual coordinates (p, q) and m levels still
to descend, it returns the index into the leaf sequence that the recursion of
get/set will address (some), or none if the route dies on an unoccupied child
region.  Mirrors the routing of get and set exactly. -/
def leafScan (f : Nat → Nat → E) (null : E) (kr kc h : Nat) :
    (m t n s p q : Nat) → Option Nat
  | 0, _, _, _, _, _ => none
  | m + 1, t, n, s, p, q =>
      if m = 0 then some (n * (kr * kc) + s)
      else if occ f null kr kc (childRegion f null kr kc h t n s).1
          (childRegion f null kr kc h t n s).2 m m then
        leafScan f null kr kc h m (t + 1) (mIdx f null kr kc h t n s)
          (p / kr ^ (m - 1) * kc + q / kc ^ (m - 1))
          (p % kr ^ (m - 1)) (q % kc ^ (m - 1))
      else none

/-- The leaf index addressed by the navigation for cell (i, j), starting from
the root call (level-0 slot and residuals as computed by getInit/setInit). -/
def rootScan (f : Nat → Nat → E) (null : E) (kr kc h i j : Nat) : Option Nat :=
  leafScan f null kr kc h h 0 0
    (i / kr ^ (h - 1) * kc + j / kc ^ (h - 1))
    (i % kr ^ (h - 1)) (j % kc ^ (h - 1))

/-- Step-count bound for processing one child of a first-successor stack
frame whose children have extent exponent k (advance step plus, for internal
children, a whole child-frame run including its pop). -/
def fsCap (kc : Nat) : Nat → Nat
  | 0 => 1
  | k + 1 => 2 + kc * fsCap kc k

end K2

namespace K2

variable {E : Type} [DecidableEq E]

/-! List utilities used by the encoding lemmas. -/

theorem getD_map_range {α} (n u : Nat) (g : Nat → α) (d : α) (hu : u < n) :
    ((List.range n).map g).getD u d = g u := by
  have hlen : u < ((List.range n).map g).length := by simpa using hu
  rw [List.getD_eq_getElem _ _ hlen]
  simp

theorem flatMap_length_sum {α β} (l : List α) (g : α → List β) :
    (l.flatMap g).length = (l.map (fun x => (g x).length)).sum := by
  induction l with
  | nil => rfl
  | cons x xs ih => simp [List.flatMap_cons, ih]

theorem flatMap_length_const {α β} (l : List α) (g : α → List β) (K : Nat)
    (hK : ∀ x ∈ l, (g x).length = K) :
    (l.flatMap g).length = l.length * K := by
  induction l with
  | nil => simp
  | cons x xs ih =>
      simp only [List.flatMap_cons, List.length_append, List.length_cons]
      rw [hK x (by simp), ih (fun y hy => hK y (by simp [hy]))]
      ring

theorem flatMap_getD_const {α β} (l : List α) (g : α → List β) (K : Nat)
    (hK : ∀ x ∈ l, (g x).length = K) (n s : Nat) (hn : n < l.length) (hs : s < K)
    (d : β) (dx : α) :
    (l.flatMap g).getD (n * K + s) d = (g (l.getD n dx)).getD s d := by
  induction l generalizing n with
  | nil => simp at hn
  | cons x xs ih =>
      cases n with
      | zero =>
          simp only [List.flatMap_cons, Nat.zero_mul, Nat.zero_add, List.getD_cons_zero]
          exact List.getD_append _ _ _ _ (by rw [hK x (by simp)]; exact hs)
      | succ n =>
          simp only [List.flatMap_cons, List.getD_cons_succ]
          rw [List.getD_append_right _ _ _ _ (by rw [hK x (by simp)]; nlinarith)]
          rw [hK x (by simp), show (n + 1) * K + s - K = n * K + s by ring_nf; omega]
          exact ih (fun y hy => hK y (by simp [hy])) n (by simpa using hn)

theorem take_flatMap_const {α β} (l : List α) (g : α → List β) (K : Nat)
    (hK : ∀ x ∈ l, (g x).length = K) (n s : Nat) (hn : n < l.length) (hs : s ≤ K)
    (dx : α) :
    (l.flatMap g).take (n * K + s)
      = ((l.take n).flatMap g) ++ ((g (l.getD n dx)).take s) := by
  induction l generalizing n with
  | nil => simp at hn
  | cons x xs ih =>
      cases n with
      | zero =>
          simp only [List.flatMap_cons, Nat.zero_mul, Nat.zero_add, List.take_zero,
            List.flatMap_nil, List.nil_append, List.getD_cons_zero]
          exact List.take_append_of_le_length (by rw [hK x (by simp)]; exact hs)
      | succ n =>
          simp only [List.flatMap_cons, List.take_succ_cons, List.getD_cons_succ]
          have hx : (g x).length = K := hK x (by simp)
          have : (n + 1) * K + s = (g x).length + (n * K + s) := by rw [hx]; ring
          rw [this, List.take_append, List.append_assoc]
          congr 1
          exact ih (fun y hy => hK y (by simp [hy])) n (by simpa using hn)

theorem count_true_map {α} (l : List α) (pr : α → Bool) :
    (l.map pr).count true = l.countP pr := by
  induction l with
  | nil => rfl
  | cons x xs ih => simp [List.count_cons, List.countP_cons, ih]

theorem count_true_flatMap {α} (l : List α) (g : α → List Bool) :
    (l.flatMap g).count true = (l.map (fun x => (g x).count true)).sum := by
  induction l with
  | nil => rfl
  | cons x xs ih => simp [List.flatMap_cons, List.count_append, ih]

theorem filter_length_countP {α} (l : List α) (p : α → Bool) :
    (l.filter p).length = l.countP p :=
  (List.countP_eq_length_filter p l).symm

theorem flatMap_getD_at {α β} (l : List α) (g : α → List β) (n i : Nat)
    (hn : n < l.length) (dx : α) (hi : i < (g (l.getD n dx)).length) (d : β) :
    (l.flatMap g).getD (((l.take n).flatMap g).length + i) d
      = (g (l.getD n dx)).getD i d := by
  induction l generalizing n with
  | nil => simp at hn
  | cons x xs ih =>
      cases n with
      | zero =>
          simp only [List.take_zero, List.flatMap_nil, List.length_nil, Nat.zero_add,
            List.flatMap_cons, List.getD_cons_zero] at *
          exact List.getD_append _ _ _ _ hi
      | succ n =>
          have hn' : n < xs.length := by simpa using hn
          simp only [List.take_succ_cons, List.flatMap_cons, List.getD_cons_succ,
            List.length_append] at *
          rw [Nat.add_assoc, List.getD_append_right _ _ _ _ (by omega),
            Nat.add_sub_cancel_left]
          exact ih n hn' hi

theorem flatMap_prefix_lt {α β} (l : List α) (g : α → List β) (n i : Nat)
    (hn : n < l.length) (dx : α) (hi : i < (g (l.getD n dx)).length) :
    ((l.take n).flatMap g).length + i < (l.flatMap g).length := by
  induction l generalizing n with
  | nil => simp at hn
  | cons x xs ih =>
      cases n with
      | zero =>
          simp only [List.take_zero, List.flatMap_nil, List.length_nil, Nat.zero_add,
            List.flatMap_cons, List.length_append, List.getD_cons_zero] at *
          omega
      | succ n =>
          have hn' : n < xs.length := by simpa using hn
          simp only [List.take_succ_cons, List.flatMap_cons, List.length_append,
            List.getD_cons_succ] at *
          have := ih n hn' hi
          omega

theorem filter_getD_countP {α} (l : List α) (p : α → Bool) (i : Nat) (d dx : α)
    (hi : i < l.length) (hp : p (l.getD i dx) = true) :
    (l.filter p).getD ((l.take i).countP p) d = l.getD i dx := by
  induction l generalizing i with
  | nil => simp at hi
  | cons x xs ih =>
      cases i with
      | zero =>
          simp only [List.getD_cons_zero] at hp ⊢
          simp [List.filter_cons, hp]
      | succ i =>
          have hi' : i < xs.length := by simpa using hi
          simp only [List.getD_cons_succ] at hp ⊢
          simp only [List.take_succ_cons, List.countP_cons, List.filter_cons]
          by_cases hx : p x
          · simpa [hx] using ih i hi' hp
          · simpa [hx] using ih i hi' hp

theorem countP_take_lt_filter_length {α} (l : List α) (p : α → Bool) (i : Nat) (dx : α)
    (hi : i < l.length) (hp : p (l.getD i dx) = true) :
    (l.take i).countP p < (l.filter p).length := by
  induction l generalizing i with
  | nil => simp at hi
  | cons x xs ih =>
      cases i with
      | zero =>
          simp only [List.getD_cons_zero] at hp
          simp [List.filter_cons, hp]
      | succ i =>
          have hi' : i < xs.length := by simpa using hi
          simp only [List.getD_cons_succ] at hp
          simp only [List.take_succ_cons, List.countP_cons, List.filter_cons]
          by_cases hx : p x
          · have := ih i hi' hp
            simp only [hx, if_true, List.length_cons]
            omega
          · simpa [hx] using ih i hi' hp

theorem flatMap_singleton_filter {α} (l : List α) (p : α → Bool) :
    (l.flatMap (fun x => if p x then [x] else [])) = l.filter p := by
  induction l with
  | nil => rfl
  | cons x xs ih =>
      by_cases hx : p x <;> simp [List.flatMap_cons, List.filter_cons, hx, ih]

/-! Occupancy and region lemmas. -/

variable {f : Nat → Nat → E} {null : E}

theorem occ_iff {kr kc p q a b : Nat} :
    occ f null kr kc p q a b = true
      ↔ ∃ i < kr ^ a, ∃ j < kc ^ b, f (p + i) (q + j) ≠ null := by
  simp [occ, List.any_eq_true, List.mem_range]

theorem occ_false_all {kr kc p q a b : Nat} (hocc : occ f null kr kc p q a b = false) :
    ∀ i < kr ^ a, ∀ j < kc ^ b, f (p + i) (q + j) = null := by
  intro i hi j hj
  by_contra hne
  rw [(show (occ f null kr kc p q a b = true) from occ_iff.mpr ⟨i, hi, j, hj, hne⟩)] at hocc
  exact Bool.noConfusion hocc

theorem slots_length (kr kc : Nat) : (slots kr kc).length = kr * kc := by
  rw [slots, flatMap_length_const _ _ kc (fun x _ => by simp)]
  simp

theorem mem_slots {kr kc : Nat} {ij : Nat × Nat} :
    ij ∈ slots kr kc ↔ ij.1 < kr ∧ ij.2 < kc := by
  cases ij with
  | mk i j => simp [slots, List.mem_flatMap, List.mem_map, List.mem_range, eq_comm]

theorem mem_childOrigins {kr kc p q a b : Nat} {c : Nat × Nat} :
    c ∈ childOrigins kr kc p q a b
      ↔ ∃ si < kr, ∃ sj < kc, c = (p + si * kr ^ a, q + sj * kc ^ b) := by
  constructor
  · intro hc
    obtain ⟨ij, hij, rfl⟩ := List.mem_map.mp hc
    obtain ⟨h1, h2⟩ := mem_slots.mp hij
    exact ⟨ij.1, h1, ij.2, h2, rfl⟩
  · rintro ⟨si, hsi, sj, hsj, rfl⟩
    exact List.mem_map.mpr ⟨(si, sj), mem_slots.mpr ⟨hsi, hsj⟩, rfl⟩

theorem childOrigins_length (kr kc p q a b : Nat) :
    (childOrigins kr kc p q a b).length = kr * kc := by
  rw [childOrigins, List.length_map, slots_length]

theorem slots_getD {kr kc s : Nat} (hkc : 0 < kc) (hs : s < kr * kc) :
    (slots kr kc).getD s (0, 0) = (s / kc, s % kc) := by
  have hn : s / kc < kr := Nat.div_lt_of_lt_mul (by rw [Nat.mul_comm]; exact hs)
  have hmod : s % kc < kc := Nat.mod_lt _ hkc
  conv_lhs => rw [show s = (s / kc) * kc + s % kc from (Nat.div_add_mod' s kc).symm]
  rw [slots, flatMap_getD_const _ _ kc (fun x _ => by simp) _ _ (by simpa using hn) hmod _ 0]
  rw [show (List.range kr).getD (s / kc) 0 = s / kc by
    rw [List.getD_eq_getElem _ _ (by simpa using hn)]; simp]
  exact getD_map_range _ _ _ _ hmod

theorem childOrigins_getD {kr kc p q a b s : Nat} (hkc : 0 < kc) (hs : s < kr * kc) :
    (childOrigins kr kc p q a b).getD s (0, 0)
      = (p + (s / kc) * kr ^ a, q + (s % kc) * kc ^ b) := by
  have hlen : s < (slots kr kc).length := by rw [slots_length]; exact hs
  rw [childOrigins, List.getD_eq_getElem _ _ (by simpa using hlen), List.getElem_map]
  have := slots_getD hkc hs
  rw [List.getD_eq_getElem _ _ hlen] at this
  rw [this]

theorem occ_of_child {kr kc p q a b : Nat} (hkr : 1 ≤ kr) (hkc : 1 ≤ kc) {c : Nat × Nat}
    (hc : c ∈ childOrigins kr kc p q a b)
    (hocc : occ f null kr kc c.1 c.2 a b = true) :
    occ f null kr kc p q (a + 1) (b + 1) = true := by
  obtain ⟨si, hsi, sj, hsj, rfl⟩ := mem_childOrigins.mp hc
  obtain ⟨i, hi, j, hj, hne⟩ := occ_iff.mp hocc
  refine occ_iff.mpr ⟨si * kr ^ a + i, ?_, sj * kc ^ b + j, ?_, ?_⟩
  · calc si * kr ^ a + i < si * kr ^ a + kr ^ a := by omega
      _ = (si + 1) * kr ^ a := by ring
      _ ≤ kr * kr ^ a := Nat.mul_le_mul_right _ (by omega)
      _ = kr ^ (a + 1) := by ring
  · calc sj * kc ^ b + j < sj * kc ^ b + kc ^ b := by omega
      _ = (sj + 1) * kc ^ b := by ring
      _ ≤ kc * kc ^ b := Nat.mul_le_mul_right _ (by omega)
      _ = kc ^ (b + 1) := by ring
  · have e1 : p + (si * kr ^ a + i) = p + si * kr ^ a + i := by omega
    have e2 : q + (sj * kc ^ b + j) = q + sj * kc ^ b + j := by omega
    rw [e1, e2]
    exact hne

theorem occ_split {kr kc p q a b : Nat} (hkr : 1 ≤ kr) (hkc : 1 ≤ kc)
    (hocc : occ f null kr kc p q (a + 1) (b + 1) = true) :
    ∃ c ∈ childOrigins kr kc p q a b, occ f null kr kc c.1 c.2 a b = true := by
  obtain ⟨i, hi, j, hj, hne⟩ := occ_iff.mp hocc
  have hra : 0 < kr ^ a := Nat.pos_pow_of_pos _ (by omega)
  have hrb : 0 < kc ^ b := Nat.pos_pow_of_pos _ (by omega)
  refine ⟨(p + (i / kr ^ a) * kr ^ a, q + (j / kc ^ b) * kc ^ b),
    mem_childOrigins.mpr ⟨i / kr ^ a, ?_, j / kc ^ b, ?_, rfl⟩, ?_⟩
  · refine Nat.div_lt_of_lt_mul ?_
    rw [Nat.pow_succ] at hi
    exact hi
  · refine Nat.div_lt_of_lt_mul ?_
    rw [Nat.pow_succ] at hj
    exact hj
  · refine occ_iff.mpr ⟨i % kr ^ a, Nat.mod_lt _ hra, j % kc ^ b, Nat.mod_lt _ hrb, ?_⟩
    have e1 : p + (i / kr ^ a) * kr ^ a + i % kr ^ a = p + i := by
      rw [Nat.add_assoc, Nat.div_add_mod']
    have e2 : q + (j / kc ^ b) * kc ^ b + j % kc ^ b = q + j := by
      rw [Nat.add_assoc, Nat.div_add_mod']
    rw [e1, e2]
    exact hne

theorem occ_iff_child {kr kc p q a b : Nat} (hkr : 1 ≤ kr) (hkc : 1 ≤ kc) :
    occ f null kr kc p q (a + 1) (b + 1) = true
      ↔ ∃ c ∈ childOrigins kr kc p q a b, occ f null kr kc c.1 c.2 a b = true := by
  constructor
  · exact occ_split hkr hkc
  · rintro ⟨c, hc, hocc⟩
    exact occ_of_child hkr hkc hc hocc

/-! Level-structure lemmas: the depth-(t+1) node list refines the depth-t
one, and the level bitmaps and leaf groups are per-node concatenations. -/

theorem lvlBits_eq (kr kc : Nat) : ∀ (t p q a b : Nat),
    lvlBits f null kr kc t p q a b
      = (lvl f null kr kc t p q a b).flatMap (fun c =>
          (childOrigins kr kc c.1 c.2 (a - t - 1) (b - t - 1)).map
            (fun cc => occ f null kr kc cc.1 cc.2 (a - t - 1) (b - t - 1))) := by
  intro t
  induction t with
  | zero =>
      intro p q a b
      simp only [lvlBits, lvl]
      by_cases hocc : occ f null kr kc p q a b = true
      · simp [hocc]
      · simp [Bool.eq_false_iff.mpr hocc]
  | succ t ih =>
      intro p q a b
      have e1 : a - 1 - t - 1 = a - (t + 1) - 1 := by omega
      have e2 : b - 1 - t - 1 = b - (t + 1) - 1 := by omega
      simp only [lvlBits, lvl, ih, e1, e2, List.flatMap_assoc]

theorem lvlVals_eq (kr kc : Nat) : ∀ (t p q a b : Nat),
    lvlVals f null kr kc t p q a b
      = (lvl f null kr kc t p q a b).flatMap (fun c =>
          (childOrigins kr kc c.1 c.2 (a - t - 1) (b - t - 1)).map
            (fun cc => f cc.1 cc.2)) := by
  intro t
  induction t with
  | zero =>
      intro p q a b
      simp only [lvlVals, lvl]
      by_cases hocc : occ f null kr kc p q a b = true
      · simp [hocc]
      · simp [Bool.eq_false_iff.mpr hocc]
  | succ t ih =>
      intro p q a b
      have e1 : a - 1 - t - 1 = a - (t + 1) - 1 := by omega
      have e2 : b - 1 - t - 1 = b - (t + 1) - 1 := by omega
      simp only [lvlVals, lvl, ih, e1, e2, List.flatMap_assoc]

theorem lvl_succ_eq (kr kc : Nat) (hkr : 1 ≤ kr) (hkc : 1 ≤ kc) : ∀ (t p q a b : Nat),
    t + 1 ≤ a → t + 1 ≤ b →
    lvl f null kr kc (t + 1) p q a b
      = (lvl f null kr kc t p q a b).flatMap (fun c =>
          (childOrigins kr kc c.1 c.2 (a - t - 1) (b - t - 1)).filter
            (fun cc => occ f null kr kc cc.1 cc.2 (a - t - 1) (b - t - 1))) := by
  intro t
  induction t with
  | zero =>
      intro p q a b ha hb
      show (childOrigins kr kc p q (a - 1) (b - 1)).flatMap
          (fun c => lvl f null kr kc 0 c.1 c.2 (a - 1) (b - 1)) = _
      simp only [lvl]
      by_cases hocc : occ f null kr kc p q a b = true
      · rw [if_pos hocc]
        simp only [List.flatMap_cons, List.flatMap_nil, List.append_nil, Nat.sub_zero]
        exact flatMap_singleton_filter _ _
      · rw [if_neg hocc]
        simp only [List.flatMap_nil, Nat.sub_zero]
        rw [List.flatMap_eq_nil_iff.mpr]
        intro c hc
        rw [if_neg]
        intro hocc'
        apply hocc
        have := occ_of_child hkr hkc hc hocc'
        rwa [show a - 1 + 1 = a by omega, show b - 1 + 1 = b by omega] at this
  | succ t ih =>
      intro p q a b ha hb
      have e1 : a - 1 - t - 1 = a - (t + 1) - 1 := by omega
      have e2 : b - 1 - t - 1 = b - (t + 1) - 1 := by omega
      show (childOrigins kr kc p q (a - 1) (b - 1)).flatMap
          (fun c => lvl f null kr kc (t + 1) c.1 c.2 (a - 1) (b - 1)) = _
      have hfun : (fun c : Nat × Nat => lvl f null kr kc (t + 1) c.1 c.2 (a - 1) (b - 1))
          = fun c => (lvl f null kr kc t c.1 c.2 (a - 1) (b - 1)).flatMap (fun cc =>
              (childOrigins kr kc cc.1 cc.2 (a - 1 - t - 1) (b - 1 - t - 1)).filter
                (fun c3 => occ f null kr kc c3.1 c3.2 (a - 1 - t - 1) (b - 1 - t - 1))) :=
        funext (fun c => ih c.1 c.2 (a - 1) (b - 1) (by omega) (by omega))
      rw [hfun, ← List.flatMap_assoc]
      simp only [e1, e2]
      rfl

theorem lvl_nil_of_unocc (kr kc : Nat) (hkr : 1 ≤ kr) (hkc : 1 ≤ kc) :
    ∀ (t p q a b : Nat), t ≤ a → t ≤ b →
    occ f null kr kc p q a b = false → lvl f null kr kc t p q a b = [] := by
  intro t
  induction t with
  | zero =>
      intro p q a b _ _ hocc
      simp [lvl, hocc]
  | succ t ih =>
      intro p q a b ha hb hocc
      show (childOrigins kr kc p q (a - 1) (b - 1)).flatMap
          (fun c => lvl f null kr kc t c.1 c.2 (a - 1) (b - 1)) = []
      rw [List.flatMap_eq_nil_iff]
      intro c hc
      refine ih c.1 c.2 (a - 1) (b - 1) (by omega) (by omega) ?_
      by_contra hocc'
      rw [Bool.not_eq_false] at hocc'
      have := occ_of_child hkr hkc hc hocc'
      rw [show a - 1 + 1 = a by omega, show b - 1 + 1 = b by omega] at this
      rw [this] at hocc
      exact Bool.noConfusion hocc

theorem lvl_ne_nil_of_occ (kr kc : Nat) (hkr : 1 ≤ kr) (hkc : 1 ≤ kc) :
    ∀ (t p q a b : Nat), t ≤ a → t ≤ b →
    occ f null kr kc p q a b = true → lvl f null kr kc t p q a b ≠ [] := by
  intro t
  induction t with
  | zero =>
      intro p q a b _ _ hocc
      simp [lvl, hocc]
  | succ t ih =>
      intro p q a b ha hb hocc
      have hsplit := occ_split (a := a - 1) (b := b - 1) hkr hkc (by
        rwa [show a - 1 + 1 = a by omega, show b - 1 + 1 = b by omega])
      obtain ⟨c, hc, hocc'⟩ := hsplit
      show (childOrigins kr kc p q (a - 1) (b - 1)).flatMap
          (fun c => lvl f null kr kc t c.1 c.2 (a - 1) (b - 1)) ≠ []
      intro hnil
      rw [List.flatMap_eq_nil_iff] at hnil
      exact ih c.1 c.2 (a - 1) (b - 1) (by omega) (by omega) hocc' (hnil c hc)

/-! Root-level (whole-structure) lemmas about the assembled absT and absL. -/

theorem count_true_flatten (L : List (List Bool)) :
    L.flatten.count true = (L.map (fun l => l.count true)).sum := by
  induction L with
  | nil => rfl
  | cons x xs ih => simp [List.count_append, ih]

theorem rootLvl_succ (kr kc h t : Nat) (hkr : 1 ≤ kr) (hkc : 1 ≤ kc) (ht : t + 1 ≤ h) :
    rootLvl f null kr kc h (t + 1)
      = (rootLvl f null kr kc h t).flatMap (fun c =>
          (childOrigins kr kc c.1 c.2 (h - t - 1) (h - t - 1)).filter
            (fun cc => occ f null kr kc cc.1 cc.2 (h - t - 1) (h - t - 1))) :=
  lvl_succ_eq kr kc hkr hkc t 0 0 h h ht ht

theorem rootBits_def (kr kc h t : Nat) :
    rootBits f null kr kc h t
      = (rootLvl f null kr kc h t).flatMap (fun c =>
          (childOrigins kr kc c.1 c.2 (h - t - 1) (h - t - 1)).map
            (fun cc => occ f null kr kc cc.1 cc.2 (h - t - 1) (h - t - 1))) :=
  lvlBits_eq kr kc t 0 0 h h

theorem rootBits_length (kr kc h t : Nat) :
    (rootBits f null kr kc h t).length = lvlCount f null kr kc h t * (kr * kc) := by
  rw [rootBits_def]
  exact flatMap_length_const _ _ _ (fun c _ => by
    rw [List.length_map, childOrigins_length])

theorem lvlOff_succ (kr kc h t : Nat) :
    lvlOff f null kr kc h (t + 1)
      = lvlOff f null kr kc h t + lvlCount f null kr kc h t * (kr * kc) := by
  simp [lvlOff, List.range_succ]

theorem sumN_succ (kr kc h t : Nat) :
    sumN f null kr kc h (t + 1)
      = sumN f null kr kc h t + lvlCount f null kr kc h (t + 1) := by
  simp [sumN, List.range_succ]

theorem rootBits_count (kr kc h t : Nat) (hkr : 1 ≤ kr) (hkc : 1 ≤ kc) (ht : t + 1 ≤ h) :
    (rootBits f null kr kc h t).count true = lvlCount f null kr kc h (t + 1) := by
  rw [rootBits_def, count_true_flatMap, lvlCount, rootLvl_succ kr kc h t hkr hkc ht,
    flatMap_length_sum]
  apply congrArg
  apply List.map_congr_left
  intro c _
  rw [count_true_map, filter_length_countP]

theorem prefix_flatten_length (kr kc h t : Nat) :
    (((List.range t).map (rootBits f null kr kc h)).flatten).length
      = lvlOff f null kr kc h t := by
  rw [List.length_flatten, lvlOff, List.map_map]
  apply congrArg
  apply List.map_congr_left
  intro u _
  exact rootBits_length kr kc h u

theorem range_split (t m : Nat) (ht : t ≤ m) :
    List.range m = List.range t ++ List.range' t (m - t) := by
  have h1 : List.range' 0 t ++ List.range' (0 + t) (m - t) = List.range' 0 (t + (m - t)) := by
    simpa [Nat.add_comm] using List.range'_append 0 t (m - t) 1
  rw [List.range_eq_range' m, List.range_eq_range' t, show m = t + (m - t) by omega]
  rw [← h1]
  simp

theorem absT_decomp (kr kc h t : Nat) (ht : t ≤ h - 1) :
    absT f null kr kc h
      = ((List.range t).map (rootBits f null kr kc h)).flatten
        ++ ((List.range' t (h - 1 - t)).map (rootBits f null kr kc h)).flatten := by
  rw [absT, range_split t (h - 1) ht, List.map_append, List.flatten_append]

theorem absT_length (kr kc h : Nat) :
    (absT f null kr kc h).length = lvlOff f null kr kc h (h - 1) := by
  rw [absT, prefix_flatten_length]

theorem prefix_count (kr kc h t : Nat) (hkr : 1 ≤ kr) (hkc : 1 ≤ kc) (ht : t ≤ h - 1)
    (hh : 1 ≤ h) :
    (((List.range t).map (rootBits f null kr kc h)).flatten).count true
      = sumN f null kr kc h t := by
  rw [count_true_flatten, sumN, List.map_map]
  apply congrArg
  apply List.map_congr_left
  intro u hu
  have hu' : u < t := List.mem_range.mp hu
  exact rootBits_count kr kc h u hkr hkc (by omega)

theorem absT_getD_in (kr kc h t r : Nat) (ht : t < h - 1)
    (hr : r < (rootBits f null kr kc h t).length) (d : Bool) :
    (absT f null kr kc h).getD (lvlOff f null kr kc h t + r) d
      = (rootBits f null kr kc h t).getD r d := by
  have hlen : (((List.range t).map (rootBits f null kr kc h)).flatten).length
      = lvlOff f null kr kc h t := prefix_flatten_length kr kc h t
  rw [absT_decomp kr kc h t (by omega)]
  rw [List.getD_append_right _ _ _ _ (by rw [hlen]; omega), hlen, Nat.add_sub_cancel_left]
  rw [show h - 1 - t = (h - 1 - t - 1) + 1 by omega]
  have hr' : List.range' t (h - 1 - t - 1 + 1) = t :: List.range' (t + 1) (h - 1 - t - 1) := by
    simpa using List.range'_succ t (h - 1 - t - 1) 1
  rw [hr', List.map_cons, List.flatten_cons]
  exact List.getD_append _ _ _ _ hr

theorem rank1_absT (kr kc h t r : Nat) (hkr : 1 ≤ kr) (hkc : 1 ≤ kc) (hh : 1 ≤ h)
    (ht : t < h - 1) (hr : r ≤ (rootBits f null kr kc h t).length) :
    rank1 (absT f null kr kc h) (lvlOff f null kr kc h t + r)
      = sumN f null kr kc h t + ((rootBits f null kr kc h t).take r).count true := by
  have hlen : (((List.range t).map (rootBits f null kr kc h)).flatten).length
      = lvlOff f null kr kc h t := prefix_flatten_length kr kc h t
  rw [rank1, absT_decomp kr kc h t (by omega)]
  rw [show lvlOff f null kr kc h t + r
      = (((List.range t).map (rootBits f null kr kc h)).flatten).length + r by rw [hlen]]
  rw [List.take_append, List.count_append]
  congr 1
  · exact prefix_count kr kc h t hkr hkc (by omega) hh
  · rw [show h - 1 - t = (h - 1 - t - 1) + 1 by omega]
    have hr' : List.range' t (h - 1 - t - 1 + 1)
        = t :: List.range' (t + 1) (h - 1 - t - 1) := by
      simpa using List.range'_succ t (h - 1 - t - 1) 1
    rw [hr', List.map_cons, List.flatten_cons,
      List.take_append_of_le_length hr]

theorem lvlCount_zero (kr kc h : Nat) (hocc0 : occ f null kr kc 0 0 h h = true) :
    lvlCount f null kr kc h 0 = 1 := by
  simp [lvlCount, rootLvl, lvl, hocc0]

theorem lvlOff_eq_sumN (kr kc h : Nat) (hocc0 : occ f null kr kc 0 0 h h = true) :
    ∀ t, lvlOff f null kr kc h (t + 1) = (sumN f null kr kc h t + 1) * (kr * kc) := by
  intro t
  induction t with
  | zero =>
      rw [lvlOff_succ, lvlCount_zero kr kc h hocc0]
      simp [lvlOff, sumN]
  | succ t ih =>
      rw [lvlOff_succ, ih, sumN_succ]
      ring

theorem group_slot_lt (n s NN K : Nat) (hn : n < NN) (hs : s < K) :
    n * K + s < NN * K := by
  calc n * K + s < (n + 1) * K := by
        have : (n + 1) * K = n * K + K := by ring
        omega
    _ ≤ NN * K := Nat.mul_le_mul_right _ (by omega)

theorem bit_at (kr kc h t n s : Nat) (ht : t < h - 1)
    (hn : n < lvlCount f null kr kc h t) (hs : s < kr * kc) :
    (absT f null kr kc h).getD (lvlOff f null kr kc h t + (n * (kr * kc) + s)) false
      = occ f null kr kc (childRegion f null kr kc h t n s).1
          (childRegion f null kr kc h t n s).2 (h - t - 1) (h - t - 1) := by
  rw [absT_getD_in kr kc h t _ ht (by
    rw [rootBits_length]
    exact group_slot_lt n s _ _ hn hs)]
  rw [rootBits_def, flatMap_getD_const _ _ (kr * kc)
    (fun c _ => by rw [List.length_map, childOrigins_length]) n s hn hs _ (0, 0)]
  have hsl : s < (childOrigins kr kc ((rootLvl f null kr kc h t).getD n (0, 0)).1
      ((rootLvl f null kr kc h t).getD n (0, 0)).2 (h - t - 1) (h - t - 1)).length := by
    rw [childOrigins_length]; exact hs
  rw [List.getD_eq_getElem _ _ (by rw [List.length_map]; exact hsl), List.getElem_map]
  rw [childRegion, nodeAt, List.getD_eq_getElem _ _ hsl]

theorem child_index (kr kc h t n s : Nat) (hkr : 1 ≤ kr) (hkc : 1 ≤ kc)
    (ht : t < h - 1) (hn : n < lvlCount f null kr kc h t) (hs : s < kr * kc)
    (hocc : occ f null kr kc (childRegion f null kr kc h t n s).1
      (childRegion f null kr kc h t n s).2 (h - t - 1) (h - t - 1) = true) :
    (rootLvl f null kr kc h (t + 1)).getD (mIdx f null kr kc h t n s) (0, 0)
        = childRegion f null kr kc h t n s
      ∧ mIdx f null kr kc h t n s < lvlCount f null kr kc h (t + 1) := by
  have hstep : rootLvl f null kr kc h (t + 1)
      = (rootLvl f null kr kc h t).flatMap (fun c =>
          (childOrigins kr kc c.1 c.2 (h - t - 1) (h - t - 1)).filter
            (fun cc => occ f null kr kc cc.1 cc.2 (h - t - 1) (h - t - 1))) :=
    rootLvl_succ kr kc h t hkr hkc (by omega)
  set node := nodeAt f null kr kc h t n with hnode
  have hchlen : s < (childOrigins kr kc node.1 node.2 (h - t - 1) (h - t - 1)).length := by
    rw [childOrigins_length]; exact hs
  have hgetD : (childOrigins kr kc node.1 node.2 (h - t - 1) (h - t - 1)).getD s (0, 0)
      = childRegion f null kr kc h t n s := rfl
  have hinner : ((childOrigins kr kc node.1 node.2 (h - t - 1) (h - t - 1)).take s).countP
      (fun cc => occ f null kr kc cc.1 cc.2 (h - t - 1) (h - t - 1))
      < ((childOrigins kr kc node.1 node.2 (h - t - 1) (h - t - 1)).filter
          (fun cc => occ f null kr kc cc.1 cc.2 (h - t - 1) (h - t - 1))).length :=
    countP_take_lt_filter_length _ _ s (0, 0) hchlen (by rw [hgetD]; exact hocc)
  constructor
  · rw [hstep, mIdx]
    rw [flatMap_getD_at _ _ n _ hn (0, 0) (by
      rw [filter_length_countP] at hinner ⊢
      exact hinner) (0, 0)]
    exact (filter_getD_countP _ _ s (0, 0) (0, 0) hchlen
      (by rw [hgetD]; exact hocc)).trans hgetD
  · rw [lvlCount, hstep, mIdx]
    exact flatMap_prefix_lt _ _ n _ hn (0, 0) (by
      rw [filter_length_countP] at hinner ⊢
      exact hinner)

theorem child_rank (kr kc h t n s : Nat) (hkr : 1 ≤ kr) (hkc : 1 ≤ kc) (hh : 1 ≤ h)
    (hocc0 : occ f null kr kc 0 0 h h = true)
    (ht : t < h - 1) (hn : n < lvlCount f null kr kc h t) (hs : s < kr * kc)
    (hocc : occ f null kr kc (childRegion f null kr kc h t n s).1
      (childRegion f null kr kc h t n s).2 (h - t - 1) (h - t - 1) = true) :
    rank1 (absT f null kr kc h) (lvlOff f null kr kc h t + (n * (kr * kc) + s) + 1)
        * (kr * kc)
      = lvlOff f null kr kc h (t + 1) + mIdx f null kr kc h t n s * (kr * kc) := by
  have hrle : n * (kr * kc) + (s + 1) ≤ (rootBits f null kr kc h t).length := by
    rw [rootBits_length]
    have := group_slot_lt n s (lvlCount f null kr kc h t) (kr * kc) hn hs
    omega
  rw [show lvlOff f null kr kc h t + (n * (kr * kc) + s) + 1
      = lvlOff f null kr kc h t + (n * (kr * kc) + (s + 1)) by omega]
  rw [rank1_absT kr kc h t _ hkr hkc hh ht hrle]
  rw [rootBits_def, take_flatMap_const _ _ (kr * kc)
    (fun c _ => by rw [List.length_map, childOrigins_length]) n (s + 1) hn (by omega) (0, 0)]
  rw [List.count_append]
  have hcount1 : (((rootLvl f null kr kc h t).take n).flatMap (fun c =>
      (childOrigins kr kc c.1 c.2 (h - t - 1) (h - t - 1)).map
        (fun cc => occ f null kr kc cc.1 cc.2 (h - t - 1) (h - t - 1)))).count true
      = (((rootLvl f null kr kc h t).take n).flatMap (fun c =>
          (childOrigins kr kc c.1 c.2 (h - t - 1) (h - t - 1)).filter
            (fun cc => occ f null kr kc cc.1 cc.2 (h - t - 1) (h - t - 1)))).length := by
    rw [count_true_flatMap, flatMap_length_sum]
    apply congrArg
    apply List.map_congr_left
    intro c _
    rw [count_true_map, filter_length_countP]
  have hchlen : s < (childOrigins kr kc
      ((rootLvl f null kr kc h t).getD n (0, 0)).1
      ((rootLvl f null kr kc h t).getD n (0, 0)).2 (h - t - 1) (h - t - 1)).length := by
    rw [childOrigins_length]; exact hs
  have hcount2 : (((childOrigins kr kc
      ((rootLvl f null kr kc h t).getD n (0, 0)).1
      ((rootLvl f null kr kc h t).getD n (0, 0)).2 (h - t - 1) (h - t - 1)).map
        (fun cc => occ f null kr kc cc.1 cc.2 (h - t - 1) (h - t - 1))).take (s + 1)).count
        true
      = ((childOrigins kr kc
          ((rootLvl f null kr kc h t).getD n (0, 0)).1
          ((rootLvl f null kr kc h t).getD n (0, 0)).2 (h - t - 1) (h - t - 1)).take
          s).countP (fun cc => occ f null kr kc cc.1 cc.2 (h - t - 1) (h - t - 1))
        + 1 := by
    rw [← List.map_take, count_true_map]
    rw [List.take_succ, List.countP_append]
    have hone : (childOrigins kr kc
        ((rootLvl f null kr kc h t).getD n (0, 0)).1
        ((rootLvl f null kr kc h t).getD n (0, 0)).2 (h - t - 1) (h - t - 1))[s]?.toList
        = [childRegion f null kr kc h t n s] := by
      rw [List.getElem?_eq_getElem hchlen]
      show [_] = _
      congr 1
      rw [childRegion, nodeAt, List.getD_eq_getElem _ _ hchlen]
    rw [hone]
    simp only [List.countP_cons, List.countP_nil, hocc]
    simp
  rw [hcount1, hcount2]
  rw [lvlOff_eq_sumN kr kc h hocc0 t]
  simp only [mIdx, nodeAt]
  ring

theorem absL_def (kr kc h : Nat) (hh : 1 ≤ h) :
    absL f null kr kc h
      = (rootLvl f null kr kc h (h - 1)).flatMap (fun c =>
          (childOrigins kr kc c.1 c.2 0 0).map (fun cc => f cc.1 cc.2)) := by
  rw [absL, lvlVals_eq, rootLvl, show h - (h - 1) - 1 = 0 by omega]

theorem absL_length (kr kc h : Nat) (hh : 1 ≤ h) :
    (absL f null kr kc h).length = lvlCount f null kr kc h (h - 1) * (kr * kc) := by
  rw [absL_def kr kc h hh]
  exact flatMap_length_const _ _ _ (fun c _ => by rw [List.length_map, childOrigins_length])

theorem absL_getD (kr kc h n s : Nat) (hh : 1 ≤ h)
    (hn : n < lvlCount f null kr kc h (h - 1)) (hs : s < kr * kc) :
    (absL f null kr kc h).getD (n * (kr * kc) + s) null
      = f (childRegion f null kr kc h (h - 1) n s).1
          (childRegion f null kr kc h (h - 1) n s).2 := by
  rw [absL_def kr kc h hh]
  rw [flatMap_getD_const _ _ (kr * kc)
    (fun c _ => by rw [List.length_map, childOrigins_length]) n s hn hs _ (0, 0)]
  have hsl : s < (childOrigins kr kc ((rootLvl f null kr kc h (h - 1)).getD n (0, 0)).1
      ((rootLvl f null kr kc h (h - 1)).getD n (0, 0)).2 0 0).length := by
    rw [childOrigins_length]; exact hs
  rw [List.getD_eq_getElem _ _ (by rw [List.length_map]; exact hsl), List.getElem_map]
  rw [childRegion, nodeAt, show h - (h - 1) - 1 = 0 by omega,
    List.getD_eq_getElem _ _ hsl]

theorem absL_eq_nil_iff (kr kc h : Nat) (hkr : 1 ≤ kr) (hkc : 1 ≤ kc) (hh : 1 ≤ h) :
    absL f null kr kc h = [] ↔ occ f null kr kc 0 0 h h = false := by
  constructor
  · intro hnil
    by_contra hocc
    rw [Bool.not_eq_false] at hocc
    have hne := lvl_ne_nil_of_occ kr kc hkr hkc (h - 1) 0 0 h h (by omega) (by omega) hocc
    have hlen : (absL f null kr kc h).length = 0 := by rw [hnil]; rfl
    rw [absL_length kr kc h hh] at hlen
    have hK : 0 < kr * kc := Nat.mul_pos (by omega) (by omega)
    have h0 : lvlCount f null kr kc h (h - 1) = 0 := by
      rcases Nat.mul_eq_zero.mp hlen with h0 | h0
      · exact h0
      · omega
    exact hne (List.length_eq_zero.mp h0)
  · intro hocc
    rw [absL_def kr kc h hh, rootLvl,
      lvl_nil_of_unocc kr kc hkr hkc (h - 1) 0 0 h h (by omega) (by omega) hocc]
    rfl

theorem lvlOff_mono (kr kc h : Nat) : ∀ (t1 t2 : Nat), t1 ≤ t2 →
    lvlOff f null kr kc h t1 ≤ lvlOff f null kr kc h t2 := by
  intro t1 t2
  induction t2 with
  | zero =>
      intro h12
      rw [show t1 = 0 by omega]
  | succ t2 ih =>
      intro h12
      rcases Nat.lt_or_ge t1 (t2 + 1) with hlt | hge
      · have := ih (by omega)
        rw [lvlOff_succ]
        omega
      · rw [show t1 = t2 + 1 by omega]

/-- Correctness of the fuelled point-query recursion over the abstract
structure: standing on the bit of slot s of the n-th occupied depth-t node,
with residual in-region coordinates (p, q), get returns the relation value of
the addressed cell.  m is the number of levels still to descend (fuel). -/
theorem get_nav (tr : KrKcTree E) (kr kc h : Nat) (hkr : 1 ≤ kr) (hkc : 1 ≤ kc)
    (hh : 1 ≤ h)
    (hT : tr.T = absT f null kr kc h) (hL : tr.L = absL f null kr kc h)
    (hkrt : tr.kr = kr) (hkct : tr.kc = kc) (hnull : tr.null = null)
    (hocc0 : occ f null kr kc 0 0 h h = true) :
    ∀ (m : Nat), 1 ≤ m → ∀ (t n s p q : Nat), t + m = h →
    n < lvlCount f null kr kc h t → s < kr * kc →
    p < kr ^ (m - 1) → q < kc ^ (m - 1) →
    get tr m (kr ^ (m - 1)) (kc ^ (m - 1)) p q
        (lvlOff f null kr kc h t + (n * (kr * kc) + s))
      = f ((childRegion f null kr kc h t n s).1 + p)
          ((childRegion f null kr kc h t n s).2 + q) := by
  intro m
  induction m with
  | zero => intro h1; exact absurd h1 (by omega)
  | succ m ih =>
      intro _ t n s p q htm hn hs hp hq
      by_cases hm : m = 0
      · subst hm
        have ht : t = h - 1 := by omega
        have hp0 : p = 0 := by simpa using hp
        have hq0 : q = 0 := by simpa using hq
        subst hp0 hq0
        have hlen : tr.T.length = lvlOff f null kr kc h (h - 1) := by
          rw [hT, absT_length]
        simp only [get]
        rw [if_pos (by rw [hlen, ht]; omega)]
        rw [hL, hnull, hlen, ht, Nat.add_sub_cancel_left]
        rw [absL_getD kr kc h n s hh (by rw [← ht]; exact hn) hs]
        simp
      · have hm1 : 1 ≤ m := by omega
        have ht : t < h - 1 := by omega
        have hmht : h - t - 1 = m := by omega
        have hA : kr ^ m / kr = kr ^ (m - 1) := by
          conv_lhs => rw [show m = (m - 1) + 1 by omega, pow_succ]
          rw [Nat.mul_div_cancel _ (show 0 < kr by omega)]
        have hB : kc ^ m / kc = kc ^ (m - 1) := by
          conv_lhs => rw [show m = (m - 1) + 1 by omega, pow_succ]
          rw [Nat.mul_div_cancel _ (show 0 < kc by omega)]
        have hApos : 0 < kr ^ (m - 1) := Nat.pos_pow_of_pos _ (by omega)
        have hBpos : 0 < kc ^ (m - 1) := Nat.pos_pow_of_pos _ (by omega)
        have hzlt : lvlOff f null kr kc h t + (n * (kr * kc) + s) < tr.T.length := by
          rw [hT, absT_length]
          have h1 := group_slot_lt n s (lvlCount f null kr kc h t) (kr * kc) hn hs
          have h2 : lvlOff f null kr kc h (t + 1) ≤ lvlOff f null kr kc h (h - 1) :=
            lvlOff_mono kr kc h (t + 1) (h - 1) (by omega)
          rw [lvlOff_succ] at h2
          omega
        have hbit := bit_at (f := f) kr kc h t n s ht hn hs
        simp only [get]
        rw [if_neg (by omega)]
        rw [hT, hkrt, hkct, hnull, hbit, hmht]
        rw [show (m + 1 - 1 : Nat) = m from rfl, hA, hB]
        cases hocc : occ f null kr kc (childRegion f null kr kc h t n s).1
            (childRegion f null kr kc h t n s).2 m m with
        | false =>
            rw [if_neg (by simp)]
            have hall := occ_false_all (f := f) hocc
            exact (hall p hp q hq).symm
        | true =>
            rw [if_pos rfl]
            have hoccm : occ f null kr kc (childRegion f null kr kc h t n s).1
                (childRegion f null kr kc h t n s).2 (h - t - 1) (h - t - 1) = true := by
              rw [hmht]; exact hocc
            have hrank := child_rank (f := f) kr kc h t n s hkr hkc hh
              hocc0 ht hn hs hoccm
            have hidx := child_index (f := f) kr kc h t n s hkr hkc
              ht hn hs hoccm
            have hdr : p / kr ^ (m - 1) < kr := by
              apply Nat.div_lt_of_lt_mul
              rw [← pow_succ, show m - 1 + 1 = m by omega]
              exact hp
            have hdc : q / kc ^ (m - 1) < kc := by
              apply Nat.div_lt_of_lt_mul
              rw [← pow_succ, show m - 1 + 1 = m by omega]
              exact hq
            have hs' : p / kr ^ (m - 1) * kc + q / kc ^ (m - 1) < kr * kc :=
              group_slot_lt _ _ _ _ hdr hdc
            have hz' : rank1 (absT f null kr kc h)
                  (lvlOff f null kr kc h t + (n * (kr * kc) + s) + 1) * kr * kc
                  + p / kr ^ (m - 1) * kc + q / kc ^ (m - 1)
                = lvlOff f null kr kc h (t + 1)
                  + (mIdx f null kr kc h t n s * (kr * kc)
                    + (p / kr ^ (m - 1) * kc + q / kc ^ (m - 1))) := by
              rw [Nat.mul_assoc, hrank]
              omega
            rw [hz']
            have hrec := ih hm1 (t + 1) (mIdx f null kr kc h t n s)
              (p / kr ^ (m - 1) * kc + q / kc ^ (m - 1))
              (p % kr ^ (m - 1)) (q % kc ^ (m - 1)) (by omega) hidx.2 hs'
              (Nat.mod_lt _ hApos) (Nat.mod_lt _ hBpos)
            rw [hrec]
            have hcr : childRegion f null kr kc h (t + 1) (mIdx f null kr kc h t n s)
                  (p / kr ^ (m - 1) * kc + q / kc ^ (m - 1))
                = ((childRegion f null kr kc h t n s).1
                      + p / kr ^ (m - 1) * kr ^ (m - 1),
                    (childRegion f null kr kc h t n s).2
                      + q / kc ^ (m - 1) * kc ^ (m - 1)) := by
              rw [childRegion, nodeAt, hidx.1, show h - (t + 1) - 1 = m - 1 by omega]
              rw [childOrigins_getD (show 0 < kc by omega) hs']
              have hdiv : (p / kr ^ (m - 1) * kc + q / kc ^ (m - 1)) / kc
                  = p / kr ^ (m - 1) := by
                rw [Nat.mul_comm (p / kr ^ (m - 1)) kc, Nat.mul_add_div (by omega),
                  Nat.div_eq_of_lt hdc]
                omega
              have hmod : (p / kr ^ (m - 1) * kc + q / kc ^ (m - 1)) % kc
                  = q / kc ^ (m - 1) := by
                rw [Nat.mul_comm (p / kr ^ (m - 1)) kc, Nat.mul_add_mod,
                  Nat.mod_eq_of_lt hdc]
              rw [hdiv, hmod]
            rw [hcr]
            have e1 : (childRegion f null kr kc h t n s).1
                  + p / kr ^ (m - 1) * kr ^ (m - 1) + p % kr ^ (m - 1)
                = (childRegion f null kr kc h t n s).1 + p := by
              have := Nat.div_add_mod' p (kr ^ (m - 1))
              omega
            have e2 : (childRegion f null kr kc h t n s).2
                  + q / kc ^ (m - 1) * kc ^ (m - 1) + q % kc ^ (m - 1)
                = (childRegion f null kr kc h t n s).2 + q := by
              have := Nat.div_add_mod' q (kc ^ (m - 1))
              omega
            rw [e1, e2]

/-- The point-query recursion reads the leaf cell addressed by leafScan (or
answers null when the route dies), for any leaf sequence L: only T routes. -/
theorem scan_get (tr : KrKcTree E) (kr kc h : Nat) (hkr : 1 ≤ kr) (hkc : 1 ≤ kc)
    (hh : 1 ≤ h) (hT : tr.T = absT f null kr kc h)
    (hkrt : tr.kr = kr) (hkct : tr.kc = kc)
    (hocc0 : occ f null kr kc 0 0 h h = true) :
    ∀ (m : Nat), 1 ≤ m → ∀ (t n s p q : Nat), t + m = h →
    n < lvlCount f null kr kc h t → s < kr * kc →
    p < kr ^ (m - 1) → q < kc ^ (m - 1) →
    get tr m (kr ^ (m - 1)) (kc ^ (m - 1)) p q
        (lvlOff f null kr kc h t + (n * (kr * kc) + s))
      = (leafScan f null kr kc h m t n s p q).elim tr.null
          (fun l => tr.L.getD l tr.null) := by
  intro m
  induction m with
  | zero => intro h1; exact absurd h1 (by omega)
  | succ m ih =>
      intro _ t n s p q htm hn hs hp hq
      by_cases hm : m = 0
      · subst hm
        have ht : t = h - 1 := by omega
        have hlen : tr.T.length = lvlOff f null kr kc h (h - 1) := by
          rw [hT, absT_length]
        simp only [get, leafScan, if_pos rfl]
        rw [if_pos (by rw [hlen, ht]; omega)]
        rw [hlen, ht, Nat.add_sub_cancel_left]
        rfl
      · have hm1 : 1 ≤ m := by omega
        have ht : t < h - 1 := by omega
        have hmht : h - t - 1 = m := by omega
        have hA : kr ^ m / kr = kr ^ (m - 1) := by
          conv_lhs => rw [show m = (m - 1) + 1 by omega, pow_succ]
          rw [Nat.mul_div_cancel _ (show 0 < kr by omega)]
        have hB : kc ^ m / kc = kc ^ (m - 1) := by
          conv_lhs => rw [show m = (m - 1) + 1 by omega, pow_succ]
          rw [Nat.mul_div_cancel _ (show 0 < kc by omega)]
        have hApos : 0 < kr ^ (m - 1) := Nat.pos_pow_of_pos _ (by omega)
        have hBpos : 0 < kc ^ (m - 1) := Nat.pos_pow_of_pos _ (by omega)
        have hzlt : lvlOff f null kr kc h t + (n * (kr * kc) + s) < tr.T.length := by
          rw [hT, absT_length]
          have h1 := group_slot_lt n s (lvlCount f null kr kc h t) (kr * kc) hn hs
          have h2 : lvlOff f null kr kc h (t + 1) ≤ lvlOff f null kr kc h (h - 1) :=
            lvlOff_mono kr kc h (t + 1) (h - 1) (by omega)
          rw [lvlOff_succ] at h2
          omega
        have hbit := bit_at (f := f) kr kc h t n s ht hn hs
        simp only [get, leafScan, if_neg hm]
        rw [if_neg (by omega)]
        rw [hT, hkrt, hkct, hbit, hmht]
        rw [show (m + 1 - 1 : Nat) = m from rfl, hA, hB]
        cases hocc : occ f null kr kc (childRegion f null kr kc h t n s).1
            (childRegion f null kr kc h t n s).2 m m with
        | false =>
            rw [if_neg (by simp)]
            rfl
        | true =>
            rw [if_pos rfl]
            have hoccm : occ f null kr kc (childRegion f null kr kc h t n s).1
                (childRegion f null kr kc h t n s).2 (h - t - 1) (h - t - 1) = true := by
              rw [hmht]; exact hocc
            have hrank := child_rank (f := f) kr kc h t n s hkr hkc hh
              hocc0 ht hn hs hoccm
            have hidx := child_index (f := f) kr kc h t n s hkr hkc
              ht hn hs hoccm
            have hdr : p / kr ^ (m - 1) < kr := by
              apply Nat.div_lt_of_lt_mul
              rw [← pow_succ, show m - 1 + 1 = m by omega]
              exact hp
            have hdc : q / kc ^ (m - 1) < kc := by
              apply Nat.div_lt_of_lt_mul
              rw [← pow_succ, show m - 1 + 1 = m by omega]
              exact hq
            have hs' : p / kr ^ (m - 1) * kc + q / kc ^ (m - 1) < kr * kc :=
              group_slot_lt _ _ _ _ hdr hdc
            have hz' : rank1 (absT f null kr kc h)
                  (lvlOff f null kr kc h t + (n * (kr * kc) + s) + 1) * kr * kc
                  + p / kr ^ (m - 1) * kc + q / kc ^ (m - 1)
                = lvlOff f null kr kc h (t + 1)
                  + (mIdx f null kr kc h t n s * (kr * kc)
                    + (p / kr ^ (m - 1) * kc + q / kc ^ (m - 1))) := by
              rw [Nat.mul_assoc, hrank]
              omega
            rw [hz']
            exact ih hm1 (t + 1) (mIdx f null kr kc h t n s)
              (p / kr ^ (m - 1) * kc + q / kc ^ (m - 1))
              (p % kr ^ (m - 1)) (q % kc ^ (m - 1)) (by omega) hidx.2 hs'
              (Nat.mod_lt _ hApos) (Nat.mod_lt _ hBpos)

/-- The local-clear recursion updates the leaf cell addressed by leafScan (or
leaves the structure untouched when the route dies), for any leaf sequence. -/
theorem scan_set (tr : KrKcTree E) (kr kc h : Nat) (hkr : 1 ≤ kr) (hkc : 1 ≤ kc)
    (hh : 1 ≤ h) (hT : tr.T = absT f null kr kc h)
    (hkrt : tr.kr = kr) (hkct : tr.kc = kc)
    (hocc0 : occ f null kr kc 0 0 h h = true) :
    ∀ (m : Nat), 1 ≤ m → ∀ (t n s p q : Nat), t + m = h →
    n < lvlCount f null kr kc h t → s < kr * kc →
    p < kr ^ (m - 1) → q < kc ^ (m - 1) →
    set tr m (kr ^ (m - 1)) (kc ^ (m - 1)) p q
        (lvlOff f null kr kc h t + (n * (kr * kc) + s))
      = (leafScan f null kr kc h m t n s p q).elim tr
          (fun l => { tr with L := tr.L.set l tr.null }) := by
  intro m
  induction m with
  | zero => intro h1; exact absurd h1 (by omega)
  | succ m ih =>
      intro _ t n s p q htm hn hs hp hq
      by_cases hm : m = 0
      · subst hm
        have ht : t = h - 1 := by omega
        have hlen : tr.T.length = lvlOff f null kr kc h (h - 1) := by
          rw [hT, absT_length]
        simp only [set, leafScan, if_pos rfl]
        rw [if_pos (by rw [hlen, ht]; omega)]
        rw [hlen, ht, Nat.add_sub_cancel_left]
        rfl
      · have hm1 : 1 ≤ m := by omega
        have ht : t < h - 1 := by omega
        have hmht : h - t - 1 = m := by omega
        have hA : kr ^ m / kr = kr ^ (m - 1) := by
          conv_lhs => rw [show m = (m - 1) + 1 by omega, pow_succ]
          rw [Nat.mul_div_cancel _ (show 0 < kr by omega)]
        have hB : kc ^ m / kc = kc ^ (m - 1) := by
          conv_lhs => rw [show m = (m - 1) + 1 by omega, pow_succ]
          rw [Nat.mul_div_cancel _ (show 0 < kc by omega)]
        have hApos : 0 < kr ^ (m - 1) := Nat.pos_pow_of_pos _ (by omega)
        have hBpos : 0 < kc ^ (m - 1) := Nat.pos_pow_of_pos _ (by omega)
        have hzlt : lvlOff f null kr kc h t + (n * (kr * kc) + s) < tr.T.length := by
          rw [hT, absT_length]
          have h1 := group_slot_lt n s (lvlCount f null kr kc h t) (kr * kc) hn hs
          have h2 : lvlOff f null kr kc h (t + 1) ≤ lvlOff f null kr kc h (h - 1) :=
            lvlOff_mono kr kc h (t + 1) (h - 1) (by omega)
          rw [lvlOff_succ] at h2
          omega
        have hbit := bit_at (f := f) kr kc h t n s ht hn hs
        simp only [set, leafScan, if_neg hm]
        rw [if_neg (by omega)]
        conv_lhs => rw [hT, hkrt, hkct]
        rw [hbit, hmht]
        rw [show (m + 1 - 1 : Nat) = m from rfl, hA, hB]
        cases hocc : occ f null kr kc (childRegion f null kr kc h t n s).1
            (childRegion f null kr kc h t n s).2 m m with
        | false =>
            rw [if_neg (by simp)]
            rfl
        | true =>
            rw [if_pos rfl]
            have hoccm : occ f null kr kc (childRegion f null kr kc h t n s).1
                (childRegion f null kr kc h t n s).2 (h - t - 1) (h - t - 1) = true := by
              rw [hmht]; exact hocc
            have hrank := child_rank (f := f) kr kc h t n s hkr hkc hh
              hocc0 ht hn hs hoccm
            have hidx := child_index (f := f) kr kc h t n s hkr hkc
              ht hn hs hoccm
            have hdr : p / kr ^ (m - 1) < kr := by
              apply Nat.div_lt_of_lt_mul
              rw [← pow_succ, show m - 1 + 1 = m by omega]
              exact hp
            have hdc : q / kc ^ (m - 1) < kc := by
              apply Nat.div_lt_of_lt_mul
              rw [← pow_succ, show m - 1 + 1 = m by omega]
              exact hq
            have hs' : p / kr ^ (m - 1) * kc + q / kc ^ (m - 1) < kr * kc :=
              group_slot_lt _ _ _ _ hdr hdc
            have hz' : rank1 (absT f null kr kc h)
                  (lvlOff f null kr kc h t + (n * (kr * kc) + s) + 1) * kr * kc
                  + p / kr ^ (m - 1) * kc + q / kc ^ (m - 1)
                = lvlOff f null kr kc h (t + 1)
                  + (mIdx f null kr kc h t n s * (kr * kc)
                    + (p / kr ^ (m - 1) * kc + q / kc ^ (m - 1))) := by
              rw [Nat.mul_assoc, hrank]
              omega
            rw [hz']
            exact ih hm1 (t + 1) (mIdx f null kr kc h t n s)
              (p / kr ^ (m - 1) * kc + q / kc ^ (m - 1))
              (p % kr ^ (m - 1)) (q % kc ^ (m - 1)) (by omega) hidx.2 hs'
              (Nat.mod_lt _ hApos) (Nat.mod_lt _ hBpos)

theorem getD_set_self {α : Type} : ∀ (l : List α) (n : Nat) (a d : α), n < l.length →
    (l.set n a).getD n d = a := by
  intro l
  induction l with
  | nil => intro n a d hn; simp at hn
  | cons x xs ih =>
      intro n a d hn
      cases n with
      | zero => rfl
      | succ n =>
          rw [List.set_cons_succ, List.getD_cons_succ]
          exact ih n a d (by simpa using hn)

theorem getD_set_ne {α : Type} : ∀ (l : List α) (n m : Nat) (a d : α), n ≠ m →
    (l.set n a).getD m d = l.getD m d := by
  intro l
  induction l with
  | nil => intro n m a d _; rfl
  | cons x xs ih =>
      intro n m a d hnm
      cases n with
      | zero =>
          cases m with
          | zero => exact absurd rfl hnm
          | succ m => rw [List.set_cons_zero, List.getD_cons_succ, List.getD_cons_succ]
      | succ n =>
          cases m with
          | zero => rw [List.set_cons_succ, List.getD_cons_zero, List.getD_cons_zero]
          | succ m =>
              rw [List.set_cons_succ, List.getD_cons_succ, List.getD_cons_succ]
              exact ih n m a d (by omega)

/-- The local-clear recursion never touches anything but the content of L:
T, the configuration fields and the length of L are all preserved, for every
input whatsoever. -/
theorem set_frame (tr : KrKcTree E) : ∀ (fuel a b p q z : Nat),
    (set tr fuel a b p q z).T = tr.T ∧ (set tr fuel a b p q z).h = tr.h
      ∧ (set tr fuel a b p q z).kr = tr.kr ∧ (set tr fuel a b p q z).kc = tr.kc
      ∧ (set tr fuel a b p q z).numRows = tr.numRows
      ∧ (set tr fuel a b p q z).numCols = tr.numCols
      ∧ (set tr fuel a b p q z).null = tr.null
      ∧ (set tr fuel a b p q z).L.length = tr.L.length := by
  intro fuel
  induction fuel with
  | zero => intro a b p q z; exact ⟨rfl, rfl, rfl, rfl, rfl, rfl, rfl, rfl⟩
  | succ fuel ih =>
      intro a b p q z
      simp only [set]
      by_cases h1 : z ≥ tr.T.length
      · rw [if_pos h1]
        exact ⟨rfl, rfl, rfl, rfl, rfl, rfl, rfl, by simp⟩
      · rw [if_neg h1]
        by_cases h2 : tr.T.getD z false = true
        · rw [if_pos h2]
          exact ih _ _ _ _ _
        · rw [if_neg h2]
          exact ⟨rfl, rfl, rfl, rfl, rfl, rfl, rfl, rfl⟩

/-- The leaf index addressed by a live route determines the addressed cell:
it is within the leaf level, and decomposing it as group/slot at depth h - 1
recovers exactly the queried cell.  This makes the leaf addressing injective
across distinct cells. -/
theorem scan_cell (kr kc h : Nat) (hkr : 1 ≤ kr) (hkc : 1 ≤ kc) :
    ∀ (m : Nat), 1 ≤ m → ∀ (t n s p q l : Nat), t + m = h →
    n < lvlCount f null kr kc h t → s < kr * kc →
    p < kr ^ (m - 1) → q < kc ^ (m - 1) →
    leafScan f null kr kc h m t n s p q = some l →
    l / (kr * kc) < lvlCount f null kr kc h (h - 1)
      ∧ childRegion f null kr kc h (h - 1) (l / (kr * kc)) (l % (kr * kc))
        = ((childRegion f null kr kc h t n s).1 + p,
            (childRegion f null kr kc h t n s).2 + q) := by
  intro m
  induction m with
  | zero => intro h1; exact absurd h1 (by omega)
  | succ m ih =>
      intro _ t n s p q l htm hn hs hp hq hscan
      by_cases hm : m = 0
      · subst hm
        have ht : t = h - 1 := by omega
        have hp0 : p = 0 := by simpa using hp
        have hq0 : q = 0 := by simpa using hq
        subst hp0 hq0
        simp only [leafScan, if_pos rfl, if_true, Option.some.injEq] at hscan
        have hdiv : l / (kr * kc) = n := by
          rw [← hscan, Nat.mul_comm n (kr * kc), Nat.mul_add_div
            (Nat.mul_pos (by omega) (by omega)), Nat.div_eq_of_lt hs]
          omega
        have hmod : l % (kr * kc) = s := by
          rw [← hscan, Nat.mul_comm n (kr * kc), Nat.mul_add_mod, Nat.mod_eq_of_lt hs]
        rw [hdiv, hmod, ← ht]
        exact ⟨by rw [ht] at hn ⊢; exact hn, by simp⟩
      · have hm1 : 1 ≤ m := by omega
        have ht : t < h - 1 := by omega
        have hmht : h - t - 1 = m := by omega
        simp only [leafScan, if_neg hm] at hscan
        by_cases hocc : occ f null kr kc (childRegion f null kr kc h t n s).1
            (childRegion f null kr kc h t n s).2 m m = true
        · rw [if_pos hocc] at hscan
          have hoccm : occ f null kr kc (childRegion f null kr kc h t n s).1
              (childRegion f null kr kc h t n s).2 (h - t - 1) (h - t - 1) = true := by
            rw [hmht]; exact hocc
          have hidx := child_index (f := f) kr kc h t n s hkr hkc
            ht hn hs hoccm
          have hApos : 0 < kr ^ (m - 1) := Nat.pos_pow_of_pos _ (by omega)
          have hBpos : 0 < kc ^ (m - 1) := Nat.pos_pow_of_pos _ (by omega)
          have hdr : p / kr ^ (m - 1) < kr := by
            apply Nat.div_lt_of_lt_mul
            rw [← pow_succ, show m - 1 + 1 = m by omega]
            exact hp
          have hdc : q / kc ^ (m - 1) < kc := by
            apply Nat.div_lt_of_lt_mul
            rw [← pow_succ, show m - 1 + 1 = m by omega]
            exact hq
          have hs' : p / kr ^ (m - 1) * kc + q / kc ^ (m - 1) < kr * kc :=
            group_slot_lt _ _ _ _ hdr hdc
          obtain ⟨h1, h2⟩ := ih hm1 (t + 1) (mIdx f null kr kc h t n s)
            (p / kr ^ (m - 1) * kc + q / kc ^ (m - 1))
            (p % kr ^ (m - 1)) (q % kc ^ (m - 1)) l (by omega) hidx.2 hs'
            (Nat.mod_lt _ hApos) (Nat.mod_lt _ hBpos) hscan
          refine ⟨h1, ?_⟩
          rw [h2]
          have hdiv : (p / kr ^ (m - 1) * kc + q / kc ^ (m - 1)) / kc
              = p / kr ^ (m - 1) := by
            rw [Nat.mul_comm (p / kr ^ (m - 1)) kc, Nat.mul_add_div (by omega),
              Nat.div_eq_of_lt hdc]
            omega
          have hmod : (p / kr ^ (m - 1) * kc + q / kc ^ (m - 1)) % kc
              = q / kc ^ (m - 1) := by
            rw [Nat.mul_comm (p / kr ^ (m - 1)) kc, Nat.mul_add_mod,
              Nat.mod_eq_of_lt hdc]
          have hcr : childRegion f null kr kc h (t + 1) (mIdx f null kr kc h t n s)
                (p / kr ^ (m - 1) * kc + q / kc ^ (m - 1))
              = ((childRegion f null kr kc h t n s).1
                    + p / kr ^ (m - 1) * kr ^ (m - 1),
                  (childRegion f null kr kc h t n s).2
                    + q / kc ^ (m - 1) * kc ^ (m - 1)) := by
            rw [childRegion, nodeAt, hidx.1, show h - (t + 1) - 1 = m - 1 by omega]
            rw [childOrigins_getD (show 0 < kc by omega) hs', hdiv, hmod]
          rw [hcr]
          have hpm := Nat.div_add_mod' p (kr ^ (m - 1))
          have hqm := Nat.div_add_mod' q (kc ^ (m - 1))
          simp only [Prod.mk.injEq]
          constructor
          · omega
          · omega
        · rw [if_neg hocc] at hscan
          exact Option.noConfusion hscan

/-- Entry-point form of scan_get: getInit reads the leaf cell addressed by
rootScan, for any leaf sequence of the right shape. -/
theorem rootScan_getInit (tr : KrKcTree E) (kr kc h i j : Nat)
    (hkr : 2 ≤ kr) (hkc : 2 ≤ kc) (hh : 1 ≤ h)
    (hT : tr.T = absT f null kr kc h) (hkrt : tr.kr = kr) (hkct : tr.kc = kc)
    (hht : tr.h = h) (hR : tr.numRows = kr ^ h) (hC : tr.numCols = kc ^ h)
    (hocc0 : occ f null kr kc 0 0 h h = true)
    (hLne : tr.L.isEmpty = false)
    (hi : i < kr ^ h) (hj : j < kc ^ h) :
    getInit tr i j = (rootScan f null kr kc h i j).elim tr.null
      (fun l => tr.L.getD l tr.null) := by
  have hA : tr.numRows / tr.kr = kr ^ (h - 1) := by
    rw [hR, hkrt]
    conv_lhs => rw [show h = (h - 1) + 1 by omega, pow_succ]
    rw [Nat.mul_div_cancel _ (show 0 < kr by omega)]
  have hB : tr.numCols / tr.kc = kc ^ (h - 1) := by
    rw [hC, hkct]
    conv_lhs => rw [show h = (h - 1) + 1 by omega, pow_succ]
    rw [Nat.mul_div_cancel _ (show 0 < kc by omega)]
  have hApos : 0 < kr ^ (h - 1) := Nat.pos_pow_of_pos _ (by omega)
  have hBpos : 0 < kc ^ (h - 1) := Nat.pos_pow_of_pos _ (by omega)
  have hdr : i / kr ^ (h - 1) < kr := by
    apply Nat.div_lt_of_lt_mul
    rw [← pow_succ, show h - 1 + 1 = h by omega]
    exact hi
  have hdc : j / kc ^ (h - 1) < kc := by
    apply Nat.div_lt_of_lt_mul
    rw [← pow_succ, show h - 1 + 1 = h by omega]
    exact hj
  have hs0 : i / kr ^ (h - 1) * kc + j / kc ^ (h - 1) < kr * kc :=
    group_slot_lt _ _ _ _ hdr hdc
  rw [getInit, if_neg (by rw [hLne]; simp), hA, hB, hkct, hht]
  have hnav := scan_get (f := f) tr kr kc h (by omega) (by omega) hh
    hT hkrt hkct hocc0 h hh 0 0
    (i / kr ^ (h - 1) * kc + j / kc ^ (h - 1))
    (i % kr ^ (h - 1)) (j % kc ^ (h - 1)) (by omega)
    (by rw [lvlCount_zero kr kc _ hocc0]; omega) hs0
    (Nat.mod_lt _ hApos) (Nat.mod_lt _ hBpos)
  rw [show lvlOff f null kr kc h 0
        + (0 * (kr * kc) + (i / kr ^ (h - 1) * kc + j / kc ^ (h - 1)))
      = i / kr ^ (h - 1) * kc + j / kc ^ (h - 1) by
    rw [show lvlOff f null kr kc h 0 = 0 from rfl]
    omega] at hnav
  exact hnav

/-- Entry-point form of scan_set: setInit clears the leaf cell addressed by
rootScan, for any leaf sequence of the right shape. -/
theorem rootScan_setInit (tr : KrKcTree E) (kr kc h i j : Nat)
    (hkr : 2 ≤ kr) (hkc : 2 ≤ kc) (hh : 1 ≤ h)
    (hT : tr.T = absT f null kr kc h) (hkrt : tr.kr = kr) (hkct : tr.kc = kc)
    (hht : tr.h = h) (hR : tr.numRows = kr ^ h) (hC : tr.numCols = kc ^ h)
    (hocc0 : occ f null kr kc 0 0 h h = true)
    (hLne : tr.L.isEmpty = false)
    (hi : i < kr ^ h) (hj : j < kc ^ h) :
    setInit tr i j = (rootScan f null kr kc h i j).elim tr
      (fun l => { tr with L := tr.L.set l tr.null }) := by
  have hA : tr.numRows / tr.kr = kr ^ (h - 1) := by
    rw [hR, hkrt]
    conv_lhs => rw [show h = (h - 1) + 1 by omega, pow_succ]
    rw [Nat.mul_div_cancel _ (show 0 < kr by omega)]
  have hB : tr.numCols / tr.kc = kc ^ (h - 1) := by
    rw [hC, hkct]
    conv_lhs => rw [show h = (h - 1) + 1 by omega, pow_succ]
    rw [Nat.mul_div_cancel _ (show 0 < kc by omega)]
  have hApos : 0 < kr ^ (h - 1) := Nat.pos_pow_of_pos _ (by omega)
  have hBpos : 0 < kc ^ (h - 1) := Nat.pos_pow_of_pos _ (by omega)
  have hdr : i / kr ^ (h - 1) < kr := by
    apply Nat.div_lt_of_lt_mul
    rw [← pow_succ, show h - 1 + 1 = h by omega]
    exact hi
  have hdc : j / kc ^ (h - 1) < kc := by
    apply Nat.div_lt_of_lt_mul
    rw [← pow_succ, show h - 1 + 1 = h by omega]
    exact hj
  have hs0 : i / kr ^ (h - 1) * kc + j / kc ^ (h - 1) < kr * kc :=
    group_slot_lt _ _ _ _ hdr hdc
  rw [setInit, if_neg (by rw [hLne]; simp)]
  conv_lhs => rw [hA, hB, hkct, hht]
  have hnav := scan_set (f := f) tr kr kc h (by omega) (by omega) hh
    hT hkrt hkct hocc0 h hh 0 0
    (i / kr ^ (h - 1) * kc + j / kc ^ (h - 1))
    (i % kr ^ (h - 1)) (j % kc ^ (h - 1)) (by omega)
    (by rw [lvlCount_zero kr kc _ hocc0]; omega) hs0
    (Nat.mod_lt _ hApos) (Nat.mod_lt _ hBpos)
  rw [show lvlOff f null kr kc h 0
        + (0 * (kr * kc) + (i / kr ^ (h - 1) * kc + j / kc ^ (h - 1)))
      = i / kr ^ (h - 1) * kc + j / kc ^ (h - 1) by
    rw [show lvlOff f null kr kc h 0 = 0 from rfl]
    omega] at hnav
  exact hnav

/-- A live root route addresses a leaf index inside the leaf level, and that
index determines the queried cell. -/
theorem rootScan_cell (kr kc h i j l : Nat) (hkr : 2 ≤ kr) (hkc : 2 ≤ kc)
    (hh : 1 ≤ h) (hocc0 : occ f null kr kc 0 0 h h = true)
    (hi : i < kr ^ h) (hj : j < kc ^ h)
    (hscan : rootScan f null kr kc h i j = some l) :
    l < lvlCount f null kr kc h (h - 1) * (kr * kc)
      ∧ childRegion f null kr kc h (h - 1) (l / (kr * kc)) (l % (kr * kc)) = (i, j) := by
  have hApos : 0 < kr ^ (h - 1) := Nat.pos_pow_of_pos _ (by omega)
  have hBpos : 0 < kc ^ (h - 1) := Nat.pos_pow_of_pos _ (by omega)
  have hdr : i / kr ^ (h - 1) < kr := by
    apply Nat.div_lt_of_lt_mul
    rw [← pow_succ, show h - 1 + 1 = h by omega]
    exact hi
  have hdc : j / kc ^ (h - 1) < kc := by
    apply Nat.div_lt_of_lt_mul
    rw [← pow_succ, show h - 1 + 1 = h by omega]
    exact hj
  have hs0 : i / kr ^ (h - 1) * kc + j / kc ^ (h - 1) < kr * kc :=
    group_slot_lt _ _ _ _ hdr hdc
  obtain ⟨h1, h2⟩ := scan_cell (f := f) kr kc h (by omega) (by omega)
    h hh 0 0 (i / kr ^ (h - 1) * kc + j / kc ^ (h - 1))
    (i % kr ^ (h - 1)) (j % kc ^ (h - 1)) l (by omega)
    (by rw [lvlCount_zero kr kc _ hocc0]; omega) hs0
    (Nat.mod_lt _ hApos) (Nat.mod_lt _ hBpos) hscan
  refine ⟨(Nat.div_lt_iff_lt_mul (Nat.mul_pos (by omega) (by omega))).mp h1, ?_⟩
  rw [h2]
  have hnode : nodeAt f null kr kc h 0 0 = (0, 0) := by
    simp [nodeAt, rootLvl, lvl, hocc0]
  have hdiv : (i / kr ^ (h - 1) * kc + j / kc ^ (h - 1)) / kc = i / kr ^ (h - 1) := by
    rw [Nat.mul_comm (i / kr ^ (h - 1)) kc, Nat.mul_add_div (by omega),
      Nat.div_eq_of_lt hdc]
    omega
  have hmod : (i / kr ^ (h - 1) * kc + j / kc ^ (h - 1)) % kc = j / kc ^ (h - 1) := by
    rw [Nat.mul_comm (i / kr ^ (h - 1)) kc, Nat.mul_add_mod, Nat.mod_eq_of_lt hdc]
  have hcr : childRegion f null kr kc h 0 0
        (i / kr ^ (h - 1) * kc + j / kc ^ (h - 1))
      = (i / kr ^ (h - 1) * kr ^ (h - 1), j / kc ^ (h - 1) * kc ^ (h - 1)) := by
    rw [childRegion, hnode]
    rw [show h - 0 - 1 = h - 1 by omega]
    rw [childOrigins_getD (show 0 < kc by omega) hs0, hdiv, hmod]
    simp
  rw [hcr]
  have hpm := Nat.div_add_mod' i (kr ^ (h - 1))
  have hqm := Nat.div_add_mod' j (kc ^ (h - 1))
  simp only [Prod.mk.injEq]
  constructor
  · omega
  · omega

theorem mem_rangeIncl {a b x : Nat} (hab : a ≤ b) :
    x ∈ rangeIncl a b ↔ a ≤ x ∧ x ≤ b := by
  rw [rangeIncl, List.mem_range'_1]
  omega

/-- On every selected stripe the clipped residual interval is well ordered. -/
theorem clip_le (w p1 p2 i : Nat) (hw : 0 < w) (hple : p1 ≤ p2)
    (hi1 : p1 / w ≤ i) (hi2 : i ≤ p2 / w) :
    (if i = p1 / w then p1 % w else 0) ≤ (if i = p2 / w then p2 % w else w - 1) := by
  have e1 := Nat.div_add_mod p1 w
  have e2 := Nat.div_add_mod p2 w
  have m1 : p1 % w < w := Nat.mod_lt _ hw
  have m2 : p2 % w < w := Nat.mod_lt _ hw
  by_cases hq1 : i = p1 / w
  · by_cases hq2 : i = p2 / w
    · rw [if_pos hq1, if_pos hq2]
      have : w * (p1 / w) = w * (p2 / w) := by rw [← hq1, hq2]
      omega
    · rw [if_pos hq1, if_neg hq2]
      omega
  · by_cases hq2 : i = p2 / w
    · rw [if_neg hq1, if_pos hq2]
      omega
    · rw [if_neg hq1, if_neg hq2]
      omega

/-- The clipped upper bound stays below the stripe width. -/
theorem clip_lt (w p2 i : Nat) (hw : 0 < w) :
    (if i = p2 / w then p2 % w else w - 1) < w := by
  by_cases hq : i = p2 / w
  · rw [if_pos hq]; exact Nat.mod_lt _ hw
  · rw [if_neg hq]; omega

/-- Decomposition direction of the stripe split: a point of the interval
lands on a selected stripe, inside the clipped residual interval. -/
theorem split_le (w p1 p2 p : Nat) (hw : 0 < w) (h1 : p1 ≤ p) (h2 : p ≤ p2) :
    p1 / w ≤ p / w ∧ p / w ≤ p2 / w
      ∧ (if p / w = p1 / w then p1 % w else 0) ≤ p % w
      ∧ p % w ≤ (if p / w = p2 / w then p2 % w else w - 1) := by
  have e1 := Nat.div_add_mod p1 w
  have e := Nat.div_add_mod p w
  have e2 := Nat.div_add_mod p2 w
  have m1 : p1 % w < w := Nat.mod_lt _ hw
  have m : p % w < w := Nat.mod_lt _ hw
  have m2 : p2 % w < w := Nat.mod_lt _ hw
  have d1 : p1 / w ≤ p / w := Nat.div_le_div_right h1
  have d2 : p / w ≤ p2 / w := Nat.div_le_div_right h2
  refine ⟨d1, d2, ?_, ?_⟩
  · by_cases hq : p / w = p1 / w
    · rw [if_pos hq]
      have : w * (p / w) = w * (p1 / w) := by rw [hq]
      omega
    · rw [if_neg hq]
      omega
  · by_cases hq : p / w = p2 / w
    · rw [if_pos hq]
      have : w * (p / w) = w * (p2 / w) := by rw [hq]
      omega
    · rw [if_neg hq]
      omega

/-- Recomposition direction of the stripe split: a stripe index and a point
of the clipped residual interval recompose into a point of the interval. -/
theorem split_recompose (w p1 p2 i r : Nat) (hw : 0 < w)
    (hi1 : p1 / w ≤ i) (hi2 : i ≤ p2 / w)
    (hr1 : (if i = p1 / w then p1 % w else 0) ≤ r)
    (hr2 : r ≤ (if i = p2 / w then p2 % w else w - 1)) :
    p1 ≤ w * i + r ∧ w * i + r ≤ p2 := by
  have e1 := Nat.div_add_mod p1 w
  have e2 := Nat.div_add_mod p2 w
  have m1 : p1 % w < w := Nat.mod_lt _ hw
  have m2 : p2 % w < w := Nat.mod_lt _ hw
  constructor
  · by_cases hq : i = p1 / w
    · rw [if_pos hq] at hr1
      rw [hq]
      omega
    · have hgt : p1 / w + 1 ≤ i := by omega
      have hmono := Nat.mul_le_mul_left w hgt
      have hmul : w * (p1 / w + 1) = w * (p1 / w) + w := by ring
      omega
  · by_cases hq : i = p2 / w
    · rw [if_pos hq] at hr2
      rw [hq]
      omega
    · rw [if_neg hq] at hr2
      have hlt : i + 1 ≤ p2 / w := by omega
      have hmono := Nat.mul_le_mul_left w hlt
      have hmul : w * (i + 1) = w * i + w := by ring
      omega

/-- The public point query on a structure carrying the abstract encoding of a
relation f answers exactly f, on every cell of the padded extent. -/
theorem getElement_eq (tr : KrKcTree E) (kr kc h i j : Nat)
    (hkr : 2 ≤ kr) (hkc : 2 ≤ kc) (hh : 1 ≤ h)
    (hT : tr.T = absT f null kr kc h) (hL : tr.L = absL f null kr kc h)
    (hkrt : tr.kr = kr) (hkct : tr.kc = kc) (hnull : tr.null = null)
    (hht : tr.h = h) (hR : tr.numRows = kr ^ h) (hC : tr.numCols = kc ^ h)
    (hi : i < kr ^ h) (hj : j < kc ^ h) :
    getElement tr i j = f i j := by
  cases hocc0 : occ f null kr kc 0 0 h h with
  | false =>
      have hLnil : tr.L = [] := by
        rw [hL]
        exact (absL_eq_nil_iff kr kc _ (by omega) (by omega) hh).mpr hocc0
      rw [getElement, getInit, if_pos (by rw [hLnil]; rfl), hnull]
      have hcell := occ_false_all (f := f) hocc0 i hi j hj
      simp only [Nat.zero_add] at hcell
      exact hcell.symm
  | true =>
      have hLne : tr.L.isEmpty = false := by
        rw [hL]
        cases hE : (absL f null kr kc h).isEmpty with
        | false => rfl
        | true =>
            have := (absL_eq_nil_iff kr kc _ (by omega) (by omega) hh).mp
              (List.isEmpty_iff.mp hE)
            rw [this] at hocc0
            exact Bool.noConfusion hocc0
      rw [getElement,
        rootScan_getInit tr kr kc h i j hkr hkc hh hT hkrt hkct hht hR hC hocc0
          hLne hi hj]
      cases hro : rootScan f null kr kc h i j with
      | none =>
          -- a dead route means the addressed cell is null: replay the route of
          -- getInit through scan_get on the canonical leaf sequence, where
          -- get_nav computes the cell value; both describe the same recursion.
          have hApos : 0 < kr ^ (h - 1) := Nat.pos_pow_of_pos _ (by omega)
          have hBpos : 0 < kc ^ (h - 1) := Nat.pos_pow_of_pos _ (by omega)
          have hdr : i / kr ^ (h - 1) < kr := by
            apply Nat.div_lt_of_lt_mul
            rw [← pow_succ, show h - 1 + 1 = h by omega]
            exact hi
          have hdc : j / kc ^ (h - 1) < kc := by
            apply Nat.div_lt_of_lt_mul
            rw [← pow_succ, show h - 1 + 1 = h by omega]
            exact hj
          have hs0 : i / kr ^ (h - 1) * kc + j / kc ^ (h - 1) < kr * kc :=
            group_slot_lt _ _ _ _ hdr hdc
          have hget := get_nav (f := f) tr kr kc h (by omega) (by omega)
            hh hT hL hkrt hkct hnull hocc0 h hh 0 0
            (i / kr ^ (h - 1) * kc + j / kc ^ (h - 1))
            (i % kr ^ (h - 1)) (j % kc ^ (h - 1)) (by omega)
            (by rw [lvlCount_zero kr kc _ hocc0]; omega) hs0
            (Nat.mod_lt _ hApos) (Nat.mod_lt _ hBpos)
          have hscan := scan_get (f := f) tr kr kc h (by omega) (by omega)
            hh hT hkrt hkct hocc0 h hh 0 0
            (i / kr ^ (h - 1) * kc + j / kc ^ (h - 1))
            (i % kr ^ (h - 1)) (j % kc ^ (h - 1)) (by omega)
            (by rw [lvlCount_zero kr kc _ hocc0]; omega) hs0
            (Nat.mod_lt _ hApos) (Nat.mod_lt _ hBpos)
          rw [hget] at hscan
          rw [show rootScan f null kr kc h i j
              = leafScan f null kr kc h h 0 0
                  (i / kr ^ (h - 1) * kc + j / kc ^ (h - 1))
                  (i % kr ^ (h - 1)) (j % kc ^ (h - 1)) from rfl] at hro
          rw [hro] at hscan
          -- hscan : f (childRegion-cell) = tr.null
          have hnode : nodeAt f null kr kc h 0 0 = (0, 0) := by
            simp [nodeAt, rootLvl, lvl, hocc0]
          have hdiv : (i / kr ^ (h - 1) * kc + j / kc ^ (h - 1)) / kc
              = i / kr ^ (h - 1) := by
            rw [Nat.mul_comm (i / kr ^ (h - 1)) kc, Nat.mul_add_div (by omega),
              Nat.div_eq_of_lt hdc]
            omega
          have hmod : (i / kr ^ (h - 1) * kc + j / kc ^ (h - 1)) % kc
              = j / kc ^ (h - 1) := by
            rw [Nat.mul_comm (i / kr ^ (h - 1)) kc, Nat.mul_add_mod,
              Nat.mod_eq_of_lt hdc]
          have hcr : childRegion f null kr kc h 0 0
                (i / kr ^ (h - 1) * kc + j / kc ^ (h - 1))
              = (i / kr ^ (h - 1) * kr ^ (h - 1), j / kc ^ (h - 1) * kc ^ (h - 1)) := by
            rw [childRegion, hnode]
            rw [show h - 0 - 1 = h - 1 by omega]
            rw [childOrigins_getD (show 0 < kc by omega) hs0, hdiv, hmod]
            simp
          have hcr1 : (childRegion f null kr kc h 0 0
                (i / kr ^ (h - 1) * kc + j / kc ^ (h - 1))).1
              = i / kr ^ (h - 1) * kr ^ (h - 1) := by rw [hcr]
          have hcr2 : (childRegion f null kr kc h 0 0
                (i / kr ^ (h - 1) * kc + j / kc ^ (h - 1))).2
              = j / kc ^ (h - 1) * kc ^ (h - 1) := by rw [hcr]
          rw [hcr1, hcr2] at hscan
          have hpm := Nat.div_add_mod' i (kr ^ (h - 1))
          have hqm := Nat.div_add_mod' j (kc ^ (h - 1))
          rw [show i / kr ^ (h - 1) * kr ^ (h - 1) + i % kr ^ (h - 1) = i by omega,
            show j / kc ^ (h - 1) * kc ^ (h - 1) + j % kc ^ (h - 1) = j by omega] at hscan
          exact hscan.symm
      | some l =>
          obtain ⟨hlt, hcell⟩ := rootScan_cell (f := f) kr kc h i j l hkr hkc hh
            hocc0 hi hj hro
          show tr.L.getD l tr.null = f i j
          rw [hL, hnull]
          have hKpos : 0 < kr * kc := Nat.mul_pos (by omega) (by omega)
          have hdm := Nat.div_add_mod' l (kr * kc)
          have hmlt : l % (kr * kc) < kr * kc := Nat.mod_lt _ hKpos
          have hgd := absL_getD (f := f) kr kc h (l / (kr * kc))
            (l % (kr * kc)) hh ((Nat.div_lt_iff_lt_mul hKpos).mpr hlt) hmlt
          rw [show l / (kr * kc) * (kr * kc) + l % (kr * kc) = l by omega] at hgd
          rw [hgd, hcell]

/-- Membership characterization of the fuelled rectangle enumeration: standing
on slot s of the n-th depth-t node with a clipped residual rectangle
[p1, p2] x [q1, q2] inside the slot's child region, the emitted positions are
exactly the offset coordinates of the non-null cells of that rectangle. -/
theorem rangePos_mem (tr : KrKcTree E) (kr kc h : Nat) (hkr : 1 ≤ kr) (hkc : 1 ≤ kc)
    (hh : 1 ≤ h)
    (hT : tr.T = absT f null kr kc h) (hL : tr.L = absL f null kr kc h)
    (hkrt : tr.kr = kr) (hkct : tr.kc = kc) (hnull : tr.null = null)
    (hocc0 : occ f null kr kc 0 0 h h = true) :
    ∀ (m : Nat), 1 ≤ m → ∀ (t n s p1 p2 q1 q2 dp dq : Nat), t + m = h →
    n < lvlCount f null kr kc h t → s < kr * kc →
    p1 ≤ p2 → p2 < kr ^ (m - 1) → q1 ≤ q2 → q2 < kc ^ (m - 1) →
    ∀ x : Nat × Nat,
    (x ∈ rangePos tr m (kr ^ (m - 1)) (kc ^ (m - 1)) p1 p2 q1 q2 dp dq
        (lvlOff f null kr kc h t + (n * (kr * kc) + s))
      ↔ ∃ p, p1 ≤ p ∧ p ≤ p2 ∧ ∃ q, q1 ≤ q ∧ q ≤ q2 ∧
          f ((childRegion f null kr kc h t n s).1 + p)
            ((childRegion f null kr kc h t n s).2 + q) ≠ null ∧
          x = (dp + p, dq + q)) := by
  intro m
  induction m with
  | zero => intro h1; exact absurd h1 (by omega)
  | succ m ih =>
      intro _ t n s p1 p2 q1 q2 dp dq htm hn hs hp12 hp2 hq12 hq2 x
      by_cases hm : m = 0
      · subst hm
        have ht : t = h - 1 := by omega
        have hp20 : p2 = 0 := by simpa using hp2
        have hq20 : q2 = 0 := by simpa using hq2
        have hp10 : p1 = 0 := by omega
        have hq10 : q1 = 0 := by omega
        subst hp20 hq20 hp10 hq10
        subst ht
        have hlen : tr.T.length = lvlOff f null kr kc h (h - 1) := by
          rw [hT, absT_length]
        simp only [rangePos]
        rw [if_pos (by rw [hlen]; omega)]
        rw [hL, hnull, hlen, Nat.add_sub_cancel_left]
        rw [absL_getD kr kc h n s hh hn hs]
        by_cases hf : f (childRegion f null kr kc h (h - 1) n s).1
            (childRegion f null kr kc h (h - 1) n s).2 = null
        · rw [if_neg (not_not_intro hf)]
          simp only [List.not_mem_nil, false_iff]
          rintro ⟨p, hpl, hpu, q, hql, hqu, hfneq, hxeq⟩
          have hp0 : p = 0 := by omega
          have hq0 : q = 0 := by omega
          subst hp0 hq0
          simp only [Nat.add_zero] at hfneq
          exact hfneq hf
        · rw [if_pos hf]
          constructor
          · intro hx
            rw [List.mem_singleton] at hx
            exact ⟨0, Nat.le_refl 0, Nat.le_refl 0, 0, Nat.le_refl 0, Nat.le_refl 0,
              by simpa using hf, by simpa using hx⟩
          · rintro ⟨p, hpl, hpu, q, hql, hqu, hfneq, hxeq⟩
            rw [List.mem_singleton]
            have hp0 : p = 0 := by omega
            have hq0 : q = 0 := by omega
            subst hp0 hq0
            simpa using hxeq
      · have hm1 : 1 ≤ m := by omega
        have ht : t < h - 1 := by omega
        have hmht : h - t - 1 = m := by omega
        have hA : kr ^ m / kr = kr ^ (m - 1) := by
          conv_lhs => rw [show m = (m - 1) + 1 by omega, pow_succ]
          rw [Nat.mul_div_cancel _ (show 0 < kr by omega)]
        have hB : kc ^ m / kc = kc ^ (m - 1) := by
          conv_lhs => rw [show m = (m - 1) + 1 by omega, pow_succ]
          rw [Nat.mul_div_cancel _ (show 0 < kc by omega)]
        have hApos : 0 < kr ^ (m - 1) := Nat.pos_pow_of_pos _ (by omega)
        have hBpos : 0 < kc ^ (m - 1) := Nat.pos_pow_of_pos _ (by omega)
        have hp2m : p2 < kr ^ m := hp2
        have hq2m : q2 < kc ^ m := hq2
        have hzlt : lvlOff f null kr kc h t + (n * (kr * kc) + s) < tr.T.length := by
          rw [hT, absT_length]
          have h1 := group_slot_lt n s (lvlCount f null kr kc h t) (kr * kc) hn hs
          have h2 : lvlOff f null kr kc h (t + 1) ≤ lvlOff f null kr kc h (h - 1) :=
            lvlOff_mono kr kc h (t + 1) (h - 1) (by omega)
          rw [lvlOff_succ] at h2
          omega
        have hbit := bit_at (f := f) kr kc h t n s ht hn hs
        simp only [rangePos]
        rw [if_neg (by omega)]
        conv_lhs => rw [hT, hkrt, hkct]
        rw [hbit, hmht]
        rw [show (m + 1 - 1 : Nat) = m from rfl, hA, hB]
        cases hocc : occ f null kr kc (childRegion f null kr kc h t n s).1
            (childRegion f null kr kc h t n s).2 m m with
        | false =>
            rw [if_neg (by simp)]
            simp only [List.not_mem_nil, false_iff]
            rintro ⟨p, hpl, hpu, q, hql, hqu, hfneq, hxeq⟩
            have hall := occ_false_all (f := f) hocc
            exact hfneq (hall p (by omega) q (by omega))
        | true =>
            rw [if_pos rfl]
            have hQp : p1 / kr ^ (m - 1) ≤ p2 / kr ^ (m - 1) :=
              Nat.div_le_div_right hp12
            have hQq : q1 / kc ^ (m - 1) ≤ q2 / kc ^ (m - 1) :=
              Nat.div_le_div_right hq12
            have hoccm : occ f null kr kc (childRegion f null kr kc h t n s).1
                (childRegion f null kr kc h t n s).2 (h - t - 1) (h - t - 1) = true := by
              rw [hmht]; exact hocc
            have hrank := child_rank (f := f) kr kc h t n s hkr hkc hh
              hocc0 ht hn hs hoccm
            have hidx := child_index (f := f) kr kc h t n s hkr hkc
              ht hn hs hoccm
            have hQp2 : p2 / kr ^ (m - 1) < kr := by
              apply Nat.div_lt_of_lt_mul
              rw [← pow_succ, show m - 1 + 1 = m by omega]
              exact hp2m
            have hQq2 : q2 / kc ^ (m - 1) < kc := by
              apply Nat.div_lt_of_lt_mul
              rw [← pow_succ, show m - 1 + 1 = m by omega]
              exact hq2m
            constructor
            · intro hx
              rw [List.mem_flatMap] at hx
              obtain ⟨i, hi_mem, hx⟩ := hx
              rw [List.mem_flatMap] at hx
              obtain ⟨j, hj_mem, hx⟩ := hx
              rw [mem_rangeIncl hQp] at hi_mem
              rw [mem_rangeIncl hQq] at hj_mem
              have hikr : i < kr := by omega
              have hjkc : j < kc := by omega
              have hsij : kc * i + j < kr * kc := by
                rw [Nat.mul_comm kc i]
                exact group_slot_lt i j kr kc hikr hjkc
              have hz' : rank1 (absT f null kr kc h)
                    (lvlOff f null kr kc h t + (n * (kr * kc) + s) + 1) * kr * kc
                    + kc * i + j
                  = lvlOff f null kr kc h (t + 1)
                    + (mIdx f null kr kc h t n s * (kr * kc) + (kc * i + j)) := by
                rw [Nat.mul_assoc, hrank]
                omega
              rw [hz'] at hx
              have hc1 := clip_le (kr ^ (m - 1)) p1 p2 i hApos hp12 hi_mem.1 hi_mem.2
              have hc2 := clip_le (kc ^ (m - 1)) q1 q2 j hBpos hq12 hj_mem.1 hj_mem.2
              have hlt1 := clip_lt (kr ^ (m - 1)) p2 i hApos
              have hlt2 := clip_lt (kc ^ (m - 1)) q2 j hBpos
              obtain ⟨p', hp1', hp2', q', hq1', hq2', hf', hx'⟩ :=
                (ih hm1 (t + 1) (mIdx f null kr kc h t n s) (kc * i + j)
                  _ _ _ _ (dp + kr ^ (m - 1) * i) (dq + kc ^ (m - 1) * j)
                  (by omega) hidx.2 hsij hc1 hlt1 hc2 hlt2 x).mp hx
              have hcr : childRegion f null kr kc h (t + 1) (mIdx f null kr kc h t n s)
                    (kc * i + j)
                  = ((childRegion f null kr kc h t n s).1 + i * kr ^ (m - 1),
                      (childRegion f null kr kc h t n s).2 + j * kc ^ (m - 1)) := by
                rw [childRegion, nodeAt, hidx.1, show h - (t + 1) - 1 = m - 1 by omega]
                rw [childOrigins_getD (show 0 < kc by omega) hsij]
                rw [Nat.mul_add_div (by omega), Nat.div_eq_of_lt hjkc,
                  Nat.mul_add_mod, Nat.mod_eq_of_lt hjkc]
                simp
              rw [hcr] at hf'
              refine ⟨kr ^ (m - 1) * i + p',
                (split_recompose (kr ^ (m - 1)) p1 p2 i p' hApos hi_mem.1 hi_mem.2
                  hp1' hp2').1,
                (split_recompose (kr ^ (m - 1)) p1 p2 i p' hApos hi_mem.1 hi_mem.2
                  hp1' hp2').2,
                kc ^ (m - 1) * j + q',
                (split_recompose (kc ^ (m - 1)) q1 q2 j q' hBpos hj_mem.1 hj_mem.2
                  hq1' hq2').1,
                (split_recompose (kc ^ (m - 1)) q1 q2 j q' hBpos hj_mem.1 hj_mem.2
                  hq1' hq2').2, ?_, ?_⟩
              · rw [show (childRegion f null kr kc h t n s).1
                    + (kr ^ (m - 1) * i + p')
                    = (childRegion f null kr kc h t n s).1 + i * kr ^ (m - 1) + p' by
                  rw [Nat.mul_comm (kr ^ (m - 1)) i]; omega]
                rw [show (childRegion f null kr kc h t n s).2
                    + (kc ^ (m - 1) * j + q')
                    = (childRegion f null kr kc h t n s).2 + j * kc ^ (m - 1) + q' by
                  rw [Nat.mul_comm (kc ^ (m - 1)) j]; omega]
                exact hf'
              · rw [hx']
                simp only [Prod.mk.injEq]
                constructor
                · omega
                · omega
            · rintro ⟨p, hpl, hpu, q, hql, hqu, hfneq, hxeq⟩
              have hsp := split_le (kr ^ (m - 1)) p1 p2 p hApos hpl hpu
              have hsq := split_le (kc ^ (m - 1)) q1 q2 q hBpos hql hqu
              rw [List.mem_flatMap]
              refine ⟨p / kr ^ (m - 1),
                (mem_rangeIncl hQp).mpr ⟨hsp.1, hsp.2.1⟩, ?_⟩
              rw [List.mem_flatMap]
              refine ⟨q / kc ^ (m - 1),
                (mem_rangeIncl hQq).mpr ⟨hsq.1, hsq.2.1⟩, ?_⟩
              have hikr : p / kr ^ (m - 1) < kr := by omega
              have hjkc : q / kc ^ (m - 1) < kc := by omega
              have hsij : kc * (p / kr ^ (m - 1)) + q / kc ^ (m - 1) < kr * kc := by
                rw [Nat.mul_comm kc (p / kr ^ (m - 1))]
                exact group_slot_lt _ _ kr kc hikr hjkc
              have hz' : rank1 (absT f null kr kc h)
                    (lvlOff f null kr kc h t + (n * (kr * kc) + s) + 1) * kr * kc
                    + kc * (p / kr ^ (m - 1)) + q / kc ^ (m - 1)
                  = lvlOff f null kr kc h (t + 1)
                    + (mIdx f null kr kc h t n s * (kr * kc)
                      + (kc * (p / kr ^ (m - 1)) + q / kc ^ (m - 1))) := by
                rw [Nat.mul_assoc, hrank]
                omega
              rw [hz']
              have hc1 := clip_le (kr ^ (m - 1)) p1 p2 (p / kr ^ (m - 1)) hApos hp12
                hsp.1 hsp.2.1
              have hc2 := clip_le (kc ^ (m - 1)) q1 q2 (q / kc ^ (m - 1)) hBpos hq12
                hsq.1 hsq.2.1
              have hlt1 := clip_lt (kr ^ (m - 1)) p2 (p / kr ^ (m - 1)) hApos
              have hlt2 := clip_lt (kc ^ (m - 1)) q2 (q / kc ^ (m - 1)) hBpos
              apply (ih hm1 (t + 1) (mIdx f null kr kc h t n s)
                (kc * (p / kr ^ (m - 1)) + q / kc ^ (m - 1))
                _ _ _ _ (dp + kr ^ (m - 1) * (p / kr ^ (m - 1)))
                (dq + kc ^ (m - 1) * (q / kc ^ (m - 1)))
                (by omega) hidx.2 hsij hc1 hlt1 hc2 hlt2 x).mpr
              have hcr : childRegion f null kr kc h (t + 1) (mIdx f null kr kc h t n s)
                    (kc * (p / kr ^ (m - 1)) + q / kc ^ (m - 1))
                  = ((childRegion f null kr kc h t n s).1
                        + p / kr ^ (m - 1) * kr ^ (m - 1),
                      (childRegion f null kr kc h t n s).2
                        + q / kc ^ (m - 1) * kc ^ (m - 1)) := by
                rw [childRegion, nodeAt, hidx.1, show h - (t + 1) - 1 = m - 1 by omega]
                rw [childOrigins_getD (show 0 < kc by omega) hsij]
                rw [Nat.mul_add_div (by omega), Nat.div_eq_of_lt hjkc,
                  Nat.mul_add_mod, Nat.mod_eq_of_lt hjkc]
                simp
              refine ⟨p % kr ^ (m - 1), hsp.2.2.1, hsp.2.2.2,
                q % kc ^ (m - 1), hsq.2.2.1, hsq.2.2.2, ?_, ?_⟩
              · rw [hcr]
                have hpdm := Nat.div_add_mod' p (kr ^ (m - 1))
                have hqdm := Nat.div_add_mod' q (kc ^ (m - 1))
                rw [show (childRegion f null kr kc h t n s).1
                      + p / kr ^ (m - 1) * kr ^ (m - 1) + p % kr ^ (m - 1)
                    = (childRegion f null kr kc h t n s).1 + p by omega]
                rw [show (childRegion f null kr kc h t n s).2
                      + q / kc ^ (m - 1) * kc ^ (m - 1) + q % kc ^ (m - 1)
                    = (childRegion f null kr kc h t n s).2 + q by omega]
                exact hfneq
              · rw [hxeq]
                simp only [Prod.mk.injEq]
                have hpdm := Nat.div_add_mod p (kr ^ (m - 1))
                have hqdm := Nat.div_add_mod q (kc ^ (m - 1))
                constructor
                · omega
                · omega

/-- Entry-point form of rangePos_mem: membership in rangePosInit on a
non-degenerate structure is exactly non-nullness inside the query rectangle,
with absolute coordinates. -/
theorem rangePosInit_mem (tr : KrKcTree E) (kr kc h : Nat)
    (hkr : 2 ≤ kr) (hkc : 2 ≤ kc) (hh : 1 ≤ h)
    (hT : tr.T = absT f null kr kc h) (hL : tr.L = absL f null kr kc h)
    (hkrt : tr.kr = kr) (hkct : tr.kc = kc) (hnull : tr.null = null)
    (hht : tr.h = h) (hR : tr.numRows = kr ^ h) (hC : tr.numCols = kc ^ h)
    (hocc0 : occ f null kr kc 0 0 h h = true) (hLne : tr.L.isEmpty = false)
    (p1 p2 q1 q2 : Nat) (hp12 : p1 ≤ p2) (hp2 : p2 < kr ^ h) (hq12 : q1 ≤ q2)
    (hq2 : q2 < kc ^ h) (x : Nat × Nat) :
    x ∈ rangePosInit tr p1 p2 q1 q2
      ↔ ∃ p, p1 ≤ p ∧ p ≤ p2 ∧ ∃ q, q1 ≤ q ∧ q ≤ q2 ∧ f p q ≠ null ∧ x = (p, q) := by
  have hA : tr.numRows / tr.kr = kr ^ (h - 1) := by
    rw [hR, hkrt]
    conv_lhs => rw [show h = (h - 1) + 1 by omega, pow_succ]
    rw [Nat.mul_div_cancel _ (show 0 < kr by omega)]
  have hB : tr.numCols / tr.kc = kc ^ (h - 1) := by
    rw [hC, hkct]
    conv_lhs => rw [show h = (h - 1) + 1 by omega, pow_succ]
    rw [Nat.mul_div_cancel _ (show 0 < kc by omega)]
  have hApos : 0 < kr ^ (h - 1) := Nat.pos_pow_of_pos _ (by omega)
  have hBpos : 0 < kc ^ (h - 1) := Nat.pos_pow_of_pos _ (by omega)
  have hQp : p1 / kr ^ (h - 1) ≤ p2 / kr ^ (h - 1) := Nat.div_le_div_right hp12
  have hQq : q1 / kc ^ (h - 1) ≤ q2 / kc ^ (h - 1) := Nat.div_le_div_right hq12
  have hQp2 : p2 / kr ^ (h - 1) < kr := by
    apply Nat.div_lt_of_lt_mul
    rw [← pow_succ, show h - 1 + 1 = h by omega]
    exact hp2
  have hQq2 : q2 / kc ^ (h - 1) < kc := by
    apply Nat.div_lt_of_lt_mul
    rw [← pow_succ, show h - 1 + 1 = h by omega]
    exact hq2
  have hn0 : (0 : Nat) < lvlCount f null kr kc h 0 := by
    rw [lvlCount_zero kr kc _ hocc0]
    omega
  have hnode : nodeAt f null kr kc h 0 0 = (0, 0) := by
    simp [nodeAt, rootLvl, lvl, hocc0]
  rw [rangePosInit, if_neg (by rw [hLne]; simp)]
  conv_lhs => rw [hA, hB, hkct, hht]
  constructor
  · intro hx
    rw [List.mem_flatMap] at hx
    obtain ⟨i, hi_mem, hx⟩ := hx
    rw [List.mem_flatMap] at hx
    obtain ⟨j, hj_mem, hx⟩ := hx
    rw [mem_rangeIncl hQp] at hi_mem
    rw [mem_rangeIncl hQq] at hj_mem
    have hikr : i < kr := by omega
    have hjkc : j < kc := by omega
    have hsij : kc * i + j < kr * kc := by
      rw [Nat.mul_comm kc i]
      exact group_slot_lt i j kr kc hikr hjkc
    rw [show (kc * i + j : Nat)
        = lvlOff f null kr kc h 0 + (0 * (kr * kc) + (kc * i + j)) by
      rw [show lvlOff f null kr kc h 0 = 0 from rfl]
      omega] at hx
    have hc1 := clip_le (kr ^ (h - 1)) p1 p2 i hApos hp12 hi_mem.1 hi_mem.2
    have hc2 := clip_le (kc ^ (h - 1)) q1 q2 j hBpos hq12 hj_mem.1 hj_mem.2
    have hlt1 := clip_lt (kr ^ (h - 1)) p2 i hApos
    have hlt2 := clip_lt (kc ^ (h - 1)) q2 j hBpos
    obtain ⟨p', hp1', hp2', q', hq1', hq2', hf', hx'⟩ :=
      (rangePos_mem (f := f) tr kr kc h (by omega) (by omega) hh
        hT hL hkrt hkct hnull hocc0 h hh 0 0 (kc * i + j)
        _ _ _ _ (kr ^ (h - 1) * i) (kc ^ (h - 1) * j)
        (by omega) hn0 hsij hc1 hlt1 hc2 hlt2 x).mp hx
    have hcr : childRegion f null kr kc h 0 0 (kc * i + j)
        = (i * kr ^ (h - 1), j * kc ^ (h - 1)) := by
      rw [childRegion, hnode, show h - 0 - 1 = h - 1 by omega]
      rw [childOrigins_getD (show 0 < kc by omega) hsij]
      rw [Nat.mul_add_div (by omega), Nat.div_eq_of_lt hjkc,
        Nat.mul_add_mod, Nat.mod_eq_of_lt hjkc]
      simp
    have hcr1 : (childRegion f null kr kc h 0 0 (kc * i + j)).1
        = i * kr ^ (h - 1) := by rw [hcr]
    have hcr2 : (childRegion f null kr kc h 0 0 (kc * i + j)).2
        = j * kc ^ (h - 1) := by rw [hcr]
    rw [hcr1, hcr2] at hf'
    refine ⟨kr ^ (h - 1) * i + p',
      (split_recompose (kr ^ (h - 1)) p1 p2 i p' hApos hi_mem.1 hi_mem.2 hp1' hp2').1,
      (split_recompose (kr ^ (h - 1)) p1 p2 i p' hApos hi_mem.1 hi_mem.2 hp1' hp2').2,
      kc ^ (h - 1) * j + q',
      (split_recompose (kc ^ (h - 1)) q1 q2 j q' hBpos hj_mem.1 hj_mem.2 hq1' hq2').1,
      (split_recompose (kc ^ (h - 1)) q1 q2 j q' hBpos hj_mem.1 hj_mem.2 hq1' hq2').2,
      ?_, ?_⟩
    · rw [show (kr ^ (h - 1) * i + p' : Nat) = i * kr ^ (h - 1) + p' by
        rw [Nat.mul_comm]]
      rw [show (kc ^ (h - 1) * j + q' : Nat) = j * kc ^ (h - 1) + q' by
        rw [Nat.mul_comm]]
      exact hf'
    · rw [hx']
  · rintro ⟨p, hpl, hpu, q, hql, hqu, hfneq, hxeq⟩
    have hsp := split_le (kr ^ (h - 1)) p1 p2 p hApos hpl hpu
    have hsq := split_le (kc ^ (h - 1)) q1 q2 q hBpos hql hqu
    rw [List.mem_flatMap]
    refine ⟨p / kr ^ (h - 1), (mem_rangeIncl hQp).mpr ⟨hsp.1, hsp.2.1⟩, ?_⟩
    rw [List.mem_flatMap]
    refine ⟨q / kc ^ (h - 1), (mem_rangeIncl hQq).mpr ⟨hsq.1, hsq.2.1⟩, ?_⟩
    have hikr : p / kr ^ (h - 1) < kr := by omega
    have hjkc : q / kc ^ (h - 1) < kc := by omega
    have hsij : kc * (p / kr ^ (h - 1)) + q / kc ^ (h - 1) < kr * kc := by
      rw [Nat.mul_comm kc (p / kr ^ (h - 1))]
      exact group_slot_lt _ _ kr kc hikr hjkc
    rw [show (kc * (p / kr ^ (h - 1)) + q / kc ^ (h - 1) : Nat)
        = lvlOff f null kr kc h 0
          + (0 * (kr * kc) + (kc * (p / kr ^ (h - 1)) + q / kc ^ (h - 1))) by
      rw [show lvlOff f null kr kc h 0 = 0 from rfl]
      omega]
    have hc1 := clip_le (kr ^ (h - 1)) p1 p2 (p / kr ^ (h - 1)) hApos hp12
      hsp.1 hsp.2.1
    have hc2 := clip_le (kc ^ (h - 1)) q1 q2 (q / kc ^ (h - 1)) hBpos hq12
      hsq.1 hsq.2.1
    have hlt1 := clip_lt (kr ^ (h - 1)) p2 (p / kr ^ (h - 1)) hApos
    have hlt2 := clip_lt (kc ^ (h - 1)) q2 (q / kc ^ (h - 1)) hBpos
    apply (rangePos_mem (f := f) tr kr kc h (by omega) (by omega) hh
      hT hL hkrt hkct hnull hocc0 h hh 0 0
      (kc * (p / kr ^ (h - 1)) + q / kc ^ (h - 1))
      _ _ _ _ (kr ^ (h - 1) * (p / kr ^ (h - 1))) (kc ^ (h - 1) * (q / kc ^ (h - 1)))
      (by omega) hn0 hsij hc1 hlt1 hc2 hlt2 x).mpr
    have hcr : childRegion f null kr kc h 0 0
          (kc * (p / kr ^ (h - 1)) + q / kc ^ (h - 1))
        = (p / kr ^ (h - 1) * kr ^ (h - 1), q / kc ^ (h - 1) * kc ^ (h - 1)) := by
      rw [childRegion, hnode, show h - 0 - 1 = h - 1 by omega]
      rw [childOrigins_getD (show 0 < kc by omega) hsij]
      rw [Nat.mul_add_div (by omega), Nat.div_eq_of_lt hjkc,
        Nat.mul_add_mod, Nat.mod_eq_of_lt hjkc]
      simp
    have hcr1 : (childRegion f null kr kc h 0 0
          (kc * (p / kr ^ (h - 1)) + q / kc ^ (h - 1))).1
        = p / kr ^ (h - 1) * kr ^ (h - 1) := by rw [hcr]
    have hcr2 : (childRegion f null kr kc h 0 0
          (kc * (p / kr ^ (h - 1)) + q / kc ^ (h - 1))).2
        = q / kc ^ (h - 1) * kc ^ (h - 1) := by rw [hcr]
    refine ⟨p % kr ^ (h - 1), hsp.2.2.1, hsp.2.2.2,
      q % kc ^ (h - 1), hsq.2.2.1, hsq.2.2.2, ?_, ?_⟩
    · rw [hcr1, hcr2]
      have hpdm := Nat.div_add_mod' p (kr ^ (h - 1))
      have hqdm := Nat.div_add_mod' q (kc ^ (h - 1))
      rw [show (p / kr ^ (h - 1) * kr ^ (h - 1) + p % kr ^ (h - 1) : Nat) = p by omega]
      rw [show (q / kc ^ (h - 1) * kc ^ (h - 1) + q % kc ^ (h - 1) : Nat) = q by omega]
      exact hfneq
    · rw [hxeq]
      simp only [Prod.mk.injEq]
      have hpdm := Nat.div_add_mod p (kr ^ (h - 1))
      have hqdm := Nat.div_add_mod q (kc ^ (h - 1))
      constructor
      · omega
      · omega

/-- Truth characterization of the fuelled rectangle-emptiness test with the
null-based truthiness conversion, on a freshly built structure: standing on
slot s of the n-th depth-t node with a clipped residual rectangle, the answer
is true exactly when the rectangle holds a non-null cell (the whole-extent
shortcut is sound here because the parent bit is the region's occupancy). -/
theorem elemInRange_iff (tr : KrKcTree E) (kr kc h : Nat) (hkr : 1 ≤ kr)
    (hkc : 1 ≤ kc) (hh : 1 ≤ h)
    (hT : tr.T = absT f null kr kc h) (hL : tr.L = absL f null kr kc h)
    (hkrt : tr.kr = kr) (hkct : tr.kc = kc) (hnull : tr.null = null)
    (hocc0 : occ f null kr kc 0 0 h h = true) :
    ∀ (m : Nat), 1 ≤ m → ∀ (t n s p1 p2 q1 q2 : Nat), t + m = h →
    n < lvlCount f null kr kc h t → s < kr * kc →
    p1 ≤ p2 → p2 < kr ^ (m - 1) → q1 ≤ q2 → q2 < kc ^ (m - 1) →
    (elemInRange (fun e => decide (e ≠ null)) tr m (kr ^ (m - 1)) (kc ^ (m - 1))
        p1 p2 q1 q2 (lvlOff f null kr kc h t + (n * (kr * kc) + s)) = true
      ↔ ∃ p, p1 ≤ p ∧ p ≤ p2 ∧ ∃ q, q1 ≤ q ∧ q ≤ q2 ∧
          f ((childRegion f null kr kc h t n s).1 + p)
            ((childRegion f null kr kc h t n s).2 + q) ≠ null) := by
  intro m
  induction m with
  | zero => intro h1; exact absurd h1 (by omega)
  | succ m ih =>
      intro _ t n s p1 p2 q1 q2 htm hn hs hp12 hp2 hq12 hq2
      by_cases hm : m = 0
      · subst hm
        have ht : t = h - 1 := by omega
        have hp20 : p2 = 0 := by simpa using hp2
        have hq20 : q2 = 0 := by simpa using hq2
        have hp10 : p1 = 0 := by omega
        have hq10 : q1 = 0 := by omega
        subst hp20 hq20 hp10 hq10
        subst ht
        have hlen : tr.T.length = lvlOff f null kr kc h (h - 1) := by
          rw [hT, absT_length]
        simp only [elemInRange]
        rw [if_pos (by rw [hlen]; omega)]
        rw [hL, hnull, hlen, Nat.add_sub_cancel_left]
        rw [absL_getD kr kc h n s hh hn hs]
        rw [decide_eq_true_iff]
        constructor
        · intro hne
          exact ⟨0, Nat.le_refl 0, Nat.le_refl 0, 0, Nat.le_refl 0, Nat.le_refl 0,
            by simpa using hne⟩
        · rintro ⟨p, hpl, hpu, q, hql, hqu, hne⟩
          have hp0 : p = 0 := by omega
          have hq0 : q = 0 := by omega
          subst hp0 hq0
          simpa using hne
      · have hm1 : 1 ≤ m := by omega
        have ht : t < h - 1 := by omega
        have hmht : h - t - 1 = m := by omega
        have hA : kr ^ m / kr = kr ^ (m - 1) := by
          conv_lhs => rw [show m = (m - 1) + 1 by omega, pow_succ]
          rw [Nat.mul_div_cancel _ (show 0 < kr by omega)]
        have hB : kc ^ m / kc = kc ^ (m - 1) := by
          conv_lhs => rw [show m = (m - 1) + 1 by omega, pow_succ]
          rw [Nat.mul_div_cancel _ (show 0 < kc by omega)]
        have hApos : 0 < kr ^ (m - 1) := Nat.pos_pow_of_pos _ (by omega)
        have hBpos : 0 < kc ^ (m - 1) := Nat.pos_pow_of_pos _ (by omega)
        have hp2m : p2 < kr ^ m := hp2
        have hq2m : q2 < kc ^ m := hq2
        have hzlt : lvlOff f null kr kc h t + (n * (kr * kc) + s) < tr.T.length := by
          rw [hT, absT_length]
          have h1 := group_slot_lt n s (lvlCount f null kr kc h t) (kr * kc) hn hs
          have h2 : lvlOff f null kr kc h (t + 1) ≤ lvlOff f null kr kc h (h - 1) :=
            lvlOff_mono kr kc h (t + 1) (h - 1) (by omega)
          rw [lvlOff_succ] at h2
          omega
        have hbit := bit_at (f := f) kr kc h t n s ht hn hs
        simp only [elemInRange]
        rw [if_neg (by omega)]
        conv_lhs => rw [hT, hkrt, hkct]
        rw [hbit, hmht]
        rw [show (m + 1 - 1 : Nat) = m from rfl, hA, hB]
        cases hocc : occ f null kr kc (childRegion f null kr kc h t n s).1
            (childRegion f null kr kc h t n s).2 m m with
        | false =>
            rw [if_neg (by simp)]
            constructor
            · intro hfalse
              exact Bool.noConfusion hfalse
            · rintro ⟨p, hpl, hpu, q, hql, hqu, hfneq⟩
              have hall := occ_false_all (f := f) hocc
              exact absurd (hall p (by omega) q (by omega)) hfneq
        | true =>
            rw [if_pos rfl]
            have hQp : p1 / kr ^ (m - 1) ≤ p2 / kr ^ (m - 1) :=
              Nat.div_le_div_right hp12
            have hQq : q1 / kc ^ (m - 1) ≤ q2 / kc ^ (m - 1) :=
              Nat.div_le_div_right hq12
            have hoccm : occ f null kr kc (childRegion f null kr kc h t n s).1
                (childRegion f null kr kc h t n s).2 (h - t - 1) (h - t - 1) = true := by
              rw [hmht]; exact hocc
            have hrank := child_rank (f := f) kr kc h t n s hkr hkc hh
              hocc0 ht hn hs hoccm
            have hidx := child_index (f := f) kr kc h t n s hkr hkc
              ht hn hs hoccm
            have hQp2 : p2 / kr ^ (m - 1) < kr := by
              apply Nat.div_lt_of_lt_mul
              rw [← pow_succ, show m - 1 + 1 = m by omega]
              exact hp2m
            have hQq2 : q2 / kc ^ (m - 1) < kc := by
              apply Nat.div_lt_of_lt_mul
              rw [← pow_succ, show m - 1 + 1 = m by omega]
              exact hq2m
            by_cases hfull : p1 = 0 ∧ q1 = 0 ∧ p2 = kr ^ m - 1 ∧ q2 = kc ^ m - 1
            · rw [if_pos hfull]
              constructor
              · intro _
                obtain ⟨i, hi, j, hj, hne⟩ := occ_iff.mp hocc
                exact ⟨i, by omega, by omega, j, by omega, by omega, hne⟩
              · intro _
                rfl
            · rw [if_neg hfull]
              constructor
              · intro hx
                rw [List.any_eq_true] at hx
                obtain ⟨i, hi_mem, hx⟩ := hx
                rw [List.any_eq_true] at hx
                obtain ⟨j, hj_mem, hx⟩ := hx
                rw [mem_rangeIncl hQp] at hi_mem
                rw [mem_rangeIncl hQq] at hj_mem
                have hikr : i < kr := by omega
                have hjkc : j < kc := by omega
                have hsij : kc * i + j < kr * kc := by
                  rw [Nat.mul_comm kc i]
                  exact group_slot_lt i j kr kc hikr hjkc
                have hz' : rank1 (absT f null kr kc h)
                      (lvlOff f null kr kc h t + (n * (kr * kc) + s) + 1) * kr * kc
                      + kc * i + j
                    = lvlOff f null kr kc h (t + 1)
                      + (mIdx f null kr kc h t n s * (kr * kc) + (kc * i + j)) := by
                  rw [Nat.mul_assoc, hrank]
                  omega
                rw [hz'] at hx
                have hc1 := clip_le (kr ^ (m - 1)) p1 p2 i hApos hp12 hi_mem.1 hi_mem.2
                have hc2 := clip_le (kc ^ (m - 1)) q1 q2 j hBpos hq12 hj_mem.1 hj_mem.2
                have hlt1 := clip_lt (kr ^ (m - 1)) p2 i hApos
                have hlt2 := clip_lt (kc ^ (m - 1)) q2 j hBpos
                obtain ⟨p', hp1', hp2', q', hq1', hq2', hf'⟩ :=
                  (ih hm1 (t + 1) (mIdx f null kr kc h t n s) (kc * i + j)
                    _ _ _ _ (by omega) hidx.2 hsij hc1 hlt1 hc2 hlt2).mp hx
                have hcr : childRegion f null kr kc h (t + 1)
                      (mIdx f null kr kc h t n s) (kc * i + j)
                    = ((childRegion f null kr kc h t n s).1 + i * kr ^ (m - 1),
                        (childRegion f null kr kc h t n s).2 + j * kc ^ (m - 1)) := by
                  rw [childRegion, nodeAt, hidx.1, show h - (t + 1) - 1 = m - 1 by omega]
                  rw [childOrigins_getD (show 0 < kc by omega) hsij]
                  rw [Nat.mul_add_div (by omega), Nat.div_eq_of_lt hjkc,
                    Nat.mul_add_mod, Nat.mod_eq_of_lt hjkc]
                  simp
                have hcr1 : (childRegion f null kr kc h (t + 1)
                      (mIdx f null kr kc h t n s) (kc * i + j)).1
                    = (childRegion f null kr kc h t n s).1 + i * kr ^ (m - 1) := by
                  rw [hcr]
                have hcr2 : (childRegion f null kr kc h (t + 1)
                      (mIdx f null kr kc h t n s) (kc * i + j)).2
                    = (childRegion f null kr kc h t n s).2 + j * kc ^ (m - 1) := by
                  rw [hcr]
                rw [hcr1, hcr2] at hf'
                refine ⟨kr ^ (m - 1) * i + p',
                  (split_recompose (kr ^ (m - 1)) p1 p2 i p' hApos hi_mem.1 hi_mem.2
                    hp1' hp2').1,
                  (split_recompose (kr ^ (m - 1)) p1 p2 i p' hApos hi_mem.1 hi_mem.2
                    hp1' hp2').2,
                  kc ^ (m - 1) * j + q',
                  (split_recompose (kc ^ (m - 1)) q1 q2 j q' hBpos hj_mem.1 hj_mem.2
                    hq1' hq2').1,
                  (split_recompose (kc ^ (m - 1)) q1 q2 j q' hBpos hj_mem.1 hj_mem.2
                    hq1' hq2').2, ?_⟩
                rw [show (childRegion f null kr kc h t n s).1
                      + (kr ^ (m - 1) * i + p')
                    = (childRegion f null kr kc h t n s).1 + i * kr ^ (m - 1) + p' by
                  rw [Nat.mul_comm (kr ^ (m - 1)) i]; omega]
                rw [show (childRegion f null kr kc h t n s).2
                      + (kc ^ (m - 1) * j + q')
                    = (childRegion f null kr kc h t n s).2 + j * kc ^ (m - 1) + q' by
                  rw [Nat.mul_comm (kc ^ (m - 1)) j]; omega]
                exact hf'
              · rintro ⟨p, hpl, hpu, q, hql, hqu, hfneq⟩
                have hsp := split_le (kr ^ (m - 1)) p1 p2 p hApos hpl hpu
                have hsq := split_le (kc ^ (m - 1)) q1 q2 q hBpos hql hqu
                rw [List.any_eq_true]
                refine ⟨p / kr ^ (m - 1),
                  (mem_rangeIncl hQp).mpr ⟨hsp.1, hsp.2.1⟩, ?_⟩
                rw [List.any_eq_true]
                refine ⟨q / kc ^ (m - 1),
                  (mem_rangeIncl hQq).mpr ⟨hsq.1, hsq.2.1⟩, ?_⟩
                have hikr : p / kr ^ (m - 1) < kr := by omega
                have hjkc : q / kc ^ (m - 1) < kc := by omega
                have hsij : kc * (p / kr ^ (m - 1)) + q / kc ^ (m - 1) < kr * kc := by
                  rw [Nat.mul_comm kc (p / kr ^ (m - 1))]
                  exact group_slot_lt _ _ kr kc hikr hjkc
                have hz' : rank1 (absT f null kr kc h)
                      (lvlOff f null kr kc h t + (n * (kr * kc) + s) + 1) * kr * kc
                      + kc * (p / kr ^ (m - 1)) + q / kc ^ (m - 1)
                    = lvlOff f null kr kc h (t + 1)
                      + (mIdx f null kr kc h t n s * (kr * kc)
                        + (kc * (p / kr ^ (m - 1)) + q / kc ^ (m - 1))) := by
                  rw [Nat.mul_assoc, hrank]
                  omega
                rw [hz']
                have hc1 := clip_le (kr ^ (m - 1)) p1 p2 (p / kr ^ (m - 1)) hApos hp12
                  hsp.1 hsp.2.1
                have hc2 := clip_le (kc ^ (m - 1)) q1 q2 (q / kc ^ (m - 1)) hBpos hq12
                  hsq.1 hsq.2.1
                have hlt1 := clip_lt (kr ^ (m - 1)) p2 (p / kr ^ (m - 1)) hApos
                have hlt2 := clip_lt (kc ^ (m - 1)) q2 (q / kc ^ (m - 1)) hBpos
                apply (ih hm1 (t + 1) (mIdx f null kr kc h t n s)
                  (kc * (p / kr ^ (m - 1)) + q / kc ^ (m - 1))
                  _ _ _ _ (by omega) hidx.2 hsij hc1 hlt1 hc2 hlt2).mpr
                have hcr : childRegion f null kr kc h (t + 1)
                      (mIdx f null kr kc h t n s)
                      (kc * (p / kr ^ (m - 1)) + q / kc ^ (m - 1))
                    = ((childRegion f null kr kc h t n s).1
                          + p / kr ^ (m - 1) * kr ^ (m - 1),
                        (childRegion f null kr kc h t n s).2
                          + q / kc ^ (m - 1) * kc ^ (m - 1)) := by
                  rw [childRegion, nodeAt, hidx.1, show h - (t + 1) - 1 = m - 1 by omega]
                  rw [childOrigins_getD (show 0 < kc by omega) hsij]
                  rw [Nat.mul_add_div (by omega), Nat.div_eq_of_lt hjkc,
                    Nat.mul_add_mod, Nat.mod_eq_of_lt hjkc]
                  simp
                have hcr1 : (childRegion f null kr kc h (t + 1)
                      (mIdx f null kr kc h t n s)
                      (kc * (p / kr ^ (m - 1)) + q / kc ^ (m - 1))).1
                    = (childRegion f null kr kc h t n s).1
                        + p / kr ^ (m - 1) * kr ^ (m - 1) := by rw [hcr]
                have hcr2 : (childRegion f null kr kc h (t + 1)
                      (mIdx f null kr kc h t n s)
                      (kc * (p / kr ^ (m - 1)) + q / kc ^ (m - 1))).2
                    = (childRegion f null kr kc h t n s).2
                        + q / kc ^ (m - 1) * kc ^ (m - 1) := by rw [hcr]
                refine ⟨p % kr ^ (m - 1), hsp.2.2.1, hsp.2.2.2,
                  q % kc ^ (m - 1), hsq.2.2.1, hsq.2.2.2, ?_⟩
                rw [hcr1, hcr2]
                have hpdm := Nat.div_add_mod' p (kr ^ (m - 1))
                have hqdm := Nat.div_add_mod' q (kc ^ (m - 1))
                rw [show (childRegion f null kr kc h t n s).1
                      + p / kr ^ (m - 1) * kr ^ (m - 1) + p % kr ^ (m - 1)
                    = (childRegion f null kr kc h t n s).1 + p by omega]
                rw [show (childRegion f null kr kc h t n s).2
                      + q / kc ^ (m - 1) * kc ^ (m - 1) + q % kc ^ (m - 1)
                    = (childRegion f null kr kc h t n s).2 + q by omega]
                exact hfneq

/-- Entry-point form of elemInRange_iff on a freshly built non-degenerate
structure: the containment test answers rectangle non-emptiness, the top-level
whole-extent shortcut being sound because a non-empty L means an occupied
root. -/
theorem elemInRangeInit_iff (tr : KrKcTree E) (kr kc h : Nat)
    (hkr : 2 ≤ kr) (hkc : 2 ≤ kc) (hh : 1 ≤ h)
    (hT : tr.T = absT f null kr kc h) (hL : tr.L = absL f null kr kc h)
    (hkrt : tr.kr = kr) (hkct : tr.kc = kc) (hnull : tr.null = null)
    (hht : tr.h = h) (hR : tr.numRows = kr ^ h) (hC : tr.numCols = kc ^ h)
    (hocc0 : occ f null kr kc 0 0 h h = true) (hLne : tr.L.isEmpty = false)
    (p1 p2 q1 q2 : Nat) (hp12 : p1 ≤ p2) (hp2 : p2 < kr ^ h) (hq12 : q1 ≤ q2)
    (hq2 : q2 < kc ^ h) :
    (elemInRangeInit (fun e => decide (e ≠ null)) tr p1 p2 q1 q2 = true
      ↔ ∃ p, p1 ≤ p ∧ p ≤ p2 ∧ ∃ q, q1 ≤ q ∧ q ≤ q2 ∧ f p q ≠ null) := by
  have hA : tr.numRows / tr.kr = kr ^ (h - 1) := by
    rw [hR, hkrt]
    conv_lhs => rw [show h = (h - 1) + 1 by omega, pow_succ]
    rw [Nat.mul_div_cancel _ (show 0 < kr by omega)]
  have hB : tr.numCols / tr.kc = kc ^ (h - 1) := by
    rw [hC, hkct]
    conv_lhs => rw [show h = (h - 1) + 1 by omega, pow_succ]
    rw [Nat.mul_div_cancel _ (show 0 < kc by omega)]
  have hApos : 0 < kr ^ (h - 1) := Nat.pos_pow_of_pos _ (by omega)
  have hBpos : 0 < kc ^ (h - 1) := Nat.pos_pow_of_pos _ (by omega)
  have hQp : p1 / kr ^ (h - 1) ≤ p2 / kr ^ (h - 1) := Nat.div_le_div_right hp12
  have hQq : q1 / kc ^ (h - 1) ≤ q2 / kc ^ (h - 1) := Nat.div_le_div_right hq12
  have hQp2 : p2 / kr ^ (h - 1) < kr := by
    apply Nat.div_lt_of_lt_mul
    rw [← pow_succ, show h - 1 + 1 = h by omega]
    exact hp2
  have hQq2 : q2 / kc ^ (h - 1) < kc := by
    apply Nat.div_lt_of_lt_mul
    rw [← pow_succ, show h - 1 + 1 = h by omega]
    exact hq2
  have hn0 : (0 : Nat) < lvlCount f null kr kc h 0 := by
    rw [lvlCount_zero kr kc _ hocc0]
    omega
  have hnode : nodeAt f null kr kc h 0 0 = (0, 0) := by
    simp [nodeAt, rootLvl, lvl, hocc0]
  rw [elemInRangeInit, if_neg (by rw [hLne]; simp)]
  conv_lhs => rw [hA, hB, hkct, hht, hR, hC]
  by_cases hfull : p1 = 0 ∧ q1 = 0 ∧ p2 = kr ^ h - 1 ∧ q2 = kc ^ h - 1
  · rw [if_pos hfull]
    constructor
    · intro _
      obtain ⟨i, hi, j, hj, hne⟩ := occ_iff.mp hocc0
      simp only [Nat.zero_add] at hne
      exact ⟨i, by omega, by omega, j, by omega, by omega, hne⟩
    · intro _
      rfl
  · rw [if_neg hfull]
    constructor
    · intro hx
      rw [List.any_eq_true] at hx
      obtain ⟨i, hi_mem, hx⟩ := hx
      rw [List.any_eq_true] at hx
      obtain ⟨j, hj_mem, hx⟩ := hx
      rw [mem_rangeIncl hQp] at hi_mem
      rw [mem_rangeIncl hQq] at hj_mem
      have hikr : i < kr := by omega
      have hjkc : j < kc := by omega
      have hsij : kc * i + j < kr * kc := by
        rw [Nat.mul_comm kc i]
        exact group_slot_lt i j kr kc hikr hjkc
      rw [show (kc * i + j : Nat)
          = lvlOff f null kr kc h 0 + (0 * (kr * kc) + (kc * i + j)) by
        rw [show lvlOff f null kr kc h 0 = 0 from rfl]
        omega] at hx
      have hc1 := clip_le (kr ^ (h - 1)) p1 p2 i hApos hp12 hi_mem.1 hi_mem.2
      have hc2 := clip_le (kc ^ (h - 1)) q1 q2 j hBpos hq12 hj_mem.1 hj_mem.2
      have hlt1 := clip_lt (kr ^ (h - 1)) p2 i hApos
      have hlt2 := clip_lt (kc ^ (h - 1)) q2 j hBpos
      obtain ⟨p', hp1', hp2', q', hq1', hq2', hf'⟩ :=
        (elemInRange_iff (f := f) tr kr kc h (by omega) (by omega) hh
          hT hL hkrt hkct hnull hocc0 h hh 0 0 (kc * i + j)
          _ _ _ _ (by omega) hn0 hsij hc1 hlt1 hc2 hlt2).mp hx
      have hcr : childRegion f null kr kc h 0 0 (kc * i + j)
          = (i * kr ^ (h - 1), j * kc ^ (h - 1)) := by
        rw [childRegion, hnode, show h - 0 - 1 = h - 1 by omega]
        rw [childOrigins_getD (show 0 < kc by omega) hsij]
        rw [Nat.mul_add_div (by omega), Nat.div_eq_of_lt hjkc,
          Nat.mul_add_mod, Nat.mod_eq_of_lt hjkc]
        simp
      have hcr1 : (childRegion f null kr kc h 0 0 (kc * i + j)).1
          = i * kr ^ (h - 1) := by rw [hcr]
      have hcr2 : (childRegion f null kr kc h 0 0 (kc * i + j)).2
          = j * kc ^ (h - 1) := by rw [hcr]
      rw [hcr1, hcr2] at hf'
      refine ⟨kr ^ (h - 1) * i + p',
        (split_recompose (kr ^ (h - 1)) p1 p2 i p' hApos hi_mem.1 hi_mem.2
          hp1' hp2').1,
        (split_recompose (kr ^ (h - 1)) p1 p2 i p' hApos hi_mem.1 hi_mem.2
          hp1' hp2').2,
        kc ^ (h - 1) * j + q',
        (split_recompose (kc ^ (h - 1)) q1 q2 j q' hBpos hj_mem.1 hj_mem.2
          hq1' hq2').1,
        (split_recompose (kc ^ (h - 1)) q1 q2 j q' hBpos hj_mem.1 hj_mem.2
          hq1' hq2').2, ?_⟩
      rw [show (kr ^ (h - 1) * i + p' : Nat) = i * kr ^ (h - 1) + p' by
        rw [Nat.mul_comm]]
      rw [show (kc ^ (h - 1) * j + q' : Nat) = j * kc ^ (h - 1) + q' by
        rw [Nat.mul_comm]]
      exact hf'
    · rintro ⟨p, hpl, hpu, q, hql, hqu, hfneq⟩
      have hsp := split_le (kr ^ (h - 1)) p1 p2 p hApos hpl hpu
      have hsq := split_le (kc ^ (h - 1)) q1 q2 q hBpos hql hqu
      rw [List.any_eq_true]
      refine ⟨p / kr ^ (h - 1), (mem_rangeIncl hQp).mpr ⟨hsp.1, hsp.2.1⟩, ?_⟩
      rw [List.any_eq_true]
      refine ⟨q / kc ^ (h - 1), (mem_rangeIncl hQq).mpr ⟨hsq.1, hsq.2.1⟩, ?_⟩
      have hikr : p / kr ^ (h - 1) < kr := by omega
      have hjkc : q / kc ^ (h - 1) < kc := by omega
      have hsij : kc * (p / kr ^ (h - 1)) + q / kc ^ (h - 1) < kr * kc := by
        rw [Nat.mul_comm kc (p / kr ^ (h - 1))]
        exact group_slot_lt _ _ kr kc hikr hjkc
      rw [show (kc * (p / kr ^ (h - 1)) + q / kc ^ (h - 1) : Nat)
          = lvlOff f null kr kc h 0
            + (0 * (kr * kc) + (kc * (p / kr ^ (h - 1)) + q / kc ^ (h - 1))) by
        rw [show lvlOff f null kr kc h 0 = 0 from rfl]
        omega]
      have hc1 := clip_le (kr ^ (h - 1)) p1 p2 (p / kr ^ (h - 1)) hApos hp12
        hsp.1 hsp.2.1
      have hc2 := clip_le (kc ^ (h - 1)) q1 q2 (q / kc ^ (h - 1)) hBpos hq12
        hsq.1 hsq.2.1
      have hlt1 := clip_lt (kr ^ (h - 1)) p2 (p / kr ^ (h - 1)) hApos
      have hlt2 := clip_lt (kc ^ (h - 1)) q2 (q / kc ^ (h - 1)) hBpos
      apply (elemInRange_iff (f := f) tr kr kc h (by omega) (by omega)
        hh hT hL hkrt hkct hnull hocc0 h hh 0 0
        (kc * (p / kr ^ (h - 1)) + q / kc ^ (h - 1))
        _ _ _ _ (by omega) hn0 hsij hc1 hlt1 hc2 hlt2).mpr
      have hcr : childRegion f null kr kc h 0 0
            (kc * (p / kr ^ (h - 1)) + q / kc ^ (h - 1))
          = (p / kr ^ (h - 1) * kr ^ (h - 1), q / kc ^ (h - 1) * kc ^ (h - 1)) := by
        rw [childRegion, hnode, show h - 0 - 1 = h - 1 by omega]
        rw [childOrigins_getD (show 0 < kc by omega) hsij]
        rw [Nat.mul_add_div (by omega), Nat.div_eq_of_lt hjkc,
          Nat.mul_add_mod, Nat.mod_eq_of_lt hjkc]
        simp
      have hcr1 : (childRegion f null kr kc h 0 0
            (kc * (p / kr ^ (h - 1)) + q / kc ^ (h - 1))).1
          = p / kr ^ (h - 1) * kr ^ (h - 1) := by rw [hcr]
      have hcr2 : (childRegion f null kr kc h 0 0
            (kc * (p / kr ^ (h - 1)) + q / kc ^ (h - 1))).2
          = q / kc ^ (h - 1) * kc ^ (h - 1) := by rw [hcr]
      refine ⟨p % kr ^ (h - 1), hsp.2.2.1, hsp.2.2.2,
        q % kc ^ (h - 1), hsq.2.2.1, hsq.2.2.2, ?_⟩
      rw [hcr1, hcr2]
      have hpdm := Nat.div_add_mod' p (kr ^ (h - 1))
      have hqdm := Nat.div_add_mod' q (kc ^ (h - 1))
      rw [show (p / kr ^ (h - 1) * kr ^ (h - 1) + p % kr ^ (h - 1) : Nat) = p by omega]
      rw [show (q / kc ^ (h - 1) * kc ^ (h - 1) + q % kc ^ (h - 1) : Nat) = q by omega]
      exact hfneq

/-- Membership characterization of the fuelled column query: standing on slot
s of the n-th depth-t node with residual column q, the emitted rows are the
offset row coordinates of the non-null cells of the region's column q. -/
theorem predecessorsPos_mem (tr : KrKcTree E) (kr kc h : Nat) (hkr : 1 ≤ kr)
    (hkc : 1 ≤ kc) (hh : 1 ≤ h)
    (hT : tr.T = absT f null kr kc h) (hL : tr.L = absL f null kr kc h)
    (hkrt : tr.kr = kr) (hkct : tr.kc = kc) (hnull : tr.null = null)
    (hocc0 : occ f null kr kc 0 0 h h = true) :
    ∀ (m : Nat), 1 ≤ m → ∀ (t n s q p : Nat), t + m = h →
    n < lvlCount f null kr kc h t → s < kr * kc → q < kc ^ (m - 1) →
    ∀ x : Nat,
    (x ∈ predecessorsPos tr m (kr ^ (m - 1)) (kc ^ (m - 1)) q p
        (lvlOff f null kr kc h t + (n * (kr * kc) + s))
      ↔ ∃ r, r < kr ^ (m - 1) ∧
          f ((childRegion f null kr kc h t n s).1 + r)
            ((childRegion f null kr kc h t n s).2 + q) ≠ null ∧
          x = p + r) := by
  intro m
  induction m with
  | zero => intro h1; exact absurd h1 (by omega)
  | succ m ih =>
      intro _ t n s q p htm hn hs hq x
      by_cases hm : m = 0
      · subst hm
        have ht : t = h - 1 := by omega
        have hq0 : q = 0 := by simpa using hq
        subst hq0
        subst ht
        have hlen : tr.T.length = lvlOff f null kr kc h (h - 1) := by
          rw [hT, absT_length]
        simp only [predecessorsPos]
        rw [if_pos (by rw [hlen]; omega)]
        rw [hL, hnull, hlen, Nat.add_sub_cancel_left]
        rw [absL_getD kr kc h n s hh hn hs]
        by_cases hf : f (childRegion f null kr kc h (h - 1) n s).1
            (childRegion f null kr kc h (h - 1) n s).2 = null
        · rw [if_neg (not_not_intro hf)]
          simp only [List.not_mem_nil, false_iff]
          rintro ⟨r, hr, hfneq, hxeq⟩
          have hr0 : r = 0 := by simpa using hr
          subst hr0
          simp only [Nat.add_zero] at hfneq
          exact hfneq hf
        · rw [if_pos hf]
          constructor
          · intro hx
            rw [List.mem_singleton] at hx
            exact ⟨0, by simpa using Nat.zero_lt_one, by simpa using hf, by omega⟩
          · rintro ⟨r, hr, hfneq, hxeq⟩
            rw [List.mem_singleton]
            have hr0 : r = 0 := by simpa using hr
            subst hr0
            omega
      · have hm1 : 1 ≤ m := by omega
        have ht : t < h - 1 := by omega
        have hmht : h - t - 1 = m := by omega
        have hA : kr ^ m / kr = kr ^ (m - 1) := by
          conv_lhs => rw [show m = (m - 1) + 1 by omega, pow_succ]
          rw [Nat.mul_div_cancel _ (show 0 < kr by omega)]
        have hB : kc ^ m / kc = kc ^ (m - 1) := by
          conv_lhs => rw [show m = (m - 1) + 1 by omega, pow_succ]
          rw [Nat.mul_div_cancel _ (show 0 < kc by omega)]
        have hApos : 0 < kr ^ (m - 1) := Nat.pos_pow_of_pos _ (by omega)
        have hBpos : 0 < kc ^ (m - 1) := Nat.pos_pow_of_pos _ (by omega)
        have hqm : q < kc ^ m := hq
        have hzlt : lvlOff f null kr kc h t + (n * (kr * kc) + s) < tr.T.length := by
          rw [hT, absT_length]
          have h1 := group_slot_lt n s (lvlCount f null kr kc h t) (kr * kc) hn hs
          have h2 : lvlOff f null kr kc h (t + 1) ≤ lvlOff f null kr kc h (h - 1) :=
            lvlOff_mono kr kc h (t + 1) (h - 1) (by omega)
          rw [lvlOff_succ] at h2
          omega
        have hbit := bit_at (f := f) kr kc h t n s ht hn hs
        simp only [predecessorsPos]
        rw [if_neg (by omega)]
        conv_lhs => rw [hT, hkrt, hkct]
        rw [hbit, hmht]
        rw [show (m + 1 - 1 : Nat) = m from rfl, hA, hB]
        cases hocc : occ f null kr kc (childRegion f null kr kc h t n s).1
            (childRegion f null kr kc h t n s).2 m m with
        | false =>
            rw [if_neg (by simp)]
            simp only [List.not_mem_nil, false_iff]
            rintro ⟨r, hr, hfneq, hxeq⟩
            have hall := occ_false_all (f := f) hocc
            have hrm : r < kr ^ m := by
              have hpow : kr ^ m = kr ^ (m - 1) * kr := by
                conv_lhs => rw [show m = (m - 1) + 1 by omega, pow_succ]
              have : 1 * kr ^ (m - 1) ≤ kr * kr ^ (m - 1) :=
                Nat.mul_le_mul_right _ (by omega)
              have hcomm : kr ^ (m - 1) * kr = kr * kr ^ (m - 1) := Nat.mul_comm _ _
              omega
            exact hfneq (hall r hrm q (by omega))
        | true =>
            rw [if_pos rfl]
            have hdc : q / kc ^ (m - 1) < kc := by
              apply Nat.div_lt_of_lt_mul
              rw [← pow_succ, show m - 1 + 1 = m by omega]
              exact hqm
            have hoccm : occ f null kr kc (childRegion f null kr kc h t n s).1
                (childRegion f null kr kc h t n s).2 (h - t - 1) (h - t - 1) = true := by
              rw [hmht]; exact hocc
            have hrank := child_rank (f := f) kr kc h t n s hkr hkc hh
              hocc0 ht hn hs hoccm
            have hidx := child_index (f := f) kr kc h t n s hkr hkc
              ht hn hs hoccm
            have hpow : kr ^ m = kr ^ (m - 1) * kr := by
              conv_lhs => rw [show m = (m - 1) + 1 by omega, pow_succ]
            constructor
            · intro hx
              rw [List.mem_flatMap] at hx
              obtain ⟨i, hi_mem, hx⟩ := hx
              rw [List.mem_range] at hi_mem
              have hsij : i * kc + q / kc ^ (m - 1) < kr * kc :=
                group_slot_lt i _ kr kc hi_mem hdc
              have hz' : rank1 (absT f null kr kc h)
                    (lvlOff f null kr kc h t + (n * (kr * kc) + s) + 1) * kr * kc
                    + q / kc ^ (m - 1) + i * kc
                  = lvlOff f null kr kc h (t + 1)
                    + (mIdx f null kr kc h t n s * (kr * kc)
                      + (i * kc + q / kc ^ (m - 1))) := by
                rw [Nat.mul_assoc, hrank]
                omega
              rw [hz'] at hx
              obtain ⟨r', hr', hf', hx'⟩ :=
                (ih hm1 (t + 1) (mIdx f null kr kc h t n s) (i * kc + q / kc ^ (m - 1))
                  (q % kc ^ (m - 1)) (p + kr ^ (m - 1) * i)
                  (by omega) hidx.2 hsij (Nat.mod_lt _ hBpos) x).mp hx
              have hcr : childRegion f null kr kc h (t + 1) (mIdx f null kr kc h t n s)
                    (i * kc + q / kc ^ (m - 1))
                  = ((childRegion f null kr kc h t n s).1 + i * kr ^ (m - 1),
                      (childRegion f null kr kc h t n s).2
                        + q / kc ^ (m - 1) * kc ^ (m - 1)) := by
                rw [childRegion, nodeAt, hidx.1, show h - (t + 1) - 1 = m - 1 by omega]
                rw [childOrigins_getD (show 0 < kc by omega) hsij]
                rw [Nat.mul_comm i kc]
                rw [Nat.mul_add_div (show 0 < kc by omega), Nat.div_eq_of_lt hdc,
                  Nat.mul_add_mod, Nat.mod_eq_of_lt hdc]
                simp
              have hcr1 : (childRegion f null kr kc h (t + 1)
                    (mIdx f null kr kc h t n s) (i * kc + q / kc ^ (m - 1))).1
                  = (childRegion f null kr kc h t n s).1 + i * kr ^ (m - 1) := by
                rw [hcr]
              have hcr2 : (childRegion f null kr kc h (t + 1)
                    (mIdx f null kr kc h t n s) (i * kc + q / kc ^ (m - 1))).2
                  = (childRegion f null kr kc h t n s).2
                      + q / kc ^ (m - 1) * kc ^ (m - 1) := by
                rw [hcr]
              rw [hcr1, hcr2] at hf'
              refine ⟨kr ^ (m - 1) * i + r', ?_, ?_, by omega⟩
              · have hbound := group_slot_lt i r' kr (kr ^ (m - 1)) hi_mem hr'
                have hcomm1 : kr ^ (m - 1) * i = i * kr ^ (m - 1) := Nat.mul_comm _ _
                have hcomm2 : kr ^ (m - 1) * kr = kr * kr ^ (m - 1) := Nat.mul_comm _ _
                omega
              · rw [show (childRegion f null kr kc h t n s).1
                      + (kr ^ (m - 1) * i + r')
                    = (childRegion f null kr kc h t n s).1 + i * kr ^ (m - 1) + r' by
                  rw [Nat.mul_comm (kr ^ (m - 1)) i]; omega]
                have hqdm := Nat.div_add_mod' q (kc ^ (m - 1))
                rw [show (childRegion f null kr kc h t n s).2 + q
                    = (childRegion f null kr kc h t n s).2
                        + q / kc ^ (m - 1) * kc ^ (m - 1) + q % kc ^ (m - 1) by omega]
                exact hf'
            · rintro ⟨r, hr, hfneq, hxeq⟩
              rw [List.mem_flatMap]
              have hikr : r / kr ^ (m - 1) < kr := by
                apply Nat.div_lt_of_lt_mul
                rw [← pow_succ, show m - 1 + 1 = m by omega]
                exact hr
              refine ⟨r / kr ^ (m - 1), List.mem_range.mpr hikr, ?_⟩
              have hsij : r / kr ^ (m - 1) * kc + q / kc ^ (m - 1) < kr * kc :=
                group_slot_lt _ _ kr kc hikr hdc
              have hz' : rank1 (absT f null kr kc h)
                    (lvlOff f null kr kc h t + (n * (kr * kc) + s) + 1) * kr * kc
                    + q / kc ^ (m - 1) + r / kr ^ (m - 1) * kc
                  = lvlOff f null kr kc h (t + 1)
                    + (mIdx f null kr kc h t n s * (kr * kc)
                      + (r / kr ^ (m - 1) * kc + q / kc ^ (m - 1))) := by
                rw [Nat.mul_assoc, hrank]
                omega
              rw [hz']
              apply (ih hm1 (t + 1) (mIdx f null kr kc h t n s)
                (r / kr ^ (m - 1) * kc + q / kc ^ (m - 1))
                (q % kc ^ (m - 1)) (p + kr ^ (m - 1) * (r / kr ^ (m - 1)))
                (by omega) hidx.2 hsij (Nat.mod_lt _ hBpos) x).mpr
              have hcr : childRegion f null kr kc h (t + 1) (mIdx f null kr kc h t n s)
                    (r / kr ^ (m - 1) * kc + q / kc ^ (m - 1))
                  = ((childRegion f null kr kc h t n s).1
                        + r / kr ^ (m - 1) * kr ^ (m - 1),
                      (childRegion f null kr kc h t n s).2
                        + q / kc ^ (m - 1) * kc ^ (m - 1)) := by
                rw [childRegion, nodeAt, hidx.1, show h - (t + 1) - 1 = m - 1 by omega]
                rw [childOrigins_getD (show 0 < kc by omega) hsij]
                rw [Nat.mul_comm (r / kr ^ (m - 1)) kc]
                rw [Nat.mul_add_div (show 0 < kc by omega), Nat.div_eq_of_lt hdc,
                  Nat.mul_add_mod, Nat.mod_eq_of_lt hdc]
                simp
              have hcr1 : (childRegion f null kr kc h (t + 1)
                    (mIdx f null kr kc h t n s)
                    (r / kr ^ (m - 1) * kc + q / kc ^ (m - 1))).1
                  = (childRegion f null kr kc h t n s).1
                      + r / kr ^ (m - 1) * kr ^ (m - 1) := by rw [hcr]
              have hcr2 : (childRegion f null kr kc h (t + 1)
                    (mIdx f null kr kc h t n s)
                    (r / kr ^ (m - 1) * kc + q / kc ^ (m - 1))).2
                  = (childRegion f null kr kc h t n s).2
                      + q / kc ^ (m - 1) * kc ^ (m - 1) := by rw [hcr]
              have hrdm := Nat.div_add_mod' r (kr ^ (m - 1))
              have hqdm := Nat.div_add_mod' q (kc ^ (m - 1))
              refine ⟨r % kr ^ (m - 1), Nat.mod_lt _ hApos, ?_, by
                have hcomm : kr ^ (m - 1) * (r / kr ^ (m - 1))
                    = r / kr ^ (m - 1) * kr ^ (m - 1) := Nat.mul_comm _ _
                omega⟩
              rw [hcr1, hcr2]
              rw [show (childRegion f null kr kc h t n s).1
                    + r / kr ^ (m - 1) * kr ^ (m - 1) + r % kr ^ (m - 1)
                  = (childRegion f null kr kc h t n s).1 + r by omega]
              rw [show (childRegion f null kr kc h t n s).2
                    + q / kc ^ (m - 1) * kc ^ (m - 1) + q % kc ^ (m - 1)
                  = (childRegion f null kr kc h t n s).2 + q by omega]
              exact hfneq

/-- Entry-point form of predecessorsPos_mem: membership in the predecessor
query for column q is exactly non-nullness of the cell (r, q). -/
theorem predecessorsPosInit_mem (tr : KrKcTree E) (kr kc h : Nat)
    (hkr : 2 ≤ kr) (hkc : 2 ≤ kc) (hh : 1 ≤ h)
    (hT : tr.T = absT f null kr kc h) (hL : tr.L = absL f null kr kc h)
    (hkrt : tr.kr = kr) (hkct : tr.kc = kc) (hnull : tr.null = null)
    (hht : tr.h = h) (hR : tr.numRows = kr ^ h) (hC : tr.numCols = kc ^ h)
    (hocc0 : occ f null kr kc 0 0 h h = true) (hLne : tr.L.isEmpty = false)
    (q : Nat) (hq : q < kc ^ h) (x : Nat) :
    x ∈ predecessorsPosInit tr q
      ↔ ∃ r, r < kr ^ h ∧ f r q ≠ null ∧ x = r := by
  have hA : tr.numRows / tr.kr = kr ^ (h - 1) := by
    rw [hR, hkrt]
    conv_lhs => rw [show h = (h - 1) + 1 by omega, pow_succ]
    rw [Nat.mul_div_cancel _ (show 0 < kr by omega)]
  have hB : tr.numCols / tr.kc = kc ^ (h - 1) := by
    rw [hC, hkct]
    conv_lhs => rw [show h = (h - 1) + 1 by omega, pow_succ]
    rw [Nat.mul_div_cancel _ (show 0 < kc by omega)]
  have hApos : 0 < kr ^ (h - 1) := Nat.pos_pow_of_pos _ (by omega)
  have hBpos : 0 < kc ^ (h - 1) := Nat.pos_pow_of_pos _ (by omega)
  have hdc : q / kc ^ (h - 1) < kc := by
    apply Nat.div_lt_of_lt_mul
    rw [← pow_succ, show h - 1 + 1 = h by omega]
    exact hq
  have hn0 : (0 : Nat) < lvlCount f null kr kc h 0 := by
    rw [lvlCount_zero kr kc _ hocc0]
    omega
  have hnode : nodeAt f null kr kc h 0 0 = (0, 0) := by
    simp [nodeAt, rootLvl, lvl, hocc0]
  have hpow : kr ^ h = kr ^ (h - 1) * kr := by
    conv_lhs => rw [show h = (h - 1) + 1 by omega, pow_succ]
  rw [predecessorsPosInit, if_neg (by rw [hLne]; simp)]
  conv_lhs => rw [hA, hB, hkrt, hkct, hht]
  constructor
  · intro hx
    rw [List.mem_flatMap] at hx
    obtain ⟨i, hi_mem, hx⟩ := hx
    rw [List.mem_range] at hi_mem
    have hsij : i * kc + q / kc ^ (h - 1) < kr * kc :=
      group_slot_lt i _ kr kc hi_mem hdc
    rw [show (q / kc ^ (h - 1) + i * kc : Nat)
        = lvlOff f null kr kc h 0 + (0 * (kr * kc) + (i * kc + q / kc ^ (h - 1))) by
      rw [show lvlOff f null kr kc h 0 = 0 from rfl]
      omega] at hx
    obtain ⟨r', hr', hf', hx'⟩ :=
      (predecessorsPos_mem (f := f) tr kr kc h (by omega) (by omega)
        hh hT hL hkrt hkct hnull hocc0 h hh 0 0 (i * kc + q / kc ^ (h - 1))
        (q % kc ^ (h - 1)) (kr ^ (h - 1) * i)
        (by omega) hn0 hsij (Nat.mod_lt _ hBpos) x).mp hx
    have hcr : childRegion f null kr kc h 0 0 (i * kc + q / kc ^ (h - 1))
        = (i * kr ^ (h - 1), q / kc ^ (h - 1) * kc ^ (h - 1)) := by
      rw [childRegion, hnode, show h - 0 - 1 = h - 1 by omega]
      rw [childOrigins_getD (show 0 < kc by omega) hsij]
      rw [Nat.mul_comm i kc]
      rw [Nat.mul_add_div (show 0 < kc by omega), Nat.div_eq_of_lt hdc,
        Nat.mul_add_mod, Nat.mod_eq_of_lt hdc]
      simp
    have hcr1 : (childRegion f null kr kc h 0 0 (i * kc + q / kc ^ (h - 1))).1
        = i * kr ^ (h - 1) := by rw [hcr]
    have hcr2 : (childRegion f null kr kc h 0 0 (i * kc + q / kc ^ (h - 1))).2
        = q / kc ^ (h - 1) * kc ^ (h - 1) := by rw [hcr]
    rw [hcr1, hcr2] at hf'
    refine ⟨kr ^ (h - 1) * i + r', ?_, ?_, by omega⟩
    · have hbound := group_slot_lt i r' kr (kr ^ (h - 1)) hi_mem hr'
      have hcomm1 : kr ^ (h - 1) * i = i * kr ^ (h - 1) := Nat.mul_comm _ _
      have hcomm2 : kr ^ (h - 1) * kr = kr * kr ^ (h - 1) := Nat.mul_comm _ _
      omega
    · rw [show (kr ^ (h - 1) * i + r' : Nat) = i * kr ^ (h - 1) + r' by
        rw [Nat.mul_comm (kr ^ (h - 1)) i]]
      have hqdm := Nat.div_add_mod' q (kc ^ (h - 1))
      rw [show (q : Nat) = q / kc ^ (h - 1) * kc ^ (h - 1) + q % kc ^ (h - 1) by omega]
      exact hf'
  · rintro ⟨r, hr, hfneq, hxeq⟩
    rw [List.mem_flatMap]
    have hikr : r / kr ^ (h - 1) < kr := by
      apply Nat.div_lt_of_lt_mul
      rw [← pow_succ, show h - 1 + 1 = h by omega]
      exact hr
    refine ⟨r / kr ^ (h - 1), List.mem_range.mpr hikr, ?_⟩
    have hsij : r / kr ^ (h - 1) * kc + q / kc ^ (h - 1) < kr * kc :=
      group_slot_lt _ _ kr kc hikr hdc
    rw [show (q / kc ^ (h - 1) + r / kr ^ (h - 1) * kc : Nat)
        = lvlOff f null kr kc h 0
          + (0 * (kr * kc) + (r / kr ^ (h - 1) * kc + q / kc ^ (h - 1))) by
      rw [show lvlOff f null kr kc h 0 = 0 from rfl]
      omega]
    apply (predecessorsPos_mem (f := f) tr kr kc h (by omega) (by omega)
      hh hT hL hkrt hkct hnull hocc0 h hh 0 0
      (r / kr ^ (h - 1) * kc + q / kc ^ (h - 1))
      (q % kc ^ (h - 1)) (kr ^ (h - 1) * (r / kr ^ (h - 1)))
      (by omega) hn0 hsij (Nat.mod_lt _ hBpos) x).mpr
    have hcr : childRegion f null kr kc h 0 0
          (r / kr ^ (h - 1) * kc + q / kc ^ (h - 1))
        = (r / kr ^ (h - 1) * kr ^ (h - 1), q / kc ^ (h - 1) * kc ^ (h - 1)) := by
      rw [childRegion, hnode, show h - 0 - 1 = h - 1 by omega]
      rw [childOrigins_getD (show 0 < kc by omega) hsij]
      rw [Nat.mul_comm (r / kr ^ (h - 1)) kc]
      rw [Nat.mul_add_div (show 0 < kc by omega), Nat.div_eq_of_lt hdc,
        Nat.mul_add_mod, Nat.mod_eq_of_lt hdc]
      simp
    have hcr1 : (childRegion f null kr kc h 0 0
          (r / kr ^ (h - 1) * kc + q / kc ^ (h - 1))).1
        = r / kr ^ (h - 1) * kr ^ (h - 1) := by rw [hcr]
    have hcr2 : (childRegion f null kr kc h 0 0
          (r / kr ^ (h - 1) * kc + q / kc ^ (h - 1))).2
        = q / kc ^ (h - 1) * kc ^ (h - 1) := by rw [hcr]
    have hrdm := Nat.div_add_mod' r (kr ^ (h - 1))
    have hqdm := Nat.div_add_mod' q (kc ^ (h - 1))
    refine ⟨r % kr ^ (h - 1), Nat.mod_lt _ hApos, ?_, by
      have hcomm : kr ^ (h - 1) * (r / kr ^ (h - 1))
          = r / kr ^ (h - 1) * kr ^ (h - 1) := Nat.mul_comm _ _
      omega⟩
    rw [hcr1, hcr2]
    rw [show (r / kr ^ (h - 1) * kr ^ (h - 1) + r % kr ^ (h - 1) : Nat) = r by omega]
    rw [show (q / kc ^ (h - 1) * kc ^ (h - 1) + q % kc ^ (h - 1) : Nat) = q by omega]
    exact hfneq

theorem flatMap_one {α β : Type} (l : List α) (g : α → β) :
    l.flatMap (fun x => [g x]) = l.map g := by
  induction l with
  | nil => rfl
  | cons x xs ih => simp only [List.flatMap_cons, List.map_cons, ih, List.singleton_append]

theorem filterMap_if {α β : Type} (l : List α) (p : α → Prop) [DecidablePred p]
    (g : α → β) :
    l.filterMap (fun a => if p a then some (g a) else none)
      = (l.filter (fun a => decide (p a))).map g := by
  induction l with
  | nil => rfl
  | cons x xs ih =>
      by_cases hx : p x
      · rw [List.filterMap_cons, List.filter_cons]
        simp [hx, ih]
      · rw [List.filterMap_cons, List.filter_cons]
        simp [hx, ih]

/-- Splitting an initial segment of length K * w into its K stripes of width
w: filtering the segment is the stripe-wise concatenation of the filtered
stripes, each shifted back to absolute positions. -/
theorem filter_range_mul (K w : Nat) (P : Nat → Bool) :
    (List.range (K * w)).filter P
      = (List.range K).flatMap (fun j =>
          ((List.range w).filter (fun c => P (j * w + c))).map (fun c => j * w + c)) := by
  induction K with
  | zero => simp
  | succ K ih =>
      rw [show (K + 1) * w = K * w + w from Nat.succ_mul K w, List.range_add,
        List.filter_append, List.range_succ, List.flatMap_append, ih]
      congr 1
      rw [List.filter_map]
      simp only [List.flatMap_cons, List.flatMap_nil, List.append_nil]
      exact congrArg _ (List.filter_congr (fun a _ => rfl))

/-- One queue pass distributes over queue concatenation. -/
theorem succStep_append (tr : KrKcTree E) (nr nc relP : Nat)
    (q1 q2 : List SubrowInfo) :
    succStep tr nr nc relP (q1 ++ q2)
      = succStep tr nr nc relP q1 ++ succStep tr nr nc relP q2 := by
  simp only [succStep, List.flatMap_append]

/-- The level loop started on an empty queue keeps it empty. -/
theorem succLoop_nil (tr : KrKcTree E) : ∀ (fuel nr nc relP : Nat),
    (succLoop tr fuel nr nc relP []).queue = [] := by
  intro fuel
  induction fuel with
  | zero => intro nr nc relP; rfl
  | succ fuel ih =>
      intro nr nc relP
      simp only [succLoop]
      by_cases h1 : 1 < nr
      · rw [if_pos h1]
        exact ih _ _ _
      · rw [if_neg h1]

/-- The final queue of the level loop distributes over queue concatenation. -/
theorem succLoop_append (tr : KrKcTree E) : ∀ (fuel nr nc relP : Nat)
    (q1 q2 : List SubrowInfo),
    (succLoop tr fuel nr nc relP (q1 ++ q2)).queue
      = (succLoop tr fuel nr nc relP q1).queue
        ++ (succLoop tr fuel nr nc relP q2).queue := by
  intro fuel
  induction fuel with
  | zero => intro nr nc relP q1 q2; rfl
  | succ fuel ih =>
      intro nr nc relP q1 q2
      simp only [succLoop]
      by_cases h1 : 1 < nr
      · rw [if_pos h1, if_pos h1, if_pos h1, succStep_append]
        exact ih _ _ _ _ _
      · rw [if_neg h1, if_neg h1, if_neg h1]

theorem succLoop_queue_flatMap {α : Type} (tr : KrKcTree E) (fuel nr nc relP : Nat)
    (l : List α) (g : α → List SubrowInfo) :
    (succLoop tr fuel nr nc relP (l.flatMap g)).queue
      = l.flatMap (fun a => (succLoop tr fuel nr nc relP (g a)).queue) := by
  induction l with
  | nil => exact succLoop_nil tr fuel nr nc relP
  | cons x xs ih =>
      rw [List.flatMap_cons, succLoop_append, ih, List.flatMap_cons]

/-- The scalar components of the level loop do not depend on the queue. -/
theorem succLoop_scalars (tr : KrKcTree E) : ∀ (fuel nr nc relP : Nat)
    (q : List SubrowInfo),
    (succLoop tr fuel nr nc relP q).nr = (succLoop tr fuel nr nc relP []).nr
      ∧ (succLoop tr fuel nr nc relP q).nc = (succLoop tr fuel nr nc relP []).nc
      ∧ (succLoop tr fuel nr nc relP q).relP = (succLoop tr fuel nr nc relP []).relP := by
  intro fuel
  induction fuel with
  | zero => intro nr nc relP q; exact ⟨rfl, rfl, rfl⟩
  | succ fuel ih =>
      intro nr nc relP q
      simp only [succLoop]
      by_cases h1 : 1 < nr
      · rw [if_pos h1, if_pos h1]
        refine ⟨?_, ?_, ?_⟩
        · rw [(ih _ _ _ (succStep tr nr nc relP q)).1, (ih _ _ _ (succStep tr nr nc relP [])).1]
        · rw [(ih _ _ _ (succStep tr nr nc relP q)).2.1,
            (ih _ _ _ (succStep tr nr nc relP [])).2.1]
        · rw [(ih _ _ _ (succStep tr nr nc relP q)).2.2,
            (ih _ _ _ (succStep tr nr nc relP [])).2.2]
      · rw [if_neg h1, if_neg h1]
        exact ⟨rfl, rfl, rfl⟩

theorem succLoop_one (tr : KrKcTree E) : ∀ (fuel nc relP : Nat) (q : List SubrowInfo),
    succLoop tr fuel 1 nc relP q = ⟨1, nc, relP, q⟩ := by
  intro fuel nc relP q
  cases fuel with
  | zero => rfl
  | succ fuel =>
      simp only [succLoop]
      rw [if_neg (by omega)]

/-- Closed form of the level loop on the power-of-arity extents: it runs its
passes down to stripe height 1, leaving the final row residual. -/
theorem succLoop_pow (tr : KrKcTree E) (kr kc : Nat) (hkrt : tr.kr = kr)
    (hkct : tr.kc = kc) (hkr : 2 ≤ kr) (hkc : 2 ≤ kc) :
    ∀ (k : Nat), ∀ (fuel rowRes : Nat), k ≤ fuel → rowRes < kr ^ (k + 1) →
    succLoop tr fuel (kr ^ k) (kc ^ k) rowRes [] = ⟨1, 1, rowRes % kr, []⟩ := by
  intro k
  induction k with
  | zero =>
      intro fuel rowRes _ hlt
      rw [pow_zero, pow_zero, succLoop_one]
      rw [Nat.mod_eq_of_lt (by simpa using hlt)]
  | succ k ih =>
      intro fuel rowRes hfuel hlt
      cases fuel with
      | zero => omega
      | succ fuel =>
          simp only [succLoop]
          rw [if_pos (Nat.one_lt_pow (Nat.succ_ne_zero k) (by omega))]
          rw [show succStep tr (kr ^ (k + 1)) (kc ^ (k + 1)) rowRes [] = [] from rfl]
          rw [hkrt, hkct]
          rw [show kr ^ (k + 1) / kr = kr ^ k by
            conv_lhs => rw [pow_succ]
            rw [Nat.mul_div_cancel _ (show 0 < kr by omega)]]
          rw [show kc ^ (k + 1) / kc = kc ^ k by
            conv_lhs => rw [pow_succ]
            rw [Nat.mul_div_cancel _ (show 0 < kc by omega)]]
          rw [ih fuel (rowRes % kr ^ (k + 1)) (by omega)
            (Nat.mod_lt _ (Nat.pos_pow_of_pos _ (by omega)))]
          rw [Nat.mod_mod_of_dvd rowRes (dvd_pow_self kr (Nat.succ_ne_zero k))]

/-- Core invariant of the iterative successor enumeration: running the level
loop on the single queue entry for slot s of the n-th depth-t node (with k
more internal levels below, and residual row rowRes) and then the final
leaf-reading pass emits exactly the non-null columns of the subrow, in
ascending relative order, shifted by the entry's column offset dq. -/
theorem succ_entry (tr : KrKcTree E) (kr kc h : Nat) (hkr : 2 ≤ kr) (hkc : 2 ≤ kc)
    (hT : tr.T = absT f null kr kc h) (hL : tr.L = absL f null kr kc h)
    (hkrt : tr.kr = kr) (hkct : tr.kc = kc) (hnull : tr.null = null)
    (hocc0 : occ f null kr kc 0 0 h h = true) :
    ∀ (k : Nat), ∀ (fuel t n s dq rowRes : Nat), t + (k + 2) = h → k ≤ fuel →
    n < lvlCount f null kr kc h t → s < kr * kc → rowRes < kr ^ (k + 1) →
    ((succLoop tr fuel (kr ^ k) (kc ^ k) rowRes
        [⟨dq, lvlOff f null kr kc h t + (n * (kr * kc) + s)⟩]).queue).flatMap
      (fun cur =>
        if tr.T.getD cur.z false then
          (List.range tr.kc).filterMap (fun j =>
            if tr.L.getD (rank1 tr.T (cur.z + 1) * tr.kr * tr.kc
                + tr.kc * (rowRes % kr) - tr.T.length + j) tr.null ≠ tr.null
            then some (cur.dq + j * 1) else none)
        else [])
      = ((List.range (kc ^ (k + 1))).filter (fun c =>
          decide (f ((childRegion f null kr kc h t n s).1 + rowRes)
            ((childRegion f null kr kc h t n s).2 + c) ≠ null))).map
          (fun c => dq + c) := by
  intro k
  induction k with
  | zero =>
      intro fuel t n s dq rowRes htm _ hn hs hrow
      have htlt : t < h - 1 := by omega
      have hh : 1 ≤ h := by omega
      have hrowkr : rowRes < kr := by simpa using hrow
      rw [pow_zero, pow_zero, succLoop_one]
      rw [show ((⟨1, 1, rowRes,
          [⟨dq, lvlOff f null kr kc h t + (n * (kr * kc) + s)⟩]⟩ : SuccState)).queue
        = [⟨dq, lvlOff f null kr kc h t + (n * (kr * kc) + s)⟩] from rfl]
      simp only [List.flatMap_cons, List.flatMap_nil, List.append_nil]
      have hbitT : tr.T.getD (lvlOff f null kr kc h t + (n * (kr * kc) + s)) false
          = occ f null kr kc (childRegion f null kr kc h t n s).1
              (childRegion f null kr kc h t n s).2 1 1 := by
        rw [hT, bit_at (f := f) kr kc h t n s htlt hn hs,
          show h - t - 1 = 1 by omega]
      rw [hbitT]
      rw [Nat.mod_eq_of_lt hrowkr]
      cases hocc : occ f null kr kc (childRegion f null kr kc h t n s).1
          (childRegion f null kr kc h t n s).2 1 1 with
      | false =>
          rw [if_neg (by simp)]
          rw [show (List.range (kc ^ (0 + 1))).filter (fun c =>
              decide (f ((childRegion f null kr kc h t n s).1 + rowRes)
                ((childRegion f null kr kc h t n s).2 + c) ≠ null)) = [] from
            List.filter_eq_nil_iff.mpr (by
              intro c hc
              simp only [decide_eq_true_eq, Decidable.not_not]
              exact occ_false_all (f := f) hocc rowRes
                (by simpa using hrowkr) c
                (by simpa using List.mem_range.mp hc))]
          rfl
      | true =>
          rw [if_pos rfl]
          have hoccm : occ f null kr kc (childRegion f null kr kc h t n s).1
              (childRegion f null kr kc h t n s).2 (h - t - 1) (h - t - 1) = true := by
            rw [show h - t - 1 = 1 by omega]; exact hocc
          have hrank := child_rank (f := f) kr kc h t n s (by omega)
            (by omega) hh hocc0 htlt hn hs hoccm
          have hidx := child_index (f := f) kr kc h t n s (by omega)
            (by omega) htlt hn hs hoccm
          rw [show t + 1 = h - 1 by omega] at hrank hidx
          have hcongr : ∀ j ∈ List.range tr.kc,
              (if tr.L.getD (rank1 tr.T
                  ((lvlOff f null kr kc h t + (n * (kr * kc) + s)) + 1) * tr.kr * tr.kc
                  + tr.kc * rowRes - tr.T.length + j) tr.null ≠ tr.null
                then some (dq + j * 1) else none)
              = (if f ((childRegion f null kr kc h t n s).1 + rowRes)
                    ((childRegion f null kr kc h t n s).2 + j) ≠ null
                then some (dq + j * 1) else none) := by
            intro j hj
            rw [hkct] at hj
            have hjkc : j < kc := List.mem_range.mp hj
            have hsij : kc * rowRes + j < kr * kc := by
              rw [Nat.mul_comm kc rowRes]
              exact group_slot_lt rowRes j kr kc hrowkr hjkc
            have hidxeq : rank1 tr.T
                  ((lvlOff f null kr kc h t + (n * (kr * kc) + s)) + 1) * tr.kr * tr.kc
                  + tr.kc * rowRes - tr.T.length + j
                = mIdx f null kr kc h t n s * (kr * kc) + (kc * rowRes + j) := by
              rw [hT, hkrt, hkct, Nat.mul_assoc, hrank, absT_length]
              omega
            rw [hidxeq, hL, hnull]
            rw [absL_getD kr kc h (mIdx f null kr kc h t n s) (kc * rowRes + j) hh
              hidx.2 hsij]
            have hcr : childRegion f null kr kc h (h - 1) (mIdx f null kr kc h t n s)
                  (kc * rowRes + j)
                = ((childRegion f null kr kc h t n s).1 + rowRes,
                    (childRegion f null kr kc h t n s).2 + j) := by
              rw [childRegion, nodeAt, hidx.1, show h - (h - 1) - 1 = 0 by omega]
              rw [childOrigins_getD (show 0 < kc by omega) hsij]
              rw [Nat.mul_add_div (show 0 < kc by omega), Nat.div_eq_of_lt hjkc,
                Nat.mul_add_mod, Nat.mod_eq_of_lt hjkc]
              simp
            have hcr1 : (childRegion f null kr kc h (h - 1)
                  (mIdx f null kr kc h t n s) (kc * rowRes + j)).1
                = (childRegion f null kr kc h t n s).1 + rowRes := by rw [hcr]
            have hcr2 : (childRegion f null kr kc h (h - 1)
                  (mIdx f null kr kc h t n s) (kc * rowRes + j)).2
                = (childRegion f null kr kc h t n s).2 + j := by rw [hcr]
            rw [hcr1, hcr2]
          rw [List.filterMap_congr hcongr]
          rw [hkct]
          rw [filterMap_if (List.range kc)
            (fun j => f ((childRegion f null kr kc h t n s).1 + rowRes)
              ((childRegion f null kr kc h t n s).2 + j) ≠ null)
            (fun j => dq + j * 1)]
          rw [show (kc ^ (0 + 1) : Nat) = kc by rw [pow_one]]
          exact List.map_congr_left (fun a _ => by omega)
  | succ k ih =>
      intro fuel t n s dq rowRes htm hfuel hn hs hrow
      cases fuel with
      | zero => omega
      | succ fuel =>
          have htlt : t < h - 1 := by omega
          have hh : 1 ≤ h := by omega
          simp only [succLoop]
          rw [if_pos (Nat.one_lt_pow (Nat.succ_ne_zero k) (by omega))]
          have hstep : succStep tr (kr ^ (k + 1)) (kc ^ (k + 1)) rowRes
              [(⟨dq, lvlOff f null kr kc h t + (n * (kr * kc) + s)⟩ : SubrowInfo)]
              = if tr.T.getD (lvlOff f null kr kc h t + (n * (kr * kc) + s)) false then
                  (List.range tr.kc).map (fun j =>
                    ⟨dq + j * kc ^ (k + 1),
                      rank1 tr.T
                          ((lvlOff f null kr kc h t + (n * (kr * kc) + s)) + 1)
                          * tr.kr * tr.kc
                        + tr.kc * (rowRes / kr ^ (k + 1)) + j⟩)
                else [] := by
            simp only [succStep, List.flatMap_cons, List.flatMap_nil, List.append_nil]
          rw [hstep]
          have hbitT : tr.T.getD (lvlOff f null kr kc h t + (n * (kr * kc) + s)) false
              = occ f null kr kc (childRegion f null kr kc h t n s).1
                  (childRegion f null kr kc h t n s).2 (k + 2) (k + 2) := by
            rw [hT, bit_at (f := f) kr kc h t n s htlt hn hs,
              show h - t - 1 = k + 2 by omega]
          rw [hbitT]
          have hdivr : kr ^ (k + 1) / tr.kr = kr ^ k := by
            rw [hkrt]
            conv_lhs => rw [pow_succ]
            rw [Nat.mul_div_cancel _ (show 0 < kr by omega)]
          have hdivc : kc ^ (k + 1) / tr.kc = kc ^ k := by
            rw [hkct]
            conv_lhs => rw [pow_succ]
            rw [Nat.mul_div_cancel _ (show 0 < kc by omega)]
          rw [hdivr, hdivc]
          cases hocc : occ f null kr kc (childRegion f null kr kc h t n s).1
              (childRegion f null kr kc h t n s).2 (k + 2) (k + 2) with
          | false =>
              rw [if_neg (by simp)]
              rw [succLoop_nil]
              rw [List.flatMap_nil]
              rw [show (List.range (kc ^ (k + 1 + 1))).filter (fun c =>
                  decide (f ((childRegion f null kr kc h t n s).1 + rowRes)
                    ((childRegion f null kr kc h t n s).2 + c) ≠ null)) = [] from
                List.filter_eq_nil_iff.mpr (by
                  intro c hc
                  simp only [decide_eq_true_eq, Decidable.not_not]
                  exact occ_false_all (f := f) hocc rowRes
                    (by simpa using hrow) c (by simpa using List.mem_range.mp hc))]
              rfl
          | true =>
              rw [if_pos rfl]
              have hoccm : occ f null kr kc (childRegion f null kr kc h t n s).1
                  (childRegion f null kr kc h t n s).2 (h - t - 1) (h - t - 1)
                  = true := by
                rw [show h - t - 1 = k + 2 by omega]; exact hocc
              have hrank := child_rank (f := f) kr kc h t n s (by omega)
                (by omega) hh hocc0 htlt hn hs hoccm
              have hidx := child_index (f := f) kr kc h t n s (by omega)
                (by omega) htlt hn hs hoccm
              have hdigit : rowRes / kr ^ (k + 1) < kr := by
                apply Nat.div_lt_of_lt_mul
                rw [← pow_succ]
                exact hrow
              rw [← flatMap_one (List.range tr.kc)]
              rw [succLoop_queue_flatMap]
              rw [List.flatMap_assoc]
              have hblock : ∀ j ∈ List.range tr.kc,
                  ((succLoop tr fuel (kr ^ k) (kc ^ k) (rowRes % kr ^ (k + 1))
                      [(⟨dq + j * kc ^ (k + 1),
                        rank1 tr.T
                            ((lvlOff f null kr kc h t + (n * (kr * kc) + s)) + 1)
                            * tr.kr * tr.kc
                          + tr.kc * (rowRes / kr ^ (k + 1)) + j⟩ : SubrowInfo)]).queue).flatMap
                    (fun cur =>
                      if tr.T.getD cur.z false then
                        (List.range tr.kc).filterMap (fun j' =>
                          if tr.L.getD (rank1 tr.T (cur.z + 1) * tr.kr * tr.kc
                              + tr.kc * (rowRes % kr) - tr.T.length + j') tr.null
                              ≠ tr.null
                          then some (cur.dq + j' * 1) else none)
                      else [])
                  = ((List.range (kc ^ (k + 1))).filter (fun c =>
                      decide (f ((childRegion f null kr kc h t n s).1 + rowRes)
                        (((childRegion f null kr kc h t n s).2 + j * kc ^ (k + 1)) + c)
                          ≠ null))).map
                      (fun c => (dq + j * kc ^ (k + 1)) + c) := by
                intro j hj
                rw [hkct] at hj
                have hjkc : j < kc := List.mem_range.mp hj
                have hsij : kc * (rowRes / kr ^ (k + 1)) + j < kr * kc := by
                  rw [Nat.mul_comm kc (rowRes / kr ^ (k + 1))]
                  exact group_slot_lt _ j kr kc hdigit hjkc
                have hz' : rank1 tr.T
                      ((lvlOff f null kr kc h t + (n * (kr * kc) + s)) + 1)
                      * tr.kr * tr.kc
                      + tr.kc * (rowRes / kr ^ (k + 1)) + j
                    = lvlOff f null kr kc h (t + 1)
                      + (mIdx f null kr kc h t n s * (kr * kc)
                        + (kc * (rowRes / kr ^ (k + 1)) + j)) := by
                  rw [hT, hkrt, hkct, Nat.mul_assoc, hrank]
                  omega
                rw [hz']
                have ihj := ih fuel (t + 1) (mIdx f null kr kc h t n s)
                  (kc * (rowRes / kr ^ (k + 1)) + j) (dq + j * kc ^ (k + 1))
                  (rowRes % kr ^ (k + 1)) (by omega) (by omega) hidx.2 hsij
                  (Nat.mod_lt _ (Nat.pos_pow_of_pos _ (by omega)))
                rw [Nat.mod_mod_of_dvd rowRes (dvd_pow_self kr (Nat.succ_ne_zero k))]
                  at ihj
                rw [ihj]
                have hcr : childRegion f null kr kc h (t + 1)
                      (mIdx f null kr kc h t n s)
                      (kc * (rowRes / kr ^ (k + 1)) + j)
                    = ((childRegion f null kr kc h t n s).1
                          + rowRes / kr ^ (k + 1) * kr ^ (k + 1),
                        (childRegion f null kr kc h t n s).2 + j * kc ^ (k + 1)) := by
                  rw [childRegion, nodeAt, hidx.1,
                    show h - (t + 1) - 1 = k + 1 by omega]
                  rw [childOrigins_getD (show 0 < kc by omega) hsij]
                  rw [Nat.mul_add_div (show 0 < kc by omega), Nat.div_eq_of_lt hjkc,
                    Nat.mul_add_mod, Nat.mod_eq_of_lt hjkc]
                  simp
                have hcr1 : (childRegion f null kr kc h (t + 1)
                      (mIdx f null kr kc h t n s)
                      (kc * (rowRes / kr ^ (k + 1)) + j)).1
                    = (childRegion f null kr kc h t n s).1
                        + rowRes / kr ^ (k + 1) * kr ^ (k + 1) := by rw [hcr]
                have hcr2 : (childRegion f null kr kc h (t + 1)
                      (mIdx f null kr kc h t n s)
                      (kc * (rowRes / kr ^ (k + 1)) + j)).2
                    = (childRegion f null kr kc h t n s).2 + j * kc ^ (k + 1) := by
                  rw [hcr]
                rw [hcr1, hcr2]
                have hrowdm := Nat.div_add_mod' rowRes (kr ^ (k + 1))
                rw [show (childRegion f null kr kc h t n s).1
                      + rowRes / kr ^ (k + 1) * kr ^ (k + 1) + rowRes % kr ^ (k + 1)
                    = (childRegion f null kr kc h t n s).1 + rowRes by omega]
              rw [List.flatMap_congr hblock]
              rw [show (kc ^ (k + 1 + 1) : Nat) = kc * kc ^ (k + 1) from pow_succ' kc (k + 1)]
              rw [filter_range_mul kc (kc ^ (k + 1))]
              rw [List.map_flatMap]
              rw [hkct]
              apply List.flatMap_congr
              intro j hj
              rw [List.map_map]
              simp only [Function.comp_def, Nat.add_assoc]

/-- The iterative successor enumeration on a structure carrying the abstract
encoding of f lists, for any row of the padded extent, exactly the non-null
columns of that row in ascending order. -/
theorem allSucc_eq_filter (tr : KrKcTree E) (kr kc h : Nat) (hkr : 2 ≤ kr)
    (hkc : 2 ≤ kc) (hh : 1 ≤ h)
    (hT : tr.T = absT f null kr kc h) (hL : tr.L = absL f null kr kc h)
    (hkrt : tr.kr = kr) (hkct : tr.kc = kc) (hnull : tr.null = null)
    (hht : tr.h = h) (hR : tr.numRows = kr ^ h) (hC : tr.numCols = kc ^ h)
    (p : Nat) (hp : p < kr ^ h) :
    allSuccessorPositionsIterative tr p
      = (List.range (kc ^ h)).filter (fun q => decide (f p q ≠ null)) := by
  cases hocc0 : occ f null kr kc 0 0 h h with
  | false =>
      have hLnil : tr.L = [] := by
        rw [hL]
        exact (absL_eq_nil_iff kr kc _ (by omega) (by omega) hh).mpr hocc0
      rw [allSuccessorPositionsIterative, if_pos (by rw [hLnil]; rfl)]
      rw [show (List.range (kc ^ h)).filter (fun q => decide (f p q ≠ null)) = [] from
        List.filter_eq_nil_iff.mpr (by
          intro q hq
          simp only [decide_eq_true_eq, Decidable.not_not]
          have := occ_false_all (f := f) hocc0 p hp q
            (List.mem_range.mp hq)
          simpa using this)]
  | true =>
      have hLne : tr.L.isEmpty = false := by
        rw [hL]
        cases hE : (absL f null kr kc h).isEmpty with
        | false => rfl
        | true =>
            have := (absL_eq_nil_iff kr kc _ (by omega) (by omega) hh).mp
              (List.isEmpty_iff.mp hE)
            rw [this] at hocc0
            exact Bool.noConfusion hocc0
      have hn0 : (0 : Nat) < lvlCount f null kr kc h 0 := by
        rw [lvlCount_zero kr kc _ hocc0]
        omega
      have hnode : nodeAt f null kr kc h 0 0 = (0, 0) := by
        simp [nodeAt, rootLvl, lvl, hocc0]
      by_cases hone : h = 1
      · subst hone
        have hT0 : tr.T.length = 0 := by
          rw [hT, absT_length]
          rfl
        rw [allSuccessorPositionsIterative, if_neg (by rw [hLne]; simp), if_pos hT0]
        rw [hC, hL, hnull]
        have hcongr : ∀ i ∈ List.range (kc ^ 1),
            (if (absL f null kr kc 1).getD (p * kc ^ 1 + i) null ≠ null
              then some i else none)
            = (if f p i ≠ null then some i else none) := by
          intro i hi
          have hikc : i < kc := by
            have := List.mem_range.mp hi
            simpa using this
          have hpkr : p < kr := by simpa using hp
          have hs : p * kc + i < kr * kc := group_slot_lt p i kr kc hpkr hikc
          rw [show (p * kc ^ 1 + i : Nat) = 0 * (kr * kc) + (p * kc + i) by
            rw [pow_one]; omega]
          rw [absL_getD kr kc 1 0 (p * kc + i) (by omega) (by simpa using hn0) hs]
          have hcr : childRegion f null kr kc 1 0 0 (p * kc + i) = (p, i) := by
            rw [childRegion, hnode]
            rw [childOrigins_getD (show 0 < kc by omega) hs]
            rw [Nat.mul_comm p kc]
            rw [Nat.mul_add_div (show 0 < kc by omega), Nat.div_eq_of_lt hikc,
              Nat.mul_add_mod, Nat.mod_eq_of_lt hikc]
            simp
          have hcr' : childRegion f null kr kc 1 (1 - 1) 0 (p * kc + i) = (p, i) := hcr
          rw [hcr']
        rw [List.filterMap_congr hcongr]
        rw [filterMap_if (List.range (kc ^ 1)) (fun i => f p i ≠ null) (fun i => i)]
        exact List.map_id' _
      · have h2 : 2 ≤ h := by omega
        have hT0 : tr.T.length ≠ 0 := by
          rw [hT, absT_length]
          have h1 : lvlOff f null kr kc h 1 ≤ lvlOff f null kr kc h (h - 1) :=
            lvlOff_mono kr kc h 1 (h - 1) (by omega)
          have h2' : lvlOff f null kr kc h 1
              = lvlOff f null kr kc h 0 + lvlCount f null kr kc h 0 * (kr * kc) :=
            lvlOff_succ kr kc h 0
          have h3 : lvlOff f null kr kc h 0 = 0 := rfl
          have h4 : lvlCount f null kr kc h 0 = 1 := lvlCount_zero kr kc h hocc0
          have hK : 0 < kr * kc := Nat.mul_pos (by omega) (by omega)
          have h5 : 0 < lvlOff f null kr kc h 1 := by
            rw [h2', h3, h4]
            simpa using hK
          exact Nat.pos_iff_ne_zero.mp (Nat.lt_of_lt_of_le h5 h1)
        rw [allSuccessorPositionsIterative, if_neg (by rw [hLne]; simp), if_neg hT0]
        simp only []
        have hA : tr.numRows / tr.kr = kr ^ (h - 1) := by
          rw [hR, hkrt]
          conv_lhs => rw [show h = (h - 1) + 1 by omega, pow_succ]
          rw [Nat.mul_div_cancel _ (show 0 < kr by omega)]
        have hB : tr.numCols / tr.kc = kc ^ (h - 1) := by
          rw [hC, hkct]
          conv_lhs => rw [show h = (h - 1) + 1 by omega, pow_succ]
          rw [Nat.mul_div_cancel _ (show 0 < kc by omega)]
        rw [hA, hB]
        have hA2 : kr ^ (h - 1) / tr.kr = kr ^ (h - 2) := by
          rw [hkrt]
          conv_lhs => rw [show h - 1 = (h - 2) + 1 by omega, pow_succ]
          rw [Nat.mul_div_cancel _ (show 0 < kr by omega)]
        have hB2 : kc ^ (h - 1) / tr.kc = kc ^ (h - 2) := by
          rw [hkct]
          conv_lhs => rw [show h - 1 = (h - 2) + 1 by omega, pow_succ]
          rw [Nat.mul_div_cancel _ (show 0 < kc by omega)]
        rw [hA2, hB2]
        have hrowlt : p % kr ^ (h - 1) < kr ^ (h - 2 + 1) := by
          rw [show h - 2 + 1 = h - 1 by omega]
          exact Nat.mod_lt _ (Nat.pos_pow_of_pos _ (by omega))
        have hpow : succLoop tr tr.h (kr ^ (h - 2)) (kc ^ (h - 2)) (p % kr ^ (h - 1)) []
            = ⟨1, 1, p % kr ^ (h - 1) % kr, []⟩ :=
          succLoop_pow tr kr kc hkrt hkct hkr hkc (h - 2) tr.h (p % kr ^ (h - 1))
            (by rw [hht]; omega) hrowlt
        have hsNr : (succLoop tr tr.h (kr ^ (h - 2)) (kc ^ (h - 2)) (p % kr ^ (h - 1))
            ((List.range tr.kc).map (fun j =>
              ⟨j * kc ^ (h - 1), tr.kc * (p / kr ^ (h - 1)) + j⟩))).nr = 1 := by
          rw [(succLoop_scalars tr _ _ _ _ _).1, hpow]
        have hsNc : (succLoop tr tr.h (kr ^ (h - 2)) (kc ^ (h - 2)) (p % kr ^ (h - 1))
            ((List.range tr.kc).map (fun j =>
              ⟨j * kc ^ (h - 1), tr.kc * (p / kr ^ (h - 1)) + j⟩))).nc = 1 := by
          rw [(succLoop_scalars tr _ _ _ _ _).2.1, hpow]
        have hsRe : (succLoop tr tr.h (kr ^ (h - 2)) (kc ^ (h - 2)) (p % kr ^ (h - 1))
            ((List.range tr.kc).map (fun j =>
              ⟨j * kc ^ (h - 1), tr.kc * (p / kr ^ (h - 1)) + j⟩))).relP
            = p % kr ^ (h - 1) % kr := by
          rw [(succLoop_scalars tr _ _ _ _ _).2.2, hpow]
        rw [hsNr, hsNc, hsRe, Nat.div_one]
        rw [← flatMap_one (List.range tr.kc)
          (fun j => (⟨j * kc ^ (h - 1), tr.kc * (p / kr ^ (h - 1)) + j⟩ : SubrowInfo))]
        rw [succLoop_queue_flatMap]
        rw [List.flatMap_assoc]
        have hdigit : p / kr ^ (h - 1) < kr := by
          apply Nat.div_lt_of_lt_mul
          rw [← pow_succ, show h - 1 + 1 = h by omega]
          exact hp
        have hblock : ∀ j ∈ List.range tr.kc,
            ((succLoop tr tr.h (kr ^ (h - 2)) (kc ^ (h - 2)) (p % kr ^ (h - 1))
                [(⟨j * kc ^ (h - 1), tr.kc * (p / kr ^ (h - 1)) + j⟩ : SubrowInfo)]).queue).flatMap
              (fun cur =>
                if tr.T.getD cur.z false then
                  (List.range tr.kc).filterMap (fun j' =>
                    if tr.L.getD (rank1 tr.T (cur.z + 1) * tr.kr * tr.kc
                        + tr.kc * (p % kr ^ (h - 1) % kr) - tr.T.length + j') tr.null
                        ≠ tr.null
                    then some (cur.dq + j' * 1) else none)
                else [])
            = ((List.range (kc ^ (h - 1))).filter (fun c =>
                decide (f p (j * kc ^ (h - 1) + c) ≠ null))).map
                (fun c => j * kc ^ (h - 1) + c) := by
          intro j hj
          rw [hkct] at hj
          have hjkc : j < kc := List.mem_range.mp hj
          have hsij : kc * (p / kr ^ (h - 1)) + j < kr * kc := by
            rw [Nat.mul_comm kc (p / kr ^ (h - 1))]
            exact group_slot_lt _ j kr kc hdigit hjkc
          have hz0 : tr.kc * (p / kr ^ (h - 1)) + j
              = lvlOff f null kr kc h 0
                + (0 * (kr * kc) + (kc * (p / kr ^ (h - 1)) + j)) := by
            rw [hkct, show lvlOff f null kr kc h 0 = 0 from rfl]
            omega
          rw [hz0]
          have hentry := succ_entry (f := f) tr kr kc h hkr hkc hT hL
            hkrt hkct hnull hocc0 (h - 2) tr.h 0 0 (kc * (p / kr ^ (h - 1)) + j)
            (j * kc ^ (h - 1)) (p % kr ^ (h - 1)) (by omega) (by rw [hht]; omega)
            hn0 hsij hrowlt
          rw [hentry]
          have hcr : childRegion f null kr kc h 0 0 (kc * (p / kr ^ (h - 1)) + j)
              = (p / kr ^ (h - 1) * kr ^ (h - 1), j * kc ^ (h - 1)) := by
            rw [childRegion, hnode, show h - 0 - 1 = h - 1 by omega]
            rw [childOrigins_getD (show 0 < kc by omega) hsij]
            rw [Nat.mul_add_div (show 0 < kc by omega), Nat.div_eq_of_lt hjkc,
              Nat.mul_add_mod, Nat.mod_eq_of_lt hjkc]
            simp
          have hcr1 : (childRegion f null kr kc h 0 0
                (kc * (p / kr ^ (h - 1)) + j)).1
              = p / kr ^ (h - 1) * kr ^ (h - 1) := by rw [hcr]
          have hcr2 : (childRegion f null kr kc h 0 0
                (kc * (p / kr ^ (h - 1)) + j)).2
              = j * kc ^ (h - 1) := by rw [hcr]
          rw [hcr1, hcr2]
          have hpdm := Nat.div_add_mod' p (kr ^ (h - 1))
          rw [show (p / kr ^ (h - 1) * kr ^ (h - 1) + p % kr ^ (h - 1) : Nat) = p by
            omega]
          rw [show h - 2 + 1 = h - 1 by omega]
        rw [List.flatMap_congr hblock]
        rw [hkct]
        rw [show (kc ^ h : Nat) = kc * kc ^ (h - 1) by
          conv_lhs => rw [show h = (h - 1) + 1 by omega, pow_succ']]
        rw [filter_range_mul kc (kc ^ (h - 1))]

theorem find?_eq_head?_filter {α : Type} (l : List α) (p : α → Bool) :
    l.find? p = (l.filter p).head? := by
  induction l with
  | nil => rfl
  | cons a t ih =>
      rw [List.find?_cons, List.filter_cons]
      cases h : p a
      · rw [if_neg Bool.false_ne_true]
        exact ih
      · rw [if_pos rfl]
        rfl

/-- The per-child step bound of the first-successor machine dominates the
recurrence and stays below a single power. -/
theorem fsCap_le (kc : Nat) : ∀ k, fsCap kc k ≤ (kc + 2) ^ (k + 1) := by
  intro k
  induction k with
  | zero =>
      rw [show fsCap kc 0 = 1 from rfl, show (0 : Nat) + 1 = 1 from rfl, pow_one]
      omega
  | succ k ih =>
      rw [show fsCap kc (k + 1) = 2 + kc * fsCap kc k from rfl]
      have h1 : kc * fsCap kc k ≤ kc * (kc + 2) ^ (k + 1) := Nat.mul_le_mul_left kc ih
      have h2 : (kc + 2) ^ (k + 1 + 1) = (kc + 2) * (kc + 2) ^ (k + 1) :=
        pow_succ' (kc + 2) (k + 1)
      have h3 : (kc + 2) * (kc + 2) ^ (k + 1)
          = kc * (kc + 2) ^ (k + 1) + 2 * (kc + 2) ^ (k + 1) := by ring
      have h4 : 1 ≤ (kc + 2) ^ (k + 1) := Nat.one_le_pow _ _ (by omega)
      omega

/-- The machine on an empty stack answers numCols whatever the fuel. -/
theorem fsm_nil (tr : KrKcTree E) : ∀ fuel, firstSuccMachine tr fuel [] = tr.numCols := by
  intro fuel
  cases fuel with
  | zero => rfl
  | succ fuel => rfl

/-- One machine step: a finished frame is popped. -/
theorem fsm_pop (tr : KrKcTree E) (fuel : Nat) (fr : ExtSubrow) (rest : List ExtSubrow)
    (hj : fr.j ≥ tr.kc) :
    firstSuccMachine tr (fuel + 1) (fr :: rest) = firstSuccMachine tr fuel rest := by
  simp only [firstSuccMachine, if_pos hj]

/-- A finished frame (child counter at kc) is popped at the cost of one unit
of fuel. -/
theorem frame_run_pop (tr : KrKcTree E) (kc : Nat) (hkct : tr.kc = kc) (fuel : Nat)
    (fr : ExtSubrow) (rest : List ExtSubrow) (hj : fr.j = kc) (hfuel : 1 ≤ fuel) :
    firstSuccMachine tr fuel (fr :: rest) = firstSuccMachine tr (fuel - 1) rest := by
  cases fuel with
  | zero => omega
  | succ fuel =>
      rw [fsm_pop tr fuel fr rest (by rw [hkct, hj])]
      rfl

/-- One machine step: an unfinished frame standing on a non-null leaf returns
its column offset. -/
theorem fsm_leaf_hit (tr : KrKcTree E) (fuel : Nat) (fr : ExtSubrow)
    (rest : List ExtSubrow) (hj : ¬ fr.j ≥ tr.kc) (hz : fr.z ≥ tr.T.length)
    (hl : tr.L.getD (fr.z - tr.T.length) tr.null ≠ tr.null) :
    firstSuccMachine tr (fuel + 1) (fr :: rest) = fr.dq := by
  simp only [firstSuccMachine]
  rw [if_neg hj, if_pos hz, if_pos hl]

/-- One machine step: an unfinished frame standing on a null leaf advances. -/
theorem fsm_leaf_miss (tr : KrKcTree E) (fuel : Nat) (fr : ExtSubrow)
    (rest : List ExtSubrow) (hj : ¬ fr.j ≥ tr.kc) (hz : fr.z ≥ tr.T.length)
    (hl : ¬ tr.L.getD (fr.z - tr.T.length) tr.null ≠ tr.null) :
    firstSuccMachine tr (fuel + 1) (fr :: rest)
      = firstSuccMachine tr fuel (frameAdvance fr :: rest) := by
  simp only [firstSuccMachine]
  rw [if_neg hj, if_pos hz, if_neg hl]

/-- One machine step: a set internal bit pushes the child frame before the
parent frame advances. -/
theorem fsm_int_one (tr : KrKcTree E) (fuel : Nat) (fr : ExtSubrow)
    (rest : List ExtSubrow) (hj : ¬ fr.j ≥ tr.kc) (hz : ¬ fr.z ≥ tr.T.length)
    (hb : tr.T.getD fr.z false = true) (hg : fr.nr / tr.kr < fr.nr) :
    firstSuccMachine tr (fuel + 1) (fr :: rest)
      = firstSuccMachine tr fuel (framePush tr fr :: frameAdvance fr :: rest) := by
  simp only [firstSuccMachine]
  rw [if_neg hj, if_neg hz, if_pos hb, if_pos hg]

/-- One machine step: a clear internal bit advances past the child. -/
theorem fsm_int_zero (tr : KrKcTree E) (fuel : Nat) (fr : ExtSubrow)
    (rest : List ExtSubrow) (hj : ¬ fr.j ≥ tr.kc) (hz : ¬ fr.z ≥ tr.T.length)
    (hb : tr.T.getD fr.z false = false) :
    firstSuccMachine tr (fuel + 1) (fr :: rest)
      = firstSuccMachine tr fuel (frameAdvance fr :: rest) := by
  simp only [firstSuccMachine]
  rw [if_neg hj, if_neg hz, if_neg (by rw [hb]; exact Bool.false_ne_true)]

/-- Big-step run of the first-successor stack machine on one frame: standing
on child kc - d of the stripe-rho scan of the occupied depth-t node n, whose
child subtrees have extent exponent k, the machine returns dq plus the offset
of the first non-null column of the scanned row within the remaining range
when one exists, and otherwise consumes at most fsCap kc k * d + 1 fuel and
continues with the rest of the stack. -/
theorem frame_run (tr : KrKcTree E) (kr kc h : Nat) (hkr : 2 ≤ kr) (hkc : 2 ≤ kc)
    (hT : tr.T = absT f null kr kc h) (hL : tr.L = absL f null kr kc h)
    (hkrt : tr.kr = kr) (hkct : tr.kc = kc) (hnull : tr.null = null)
    (hocc0 : occ f null kr kc 0 0 h h = true) :
    ∀ (k d t n ρ rowRes dq fuel : Nat), ∀ (rest : List ExtSubrow),
    t + (k + 1) = h → d ≤ kc → n < lvlCount f null kr kc h t → ρ < kr →
    rowRes < kr ^ k → fsCap kc k * d + 1 ≤ fuel →
    ∃ cost, cost ≤ fsCap kc k * d + 1 ∧
      firstSuccMachine tr fuel
          (⟨kr ^ k, kc ^ k, rowRes, dq,
            lvlOff f null kr kc h t + (n * (kr * kc) + (kc * ρ + (kc - d))),
            kc - d⟩ :: rest)
        = ((List.range (d * kc ^ k)).filter (fun c =>
            decide (f ((nodeAt f null kr kc h t n).1 + ρ * kr ^ k + rowRes)
              ((nodeAt f null kr kc h t n).2 + (kc - d) * kc ^ k + c)
              ≠ null))).head?.elim
            (firstSuccMachine tr (fuel - cost) rest) (fun c => dq + c) := by
  intro k
  induction k with
  | zero =>
      intro d
      induction d with
      | zero =>
          intro t n ρ rowRes dq fuel rest ht hd hn hρ hrow hfuel
          refine ⟨1, by omega, ?_⟩
          rw [frame_run_pop tr kc hkct fuel _ rest rfl (by omega)]
          simp
      | succ d ihd =>
          intro t n ρ rowRes dq fuel rest ht hd hn hρ hrow hfuel
          have hkcpos : 0 < kc := by omega
          have hj0lt : kc - (d + 1) < kc := by omega
          have hs : kc * ρ + (kc - (d + 1)) < kr * kc := by
            have hg := group_slot_lt ρ (kc - (d + 1)) kr kc hρ hj0lt
            rw [Nat.mul_comm ρ kc] at hg
            exact hg
          have hr0 : rowRes = 0 := by
            rw [pow_zero] at hrow
            omega
          subst hr0
          have hcap0 : fsCap kc 0 = 1 := rfl
          rw [hcap0] at hfuel
          cases fuel with
          | zero => omega
          | succ fuel =>
          have hnlt : n < lvlCount f null kr kc h (h - 1) := by
            rw [show h - 1 = t by omega]
            exact hn
          have hcr : childRegion f null kr kc h (h - 1) n (kc * ρ + (kc - (d + 1)))
              = ((nodeAt f null kr kc h t n).1 + ρ,
                 (nodeAt f null kr kc h t n).2 + (kc - (d + 1))) := by
            rw [show h - 1 = t by omega]
            rw [childRegion, childOrigins_getD hkcpos hs]
            rw [show h - t - 1 = 0 by omega]
            rw [Nat.mul_add_div hkcpos, Nat.div_eq_of_lt hj0lt, Nat.add_zero,
              Nat.mul_add_mod, Nat.mod_eq_of_lt hj0lt]
            simp
          have hlval : tr.L.getD
              (lvlOff f null kr kc h t + (n * (kr * kc) + (kc * ρ + (kc - (d + 1))))
                - tr.T.length) tr.null
              = f ((nodeAt f null kr kc h t n).1 + ρ)
                  ((nodeAt f null kr kc h t n).2 + (kc - (d + 1))) := by
            rw [hL, hnull, hT, absT_length]
            rw [show lvlOff f null kr kc h t
                  + (n * (kr * kc) + (kc * ρ + (kc - (d + 1))))
                  - lvlOff f null kr kc h (h - 1)
                = n * (kr * kc) + (kc * ρ + (kc - (d + 1))) by
              rw [show h - 1 = t by omega]
              omega]
            rw [absL_getD kr kc h n (kc * ρ + (kc - (d + 1))) (by omega) hnlt hs, hcr]
          have hjcond : ¬ (kc - (d + 1) ≥ tr.kc) := by
            rw [hkct]
            omega
          have hzcond : lvlOff f null kr kc h t
              + (n * (kr * kc) + (kc * ρ + (kc - (d + 1)))) ≥ tr.T.length := by
            rw [hT, absT_length, show h - 1 = t by omega]
            exact Nat.le_add_right _ _
          by_cases hhit : f ((nodeAt f null kr kc h t n).1 + ρ)
              ((nodeAt f null kr kc h t n).2 + (kc - (d + 1))) ≠ null
          · refine ⟨1, by omega, ?_⟩
            rw [fsm_leaf_hit tr fuel _ rest hjcond hzcond (by
              show tr.L.getD (lvlOff f null kr kc h t
                + (n * (kr * kc) + (kc * ρ + (kc - (d + 1)))) - tr.T.length) tr.null
                ≠ tr.null
              rw [hlval, hnull]
              exact hhit)]
            show dq = _
            rw [show (d + 1) * kc ^ 0 = d + 1 by rw [pow_zero, Nat.mul_one]]
            rw [List.range_succ_eq_map, List.filter_cons, if_pos (by
              rw [decide_eq_true_eq]
              show f ((nodeAt f null kr kc h t n).1 + ρ * kr ^ 0 + 0)
                ((nodeAt f null kr kc h t n).2 + (kc - (d + 1)) * kc ^ 0 + 0) ≠ null
              simp only [pow_zero, Nat.mul_one, Nat.add_zero]
              exact hhit)]
            simp
          · obtain ⟨cost, hcostle, heq⟩ := ihd t n ρ 0 (dq + kc ^ 0) fuel rest ht
              (by omega) hn hρ (by rw [pow_zero]; omega) (by rw [hcap0]; omega)
            rw [hcap0] at hcostle
            refine ⟨cost + 1, by rw [hcap0]; omega, ?_⟩
            rw [fsm_leaf_miss tr fuel _ rest hjcond hzcond (by
              show ¬ tr.L.getD (lvlOff f null kr kc h t
                + (n * (kr * kc) + (kc * ρ + (kc - (d + 1)))) - tr.T.length) tr.null
                ≠ tr.null
              rw [hlval, hnull]
              exact hhit)]
            rw [show frameAdvance (⟨kr ^ 0, kc ^ 0, 0, dq,
                lvlOff f null kr kc h t + (n * (kr * kc) + (kc * ρ + (kc - (d + 1)))),
                kc - (d + 1)⟩ : ExtSubrow)
                = ⟨kr ^ 0, kc ^ 0, 0, dq + kc ^ 0,
                   lvlOff f null kr kc h t + (n * (kr * kc) + (kc * ρ + (kc - d))),
                   kc - d⟩ from by
              show (⟨kr ^ 0, kc ^ 0, 0, dq + kc ^ 0,
                lvlOff f null kr kc h t
                  + (n * (kr * kc) + (kc * ρ + (kc - (d + 1)))) + 1,
                kc - (d + 1) + 1⟩ : ExtSubrow) = _
              rw [show lvlOff f null kr kc h t
                    + (n * (kr * kc) + (kc * ρ + (kc - (d + 1)))) + 1
                  = lvlOff f null kr kc h t
                    + (n * (kr * kc) + (kc * ρ + (kc - d))) by omega]
              rw [show kc - (d + 1) + 1 = kc - d by omega]]
            rw [heq]
            rw [show fuel + 1 - (cost + 1) = fuel - cost by omega]
            simp only [pow_zero, Nat.mul_one, Nat.add_zero]
            rw [List.range_succ_eq_map, List.filter_cons, if_neg (by
              rw [decide_eq_true_eq, Nat.add_zero]
              exact hhit)]
            rw [List.filter_map]
            rw [List.head?_map]
            rw [show List.filter ((fun c =>
                decide (f ((nodeAt f null kr kc h t n).1 + ρ)
                  ((nodeAt f null kr kc h t n).2 + (kc - (d + 1)) + c) ≠ null))
                  ∘ Nat.succ) (List.range d)
                = List.filter (fun c =>
                    decide (f ((nodeAt f null kr kc h t n).1 + ρ)
                      ((nodeAt f null kr kc h t n).2 + (kc - d) + c) ≠ null))
                  (List.range d) from List.filter_congr (fun c _ => by
                simp only [Function.comp_apply]
                exact decide_eq_decide.mpr (by
                  rw [show (nodeAt f null kr kc h t n).2 + (kc - (d + 1)) + Nat.succ c
                      = (nodeAt f null kr kc h t n).2 + (kc - d) + c by omega]))]
            cases hh2 : (List.filter (fun c =>
                decide (f ((nodeAt f null kr kc h t n).1 + ρ)
                  ((nodeAt f null kr kc h t n).2 + (kc - d) + c) ≠ null))
                (List.range d)).head? with
            | none => rfl
            | some c =>
                show dq + 1 + c = dq + Nat.succ c
                omega
  | succ k ihk =>
      intro d
      induction d with
      | zero =>
          intro t n ρ rowRes dq fuel rest ht hd hn hρ hrow hfuel
          refine ⟨1, by omega, ?_⟩
          rw [frame_run_pop tr kc hkct fuel _ rest rfl (by omega)]
          simp
      | succ d ihd =>
          intro t n ρ rowRes dq fuel rest ht hd hn hρ hrow hfuel
          have hkcpos : 0 < kc := by omega
          have hj0lt : kc - (d + 1) < kc := by omega
          have hs : kc * ρ + (kc - (d + 1)) < kr * kc := by
            have hg := group_slot_lt ρ (kc - (d + 1)) kr kc hρ hj0lt
            rw [Nat.mul_comm ρ kc] at hg
            exact hg
          have htlt : t < h - 1 := by omega
          have hex : h - t - 1 = k + 1 := by omega
          have hY : fsCap kc (k + 1) = 2 + kc * fsCap kc k := rfl
          have hYd : fsCap kc (k + 1) * (d + 1)
              = fsCap kc (k + 1) * d + fsCap kc (k + 1) := Nat.mul_succ _ _
          cases fuel with
          | zero => omega
          | succ fuel =>
          have hjcond : ¬ (kc - (d + 1) ≥ tr.kc) := by
            rw [hkct]
            omega
          have hzlt : lvlOff f null kr kc h t
              + (n * (kr * kc) + (kc * ρ + (kc - (d + 1))))
              < lvlOff f null kr kc h (t + 1) := by
            rw [lvlOff_succ]
            have hg := group_slot_lt n (kc * ρ + (kc - (d + 1)))
              (lvlCount f null kr kc h t) (kr * kc) hn hs
            omega
          have hzcond : ¬ (lvlOff f null kr kc h t
              + (n * (kr * kc) + (kc * ρ + (kc - (d + 1)))) ≥ tr.T.length) := by
            rw [hT, absT_length]
            have hmono : lvlOff f null kr kc h (t + 1)
                ≤ lvlOff f null kr kc h (h - 1) :=
              lvlOff_mono kr kc h (t + 1) (h - 1) (by omega)
            omega
          have hcr : childRegion f null kr kc h t n (kc * ρ + (kc - (d + 1)))
              = ((nodeAt f null kr kc h t n).1 + ρ * kr ^ (k + 1),
                 (nodeAt f null kr kc h t n).2 + (kc - (d + 1)) * kc ^ (k + 1)) := by
            rw [childRegion, childOrigins_getD hkcpos hs]
            rw [hex]
            rw [Nat.mul_add_div hkcpos, Nat.div_eq_of_lt hj0lt, Nat.add_zero,
              Nat.mul_add_mod, Nat.mod_eq_of_lt hj0lt]
          have hbit : tr.T.getD (lvlOff f null kr kc h t
              + (n * (kr * kc) + (kc * ρ + (kc - (d + 1))))) false
              = occ f null kr kc ((nodeAt f null kr kc h t n).1 + ρ * kr ^ (k + 1))
                  ((nodeAt f null kr kc h t n).2 + (kc - (d + 1)) * kc ^ (k + 1))
                  (k + 1) (k + 1) := by
            rw [hT]
            have hb0 := bit_at (f := f) kr kc h t n
              (kc * ρ + (kc - (d + 1))) htlt hn hs
            rw [hcr, hex] at hb0
            exact hb0
          cases hocc : occ f null kr kc
              ((nodeAt f null kr kc h t n).1 + ρ * kr ^ (k + 1))
              ((nodeAt f null kr kc h t n).2 + (kc - (d + 1)) * kc ^ (k + 1))
              (k + 1) (k + 1) with
          | false =>
              rw [hocc] at hbit
              obtain ⟨cost, hcostle, heq⟩ := ihd t n ρ rowRes (dq + kc ^ (k + 1))
                fuel rest ht (by omega) hn hρ hrow (by
                  have hcm : fsCap kc k * kc = kc * fsCap kc k := Nat.mul_comm _ _
                  omega)
              refine ⟨cost + 1, by omega, ?_⟩
              rw [fsm_int_zero tr fuel _ rest hjcond hzcond hbit]
              rw [show frameAdvance (⟨kr ^ (k + 1), kc ^ (k + 1), rowRes, dq,
                  lvlOff f null kr kc h t
                    + (n * (kr * kc) + (kc * ρ + (kc - (d + 1)))),
                  kc - (d + 1)⟩ : ExtSubrow)
                  = ⟨kr ^ (k + 1), kc ^ (k + 1), rowRes, dq + kc ^ (k + 1),
                     lvlOff f null kr kc h t
                       + (n * (kr * kc) + (kc * ρ + (kc - d))),
                     kc - d⟩ from by
                show (⟨kr ^ (k + 1), kc ^ (k + 1), rowRes, dq + kc ^ (k + 1),
                  lvlOff f null kr kc h t
                    + (n * (kr * kc) + (kc * ρ + (kc - (d + 1)))) + 1,
                  kc - (d + 1) + 1⟩ : ExtSubrow) = _
                rw [show lvlOff f null kr kc h t
                      + (n * (kr * kc) + (kc * ρ + (kc - (d + 1)))) + 1
                    = lvlOff f null kr kc h t
                      + (n * (kr * kc) + (kc * ρ + (kc - d))) by omega]
                rw [show kc - (d + 1) + 1 = kc - d by omega]]
              rw [heq]
              rw [show fuel + 1 - (cost + 1) = fuel - cost by omega]
              rw [show (d + 1) * kc ^ (k + 1) = kc ^ (k + 1) + d * kc ^ (k + 1) by
                rw [Nat.succ_mul, Nat.add_comm]]
              rw [List.range_add, List.filter_append]
              rw [show List.filter (fun c =>
                  decide (f ((nodeAt f null kr kc h t n).1 + ρ * kr ^ (k + 1) + rowRes)
                    ((nodeAt f null kr kc h t n).2 + (kc - (d + 1)) * kc ^ (k + 1) + c)
                    ≠ null)) (List.range (kc ^ (k + 1))) = []
                  from List.filter_eq_nil_iff.mpr (fun c hc => by
                simp only [decide_eq_true_eq, Decidable.not_not]
                exact occ_false_all hocc rowRes hrow c (List.mem_range.mp hc))]
              rw [List.nil_append]
              rw [List.filter_map]
              rw [List.head?_map]
              have hshift : (kc - (d + 1)) * kc ^ (k + 1) + kc ^ (k + 1)
                  = (kc - d) * kc ^ (k + 1) := by
                rw [← Nat.succ_mul, show Nat.succ (kc - (d + 1)) = kc - d by omega]
              rw [show List.filter ((fun c =>
                  decide (f ((nodeAt f null kr kc h t n).1 + ρ * kr ^ (k + 1) + rowRes)
                    ((nodeAt f null kr kc h t n).2 + (kc - (d + 1)) * kc ^ (k + 1) + c)
                    ≠ null)) ∘ (fun x => kc ^ (k + 1) + x)) (List.range (d * kc ^ (k + 1)))
                  = List.filter (fun c =>
                      decide (f ((nodeAt f null kr kc h t n).1 + ρ * kr ^ (k + 1)
                          + rowRes)
                        ((nodeAt f null kr kc h t n).2 + (kc - d) * kc ^ (k + 1) + c)
                        ≠ null)) (List.range (d * kc ^ (k + 1)))
                  from List.filter_congr (fun c _ => by
                simp only [Function.comp_apply]
                exact decide_eq_decide.mpr (by
                  rw [show (nodeAt f null kr kc h t n).2
                        + (kc - (d + 1)) * kc ^ (k + 1) + (kc ^ (k + 1) + c)
                      = (nodeAt f null kr kc h t n).2 + (kc - d) * kc ^ (k + 1) + c by
                    have := hshift
                    omega]))]
              cases hh2 : (List.filter (fun c =>
                  decide (f ((nodeAt f null kr kc h t n).1 + ρ * kr ^ (k + 1) + rowRes)
                    ((nodeAt f null kr kc h t n).2 + (kc - d) * kc ^ (k + 1) + c)
                    ≠ null)) (List.range (d * kc ^ (k + 1)))).head? with
              | none => rfl
              | some c =>
                  show dq + kc ^ (k + 1) + c = dq + (kc ^ (k + 1) + c)
                  omega
          | true =>
              rw [hocc] at hbit
              have hpowltr : kr ^ (k + 1) / kr = kr ^ k := by
                conv_lhs => rw [pow_succ]
                rw [Nat.mul_div_cancel _ (show 0 < kr by omega)]
              have hpowltc : kc ^ (k + 1) / kc = kc ^ k := by
                conv_lhs => rw [pow_succ]
                rw [Nat.mul_div_cancel _ (show 0 < kc by omega)]
              have hguard : kr ^ (k + 1) / tr.kr < kr ^ (k + 1) := by
                rw [hkrt, hpowltr]
                exact Nat.pow_lt_pow_succ (by omega)
              have hρ' : rowRes / kr ^ k < kr := by
                apply Nat.div_lt_of_lt_mul
                rw [← pow_succ]
                exact hrow
              have hrow' : rowRes % kr ^ k < kr ^ k :=
                Nat.mod_lt _ (Nat.pos_pow_of_pos _ (by omega))
              obtain ⟨hcnode, hclt⟩ := child_index (f := f) kr kc h t n
                (kc * ρ + (kc - (d + 1))) (by omega) (by omega) htlt hn hs
                (by rw [hex, hcr]; exact hocc)
              have hrank := child_rank (f := f) kr kc h t n
                (kc * ρ + (kc - (d + 1))) (by omega) (by omega) (by omega) hocc0
                htlt hn hs (by rw [hex, hcr]; exact hocc)
              have hnodeC : nodeAt f null kr kc h (t + 1)
                  (mIdx f null kr kc h t n (kc * ρ + (kc - (d + 1))))
                  = childRegion f null kr kc h t n (kc * ρ + (kc - (d + 1))) := hcnode
              have hnode1 : (nodeAt f null kr kc h (t + 1)
                  (mIdx f null kr kc h t n (kc * ρ + (kc - (d + 1))))).1
                  = (nodeAt f null kr kc h t n).1 + ρ * kr ^ (k + 1) := by
                rw [hnodeC, hcr]
              have hnode2 : (nodeAt f null kr kc h (t + 1)
                  (mIdx f null kr kc h t n (kc * ρ + (kc - (d + 1))))).2
                  = (nodeAt f null kr kc h t n).2 + (kc - (d + 1)) * kc ^ (k + 1) := by
                rw [hnodeC, hcr]
              have hpush : framePush tr (⟨kr ^ (k + 1), kc ^ (k + 1), rowRes, dq,
                  lvlOff f null kr kc h t
                    + (n * (kr * kc) + (kc * ρ + (kc - (d + 1)))),
                  kc - (d + 1)⟩ : ExtSubrow)
                  = ⟨kr ^ k, kc ^ k, rowRes % kr ^ k, dq,
                     lvlOff f null kr kc h (t + 1)
                       + (mIdx f null kr kc h t n (kc * ρ + (kc - (d + 1)))
                            * (kr * kc)
                          + (kc * (rowRes / kr ^ k) + (kc - kc))),
                     kc - kc⟩ := by
                show (⟨kr ^ (k + 1) / tr.kr, kc ^ (k + 1) / tr.kc,
                  rowRes % (kr ^ (k + 1) / tr.kr), dq,
                  rank1 tr.T (lvlOff f null kr kc h t
                      + (n * (kr * kc) + (kc * ρ + (kc - (d + 1)))) + 1)
                      * tr.kr * tr.kc
                    + tr.kc * (rowRes / (kr ^ (k + 1) / tr.kr)),
                  0⟩ : ExtSubrow) = _
                rw [hkrt, hkct, hT, hpowltr, hpowltc]
                rw [Nat.mul_assoc]
                rw [hrank]
                rw [show kc - kc = 0 from Nat.sub_self kc]
                rw [show lvlOff f null kr kc h (t + 1)
                      + (mIdx f null kr kc h t n (kc * ρ + (kc - (d + 1)))
                           * (kr * kc)
                         + (kc * (rowRes / kr ^ k) + 0))
                    = lvlOff f null kr kc h (t + 1)
                      + mIdx f null kr kc h t n (kc * ρ + (kc - (d + 1))) * (kr * kc)
                      + kc * (rowRes / kr ^ k) from by omega]
              obtain ⟨costC, hcCle, heqC⟩ := ihk kc (t + 1)
                (mIdx f null kr kc h t n (kc * ρ + (kc - (d + 1))))
                (rowRes / kr ^ k) (rowRes % kr ^ k) dq fuel
                (frameAdvance (⟨kr ^ (k + 1), kc ^ (k + 1), rowRes, dq,
                  lvlOff f null kr kc h t
                    + (n * (kr * kc) + (kc * ρ + (kc - (d + 1)))),
                  kc - (d + 1)⟩ : ExtSubrow) :: rest)
                (by omega) (Nat.le_refl kc) hclt hρ' hrow' (by
                  have hcm : fsCap kc k * kc = kc * fsCap kc k := Nat.mul_comm _ _
                  omega)
              obtain ⟨costR, hcRle, heqR⟩ := ihd t n ρ rowRes (dq + kc ^ (k + 1))
                (fuel - costC) rest ht (by omega) hn hρ hrow (by
                  have hcm : fsCap kc k * kc = kc * fsCap kc k := Nat.mul_comm _ _
                  omega)
              refine ⟨costC + costR + 1, by
                have hcm : fsCap kc k * kc = kc * fsCap kc k := Nat.mul_comm _ _
                omega, ?_⟩
              rw [fsm_int_one tr fuel _ rest hjcond hzcond hbit hguard]
              rw [hpush]
              rw [heqC]
              rw [show frameAdvance (⟨kr ^ (k + 1), kc ^ (k + 1), rowRes, dq,
                  lvlOff f null kr kc h t
                    + (n * (kr * kc) + (kc * ρ + (kc - (d + 1)))),
                  kc - (d + 1)⟩ : ExtSubrow)
                  = ⟨kr ^ (k + 1), kc ^ (k + 1), rowRes, dq + kc ^ (k + 1),
                     lvlOff f null kr kc h t
                       + (n * (kr * kc) + (kc * ρ + (kc - d))),
                     kc - d⟩ from by
                show (⟨kr ^ (k + 1), kc ^ (k + 1), rowRes, dq + kc ^ (k + 1),
                  lvlOff f null kr kc h t
                    + (n * (kr * kc) + (kc * ρ + (kc - (d + 1)))) + 1,
                  kc - (d + 1) + 1⟩ : ExtSubrow) = _
                rw [show lvlOff f null kr kc h t
                      + (n * (kr * kc) + (kc * ρ + (kc - (d + 1)))) + 1
                    = lvlOff f null kr kc h t
                      + (n * (kr * kc) + (kc * ρ + (kc - d))) by omega]
                rw [show kc - (d + 1) + 1 = kc - d by omega]]
              rw [heqR]
              rw [show fuel + 1 - (costC + costR + 1) = fuel - costC - costR by omega]
              rw [hnode1, hnode2]
              rw [show (nodeAt f null kr kc h t n).1 + ρ * kr ^ (k + 1)
                    + rowRes / kr ^ k * kr ^ k + rowRes % kr ^ k
                  = (nodeAt f null kr kc h t n).1 + ρ * kr ^ (k + 1) + rowRes from by
                have hdm := Nat.div_add_mod' rowRes (kr ^ k)
                omega]
              rw [show (nodeAt f null kr kc h t n).2 + (kc - (d + 1)) * kc ^ (k + 1)
                    + (kc - kc) * kc ^ k
                  = (nodeAt f null kr kc h t n).2 + (kc - (d + 1)) * kc ^ (k + 1)
                  from by
                rw [Nat.sub_self, Nat.zero_mul, Nat.add_zero]]
              rw [show kc * kc ^ k = kc ^ (k + 1) from (pow_succ' kc k).symm]
              rw [show (d + 1) * kc ^ (k + 1) = kc ^ (k + 1) + d * kc ^ (k + 1) by
                rw [Nat.succ_mul, Nat.add_comm]]
              rw [List.range_add, List.filter_append, List.head?_append]
              rw [List.filter_map]
              rw [List.head?_map]
              have hshift : (kc - (d + 1)) * kc ^ (k + 1) + kc ^ (k + 1)
                  = (kc - d) * kc ^ (k + 1) := by
                rw [← Nat.succ_mul, show Nat.succ (kc - (d + 1)) = kc - d by omega]
              rw [show List.filter ((fun c =>
                  decide (f ((nodeAt f null kr kc h t n).1 + ρ * kr ^ (k + 1) + rowRes)
                    ((nodeAt f null kr kc h t n).2 + (kc - (d + 1)) * kc ^ (k + 1) + c)
                    ≠ null)) ∘ (fun x => kc ^ (k + 1) + x)) (List.range (d * kc ^ (k + 1)))
                  = List.filter (fun c =>
                      decide (f ((nodeAt f null kr kc h t n).1 + ρ * kr ^ (k + 1)
                          + rowRes)
                        ((nodeAt f null kr kc h t n).2 + (kc - d) * kc ^ (k + 1) + c)
                        ≠ null)) (List.range (d * kc ^ (k + 1)))
                  from List.filter_congr (fun c _ => by
                simp only [Function.comp_apply]
                exact decide_eq_decide.mpr (by
                  rw [show (nodeAt f null kr kc h t n).2
                        + (kc - (d + 1)) * kc ^ (k + 1) + (kc ^ (k + 1) + c)
                      = (nodeAt f null kr kc h t n).2 + (kc - d) * kc ^ (k + 1) + c by
                    have := hshift
                    omega]))]
              cases hhC : (List.filter (fun c =>
                  decide (f ((nodeAt f null kr kc h t n).1 + ρ * kr ^ (k + 1) + rowRes)
                    ((nodeAt f null kr kc h t n).2 + (kc - (d + 1)) * kc ^ (k + 1) + c)
                    ≠ null)) (List.range (kc ^ (k + 1)))).head? with
              | some c => rfl
              | none =>
                  cases hhR : (List.filter (fun c =>
                      decide (f ((nodeAt f null kr kc h t n).1 + ρ * kr ^ (k + 1)
                          + rowRes)
                        ((nodeAt f null kr kc h t n).2 + (kc - d) * kc ^ (k + 1) + c)
                        ≠ null)) (List.range (d * kc ^ (k + 1)))).head? with
                  | none => rfl
                  | some c =>
                      show dq + kc ^ (k + 1) + c = dq + (kc ^ (k + 1) + c)
                      omega

/-- The iterative first-successor search on a structure carrying the abstract
encoding of f returns, for any row of the padded extent, the first non-null
column of that row, or the padded column count when the row is empty. -/
theorem firstSucc_eq_filter (tr : KrKcTree E) (kr kc h : Nat) (hkr : 2 ≤ kr)
    (hkc : 2 ≤ kc) (hh : 1 ≤ h)
    (hT : tr.T = absT f null kr kc h) (hL : tr.L = absL f null kr kc h)
    (hkrt : tr.kr = kr) (hkct : tr.kc = kc) (hnull : tr.null = null)
    (hht : tr.h = h) (hR : tr.numRows = kr ^ h) (hC : tr.numCols = kc ^ h)
    (p : Nat) (hp : p < kr ^ h) :
    firstSuccessorPositionIterative tr p
      = ((List.range (kc ^ h)).filter
          (fun q => decide (f p q ≠ null))).headD (kc ^ h) := by
  cases hocc0 : occ f null kr kc 0 0 h h with
  | false =>
      have hLnil : tr.L = [] := by
        rw [hL]
        exact (absL_eq_nil_iff kr kc _ (by omega) (by omega) hh).mpr hocc0
      rw [firstSuccessorPositionIterative, if_pos (by rw [hLnil]; rfl)]
      rw [show (List.range (kc ^ h)).filter (fun q => decide (f p q ≠ null)) = [] from
        List.filter_eq_nil_iff.mpr (by
          intro q hq
          simp only [decide_eq_true_eq, Decidable.not_not]
          have := occ_false_all (f := f) hocc0 p hp q
            (List.mem_range.mp hq)
          simpa using this)]
      rw [hC]
      rfl
  | true =>
      have hLne : tr.L.isEmpty = false := by
        rw [hL]
        cases hE : (absL f null kr kc h).isEmpty with
        | false => rfl
        | true =>
            have := (absL_eq_nil_iff kr kc _ (by omega) (by omega) hh).mp
              (List.isEmpty_iff.mp hE)
            rw [this] at hocc0
            exact Bool.noConfusion hocc0
      have hn0 : (0 : Nat) < lvlCount f null kr kc h 0 := by
        rw [lvlCount_zero kr kc _ hocc0]
        omega
      have hnode : nodeAt f null kr kc h 0 0 = (0, 0) := by
        simp [nodeAt, rootLvl, lvl, hocc0]
      by_cases hone : h = 1
      · subst hone
        have hT0 : tr.T.length = 0 := by
          rw [hT, absT_length]
          rfl
        rw [firstSuccessorPositionIterative, if_neg (by rw [hLne]; simp), if_pos hT0]
        rw [hC, hL, hnull]
        rw [find?_eq_head?_filter]
        have hcongr : ∀ i ∈ List.range (kc ^ 1),
            (fun i => decide ((absL f null kr kc 1).getD (p * kc ^ 1 + i) null ≠ null)) i
            = (fun q => decide (f p q ≠ null)) i := by
          intro i hi
          apply decide_eq_decide.mpr
          have hikc : i < kc := by
            have := List.mem_range.mp hi
            simpa using this
          have hpkr : p < kr := by simpa using hp
          have hs : p * kc + i < kr * kc := group_slot_lt p i kr kc hpkr hikc
          rw [show (p * kc ^ 1 + i : Nat) = 0 * (kr * kc) + (p * kc + i) by
            rw [pow_one]; omega]
          rw [absL_getD kr kc 1 0 (p * kc + i) (by omega) (by simpa using hn0) hs]
          have hcr : childRegion f null kr kc 1 0 0 (p * kc + i) = (p, i) := by
            rw [childRegion, hnode]
            rw [childOrigins_getD (show 0 < kc by omega) hs]
            rw [Nat.mul_comm p kc]
            rw [Nat.mul_add_div (show 0 < kc by omega), Nat.div_eq_of_lt hikc,
              Nat.mul_add_mod, Nat.mod_eq_of_lt hikc]
            simp
          have hcr' : childRegion f null kr kc 1 (1 - 1) 0 (p * kc + i) = (p, i) := hcr
          rw [hcr']
        rw [List.filter_congr hcongr]
        rw [List.headD_eq_head?_getD]
        cases hh2 : ((List.range (kc ^ 1)).filter
            (fun q => decide (f p q ≠ null))).head? with
        | none => rfl
        | some c => rfl
      · have h2 : 2 ≤ h := by omega
        have hT0 : tr.T.length ≠ 0 := by
          rw [hT, absT_length]
          have h1 : lvlOff f null kr kc h 1 ≤ lvlOff f null kr kc h (h - 1) :=
            lvlOff_mono kr kc h 1 (h - 1) (by omega)
          have h2' : lvlOff f null kr kc h 1
              = lvlOff f null kr kc h 0 + lvlCount f null kr kc h 0 * (kr * kc) :=
            lvlOff_succ kr kc h 0
          have h3 : lvlOff f null kr kc h 0 = 0 := rfl
          have h4 : lvlCount f null kr kc h 0 = 1 := lvlCount_zero kr kc h hocc0
          have hK : 0 < kr * kc := Nat.mul_pos (by omega) (by omega)
          have h5 : 0 < lvlOff f null kr kc h 1 := by
            rw [h2', h3, h4]
            simpa using hK
          exact Nat.pos_iff_ne_zero.mp (Nat.lt_of_lt_of_le h5 h1)
        rw [firstSuccessorPositionIterative, if_neg (by rw [hLne]; simp), if_neg hT0]
        simp only []
        have hA : tr.numRows / tr.kr = kr ^ (h - 1) := by
          rw [hR, hkrt]
          conv_lhs => rw [show h = (h - 1) + 1 by omega, pow_succ]
          rw [Nat.mul_div_cancel _ (show 0 < kr by omega)]
        have hB : tr.numCols / tr.kc = kc ^ (h - 1) := by
          rw [hC, hkct]
          conv_lhs => rw [show h = (h - 1) + 1 by omega, pow_succ]
          rw [Nat.mul_div_cancel _ (show 0 < kc by omega)]
        rw [hA, hB, hkct]
        rw [show (⟨kr ^ (h - 1), kc ^ (h - 1), p % kr ^ (h - 1), 0,
            kc * (p / kr ^ (h - 1)), 0⟩ : ExtSubrow)
            = ⟨kr ^ (h - 1), kc ^ (h - 1), p % kr ^ (h - 1), 0,
               lvlOff f null kr kc h 0
                 + (0 * (kr * kc) + (kc * (p / kr ^ (h - 1)) + (kc - kc))),
               kc - kc⟩ from by
          have h0 : lvlOff f null kr kc h 0 = 0 := rfl
          have hkk : kc - kc = 0 := Nat.sub_self kc
          rw [h0, hkk]
          simp]
        have hsm : stackMu kc [(⟨kr ^ (h - 1), kc ^ (h - 1), p % kr ^ (h - 1), 0,
            lvlOff f null kr kc h 0
              + (0 * (kr * kc) + (kc * (p / kr ^ (h - 1)) + (kc - kc))),
            kc - kc⟩ : ExtSubrow)] = kc * (kc + 2) ^ (kr ^ (h - 1)) := by
          simp [stackMu, frameMu]
        rw [hsm]
        have hdigit : p / kr ^ (h - 1) < kr := by
          apply Nat.div_lt_of_lt_mul
          rw [← pow_succ, show h - 1 + 1 = h by omega]
          exact hp
        have hmodlt : p % kr ^ (h - 1) < kr ^ (h - 1) :=
          Nat.mod_lt _ (Nat.pos_pow_of_pos _ (by omega))
        have hfuelb : fsCap kc (h - 1) * kc + 1
            ≤ 2 * (kc * (kc + 2) ^ (kr ^ (h - 1))) + 2 := by
          have hfsle := fsCap_le kc (h - 1)
          rw [show h - 1 + 1 = h by omega] at hfsle
          have hhle : h ≤ kr ^ (h - 1) := by
            have h2p := Nat.lt_two_pow (h - 1)
            have hle2 := Nat.pow_le_pow_left (show 2 ≤ kr by omega) (h - 1)
            omega
          have hple : (kc + 2) ^ h ≤ (kc + 2) ^ (kr ^ (h - 1)) :=
            Nat.pow_le_pow_right (by omega) hhle
          have hm1 : fsCap kc (h - 1) * kc ≤ (kc + 2) ^ h * kc :=
            Nat.mul_le_mul_right kc hfsle
          have hm2 : (kc + 2) ^ h * kc ≤ (kc + 2) ^ (kr ^ (h - 1)) * kc :=
            Nat.mul_le_mul_right kc hple
          have hm3 : (kc + 2) ^ (kr ^ (h - 1)) * kc = kc * (kc + 2) ^ (kr ^ (h - 1)) :=
            Nat.mul_comm _ _
          omega
        obtain ⟨cost, hcostle, heqM⟩ := frame_run tr kr kc h hkr hkc hT hL hkrt hkct
          hnull hocc0 (h - 1) kc 0 0 (p / kr ^ (h - 1)) (p % kr ^ (h - 1)) 0
          (2 * (kc * (kc + 2) ^ (kr ^ (h - 1))) + 2) [] (by omega) (Nat.le_refl kc)
          hn0 hdigit hmodlt hfuelb
        rw [heqM]
        rw [fsm_nil]
        have hn1 : (nodeAt f null kr kc h 0 0).1 = 0 := by rw [hnode]
        have hn2 : (nodeAt f null kr kc h 0 0).2 = 0 := by rw [hnode]
        rw [hn1, hn2]
        rw [show (0 : Nat) + p / kr ^ (h - 1) * kr ^ (h - 1) + p % kr ^ (h - 1) = p
            from by
          have := Nat.div_add_mod' p (kr ^ (h - 1))
          omega]
        rw [show (0 : Nat) + (kc - kc) * kc ^ (h - 1) = 0 from by
          rw [Nat.sub_self, Nat.zero_mul]]
        simp only [Nat.zero_add]
        rw [show kc * kc ^ (h - 1) = kc ^ h from by
          rw [← pow_succ', show h - 1 + 1 = h by omega]]
        rw [List.headD_eq_head?_getD]
        cases hh2 : ((List.range (kc ^ h)).filter
            (fun q => decide (f p q ≠ null))).head? with
        | none =>
            show tr.numCols = _
            rw [hC]
            rfl
        | some c => rfl

theorem map_flatten_eq_flatMap {α β : Type} (l : List α) (g : α → List β) :
    (l.map g).flatten = l.flatMap g := by
  induction l with
  | nil => rfl
  | cons x xs ih => simp only [List.map_cons, List.flatten_cons, List.flatMap_cons, ih]

theorem flatMap_map_comp {α β γ : Type} (l : List α) (g : α → β) (m : β → List γ) :
    (l.map g).flatMap m = l.flatMap (fun x => m (g x)) := by
  induction l with
  | nil => rfl
  | cons x xs ih => simp only [List.map_cons, List.flatMap_cons, ih]

/-- Phase A: on the padded power-of-arity extent the matrix builder computes
exactly the abstract level description of the padded relation: the chunk for
relative level u is lvlBits u, the leaf part is lvlVals d, and the returned
flag is the region's occupancy. -/
theorem buildFromMatrix_spec (mat : List (List E)) (kr kc : Nat)
    (hkr : 1 ≤ kr) (hkc : 1 ≤ kc) : ∀ (d p q : Nat),
    buildFromMatrix mat null kr kc d (kr ^ (d + 1)) (kc ^ (d + 1)) p q
      = ((List.range d).map (fun u =>
            lvlBits (matF mat null) null kr kc u p q (d + 1) (d + 1)),
          lvlVals (matF mat null) null kr kc d p q (d + 1) (d + 1),
          occ (matF mat null) null kr kc p q (d + 1) (d + 1)) := by
  intro d
  induction d with
  | zero =>
      intro p q
      show buildFromMatrix mat null kr kc 0 (kr ^ 1) (kc ^ 1) p q
          = ([], lvlVals (matF mat null) null kr kc 0 p q 1 1,
              occ (matF mat null) null kr kc p q 1 1)
      have hC : ((slots kr kc).map (fun ij =>
            matRead mat null (p + ij.1) (q + ij.2))).all (fun e => decide (e = null))
          = !occ (matF mat null) null kr kc p q 1 1 := by
        cases hocc : occ (matF mat null) null kr kc p q 1 1 with
        | false =>
            rw [Bool.not_false, List.all_eq_true]
            intro e he
            obtain ⟨ij, hij, rfl⟩ := List.mem_map.mp he
            obtain ⟨h1, h2⟩ := mem_slots.mp hij
            exact decide_eq_true
              (occ_false_all (f := matF mat null) hocc ij.1 (by simpa using h1) ij.2
                (by simpa using h2))
        | true =>
            rw [Bool.not_true]
            obtain ⟨i, hi, j, hj, hne⟩ := occ_iff.mp hocc
            rw [pow_one] at hi hj
            refine List.all_eq_false.mpr ⟨matRead mat null (p + i) (q + j), ?_, ?_⟩
            · exact List.mem_map.mpr ⟨(i, j), mem_slots.mpr ⟨hi, hj⟩, rfl⟩
            · simpa [matF, matRead] using hne
      simp only [buildFromMatrix]
      rw [hC]
      cases hocc : occ (matF mat null) null kr kc p q 1 1 with
      | false => simp [lvlVals, hocc]
      | true =>
          have hocc' : occ (matRead mat null) null kr kc p q 1 1 = true := hocc
          simp [lvlVals, hocc, hocc', childOrigins, List.map_map, matF, Function.comp]
  | succ d ih =>
      intro p q
      have hrd : kr ^ (d + 1 + 1) / kr = kr ^ (d + 1) := by
        rw [pow_succ, Nat.mul_div_cancel _ (show 0 < kr by omega)]
      have hcd : kc ^ (d + 1 + 1) / kc = kc ^ (d + 1) := by
        rw [pow_succ, Nat.mul_div_cancel _ (show 0 < kc by omega)]
      simp only [buildFromMatrix, hrd, hcd]
      have hsub : (slots kr kc).map (fun ij =>
            buildFromMatrix mat null kr kc d (kr ^ (d + 1)) (kc ^ (d + 1))
              (p + ij.1 * kr ^ (d + 1)) (q + ij.2 * kc ^ (d + 1)))
          = (slots kr kc).map (fun ij =>
              ((List.range d).map (fun u => lvlBits (matF mat null) null kr kc u
                  (p + ij.1 * kr ^ (d + 1)) (q + ij.2 * kc ^ (d + 1)) (d + 1) (d + 1)),
                lvlVals (matF mat null) null kr kc d
                  (p + ij.1 * kr ^ (d + 1)) (q + ij.2 * kc ^ (d + 1)) (d + 1) (d + 1),
                occ (matF mat null) null kr kc
                  (p + ij.1 * kr ^ (d + 1)) (q + ij.2 * kc ^ (d + 1)) (d + 1) (d + 1))) :=
        List.map_congr_left (fun ij _ => ih _ _)
      rw [hsub]
      simp only [List.map_map, Function.comp_def]
      have hbits0 : (slots kr kc).map (fun ij =>
            occ (matF mat null) null kr kc (p + ij.1 * kr ^ (d + 1))
              (q + ij.2 * kc ^ (d + 1)) (d + 1) (d + 1))
          = (childOrigins kr kc p q (d + 1) (d + 1)).map (fun c =>
              occ (matF mat null) null kr kc c.1 c.2 (d + 1) (d + 1)) := by
        rw [childOrigins, List.map_map]
        rfl
      have hall : ((slots kr kc).map (fun ij =>
            occ (matF mat null) null kr kc (p + ij.1 * kr ^ (d + 1))
              (q + ij.2 * kc ^ (d + 1)) (d + 1) (d + 1))).all (fun b => !b)
          = !occ (matF mat null) null kr kc p q (d + 1 + 1) (d + 1 + 1) := by
        cases hocc : occ (matF mat null) null kr kc p q (d + 1 + 1) (d + 1 + 1) with
        | false =>
            rw [Bool.not_false, List.all_eq_true]
            intro b hb
            obtain ⟨ij, hij, rfl⟩ := List.mem_map.mp hb
            obtain ⟨h1, h2⟩ := mem_slots.mp hij
            rw [Bool.not_eq_true', Bool.eq_false_iff]
            intro hocc'
            have := occ_of_child (f := matF mat null) hkr hkc
              (mem_childOrigins.mpr ⟨ij.1, h1, ij.2, h2, rfl⟩) hocc'
            rw [this] at hocc
            exact Bool.noConfusion hocc
        | true =>
            rw [Bool.not_true]
            obtain ⟨c, hc, hcocc⟩ := occ_split (f := matF mat null) hkr hkc hocc
            obtain ⟨si, hsi, sj, hsj, rfl⟩ := mem_childOrigins.mp hc
            refine List.all_eq_false.mpr ⟨true, ?_, by simp⟩
            refine List.mem_map.mpr ⟨(si, sj), mem_slots.mpr ⟨hsi, hsj⟩, ?_⟩
            exact hcocc
      have hchunks : (List.range d).map (fun u =>
            ((slots kr kc).map (fun ij =>
              ((List.range d).map (fun u' => lvlBits (matF mat null) null kr kc u'
                  (p + ij.1 * kr ^ (d + 1)) (q + ij.2 * kc ^ (d + 1))
                  (d + 1) (d + 1))).getD u [])).flatten)
          = (List.range d).map (fun u =>
              lvlBits (matF mat null) null kr kc (u + 1) p q (d + 1 + 1) (d + 1 + 1)) := by
        refine List.map_congr_left (fun u hu => ?_)
        have hud : u < d := List.mem_range.mp hu
        have hg : (slots kr kc).map (fun ij =>
              ((List.range d).map (fun u' => lvlBits (matF mat null) null kr kc u'
                  (p + ij.1 * kr ^ (d + 1)) (q + ij.2 * kc ^ (d + 1))
                  (d + 1) (d + 1))).getD u [])
            = (slots kr kc).map (fun ij => lvlBits (matF mat null) null kr kc u
                (p + ij.1 * kr ^ (d + 1)) (q + ij.2 * kc ^ (d + 1)) (d + 1) (d + 1)) :=
          List.map_congr_left (fun ij _ => getD_map_range d u _ _ hud)
        rw [hg, map_flatten_eq_flatMap]
        show _ = (childOrigins kr kc p q (d + 1 + 1 - 1) (d + 1 + 1 - 1)).flatMap
          (fun c => lvlBits (matF mat null) null kr kc u c.1 c.2
            (d + 1 + 1 - 1) (d + 1 + 1 - 1))
        rw [show d + 1 + 1 - 1 = d + 1 from rfl, childOrigins, flatMap_map_comp]
      have hleaves : ((slots kr kc).map (fun ij =>
            lvlVals (matF mat null) null kr kc d (p + ij.1 * kr ^ (d + 1))
              (q + ij.2 * kc ^ (d + 1)) (d + 1) (d + 1))).flatten
          = lvlVals (matF mat null) null kr kc (d + 1) p q (d + 1 + 1) (d + 1 + 1) := by
        rw [map_flatten_eq_flatMap]
        show _ = (childOrigins kr kc p q (d + 1 + 1 - 1) (d + 1 + 1 - 1)).flatMap
          (fun c => lvlVals (matF mat null) null kr kc d c.1 c.2
            (d + 1 + 1 - 1) (d + 1 + 1 - 1))
        rw [show d + 1 + 1 - 1 = d + 1 from rfl, childOrigins, flatMap_map_comp]
      rw [hall, hchunks, hleaves]
      cases hocc : occ (matF mat null) null kr kc p q (d + 1 + 1) (d + 1 + 1) with
      | false =>
          simp only [Bool.not_false, if_true, List.range_succ_eq_map, List.map_cons,
            List.map_map, Function.comp_def]
          refine Prod.ext ?_ rfl
          show ([] : List Bool) :: _ = lvlBits (matF mat null) null kr kc 0 p q
            (d + 1 + 1) (d + 1 + 1) :: _
          rw [show lvlBits (matF mat null) null kr kc 0 p q (d + 1 + 1) (d + 1 + 1)
              = ([] : List Bool) by simp [lvlBits, hocc]]
      | true =>
          simp only [Bool.not_true, Bool.false_eq_true, if_false, List.range_succ_eq_map,
            List.map_cons, List.map_map, Function.comp_def]
          refine Prod.ext ?_ rfl
          show _ :: _ = lvlBits (matF mat null) null kr kc 0 p q
            (d + 1 + 1) (d + 1 + 1) :: _
          rw [show lvlBits (matF mat null) null kr kc 0 p q (d + 1 + 1) (d + 1 + 1)
              = (childOrigins kr kc p q (d + 1) (d + 1)).map (fun c =>
                  occ (matF mat null) null kr kc c.1 c.2 (d + 1) (d + 1)) by
            simp [lvlBits, hocc]]
          rw [← hbits0]

/-- The Mode M constructor produces exactly the abstract structure of the
padded matrix relation: T is absT, L is absL, and the configuration fields
are the derived height and padded dimensions. -/
theorem krKcTreeOfMatrix_fields (mat : List (List E)) (kr kc : Nat) (null : E)
    (hkr : 1 ≤ kr) (hkc : 1 ≤ kc) :
    (krKcTreeOfMatrix mat kr kc null).T
        = absT (matF mat null) null kr kc (krKcTreeOfMatrix mat kr kc null).h
      ∧ (krKcTreeOfMatrix mat kr kc null).L
        = absL (matF mat null) null kr kc (krKcTreeOfMatrix mat kr kc null).h
      ∧ (krKcTreeOfMatrix mat kr kc null).numRows
          = kr ^ (krKcTreeOfMatrix mat kr kc null).h
      ∧ (krKcTreeOfMatrix mat kr kc null).numCols
          = kc ^ (krKcTreeOfMatrix mat kr kc null).h
      ∧ 1 ≤ (krKcTreeOfMatrix mat kr kc null).h
      ∧ (krKcTreeOfMatrix mat kr kc null).kr = kr
      ∧ (krKcTreeOfMatrix mat kr kc null).kc = kc
      ∧ (krKcTreeOfMatrix mat kr kc null).null = null := by
  have hh1 : 1 ≤ max 1 (max (logK mat.length kr) (logK (mat.headD []).length kc)) :=
    Nat.le_max_left _ _
  have hr := @buildFromMatrix_spec E _ null mat kr kc hkr hkc
    (max 1 (max (logK mat.length kr) (logK (mat.headD []).length kc)) - 1) 0 0
  rw [show (max 1 (max (logK mat.length kr) (logK (mat.headD []).length kc)) - 1) + 1
      = max 1 (max (logK mat.length kr) (logK (mat.headD []).length kc)) by omega] at hr
  simp only [krKcTreeOfMatrix, hr]
  refine ⟨?_, ?_, ?_, ?_, ?_, ?_, ?_, ?_⟩
  · rw [absT]
    exact congrArg List.flatten (List.map_congr_left (fun u _ => rfl))
  all_goals trivial

/-- Claim C1: for every dense input matrix and every in-range cell (i, j) of
the padded extent, a structure built by the matrix-based constructor (Mode M)
answers getElement(i, j) with the matrix entry when (i, j) lies within the
original matrix's extent and with null otherwise (padded region). -/
theorem c1_getElement_matrix (mat : List (List E)) (kr kc : Nat) (null : E)
    (hkr : 2 ≤ kr) (hkc : 2 ≤ kc) (i j : Nat)
    (hi : i < (krKcTreeOfMatrix mat kr kc null).numRows)
    (hj : j < (krKcTreeOfMatrix mat kr kc null).numCols) :
    getElement (krKcTreeOfMatrix mat kr kc null) i j
      = if i < mat.length ∧ j < (mat.headD []).length
        then (mat.getD i []).getD j null else null := by
  obtain ⟨hT, hL, hR, hC, hh1, hKr, hKc, hN⟩ :=
    krKcTreeOfMatrix_fields mat kr kc null (by omega) (by omega)
  rw [hR] at hi
  rw [hC] at hj
  cases hocc0 : occ (matF mat null) null kr kc 0 0
      (krKcTreeOfMatrix mat kr kc null).h (krKcTreeOfMatrix mat kr kc null).h with
  | false =>
      have hLnil : (krKcTreeOfMatrix mat kr kc null).L = [] := by
        rw [hL]
        exact (absL_eq_nil_iff kr kc _ (by omega) (by omega) hh1).mpr hocc0
      rw [getElement, getInit, if_pos (by rw [hLnil]; rfl), hN]
      have hcell := occ_false_all (f := matF mat null) hocc0 i hi j hj
      simp only [Nat.zero_add] at hcell
      simpa [matF, matRead] using hcell.symm
  | true =>
      have hLne : ¬((krKcTreeOfMatrix mat kr kc null).L.isEmpty = true) := by
        rw [hL, List.isEmpty_iff]
        intro hnil
        rw [(absL_eq_nil_iff kr kc _ (by omega) (by omega) hh1).mp hnil] at hocc0
        exact Bool.noConfusion hocc0
      have hA : (krKcTreeOfMatrix mat kr kc null).numRows
            / (krKcTreeOfMatrix mat kr kc null).kr
          = kr ^ ((krKcTreeOfMatrix mat kr kc null).h - 1) := by
        rw [hR, hKr]
        conv_lhs => rw [show (krKcTreeOfMatrix mat kr kc null).h
          = ((krKcTreeOfMatrix mat kr kc null).h - 1) + 1 by omega, pow_succ]
        rw [Nat.mul_div_cancel _ (show 0 < kr by omega)]
      have hB : (krKcTreeOfMatrix mat kr kc null).numCols
            / (krKcTreeOfMatrix mat kr kc null).kc
          = kc ^ ((krKcTreeOfMatrix mat kr kc null).h - 1) := by
        rw [hC, hKc]
        conv_lhs => rw [show (krKcTreeOfMatrix mat kr kc null).h
          = ((krKcTreeOfMatrix mat kr kc null).h - 1) + 1 by omega, pow_succ]
        rw [Nat.mul_div_cancel _ (show 0 < kc by omega)]
      have hApos : 0 < kr ^ ((krKcTreeOfMatrix mat kr kc null).h - 1) :=
        Nat.pos_pow_of_pos _ (by omega)
      have hBpos : 0 < kc ^ ((krKcTreeOfMatrix mat kr kc null).h - 1) :=
        Nat.pos_pow_of_pos _ (by omega)
      have hdr : i / kr ^ ((krKcTreeOfMatrix mat kr kc null).h - 1) < kr := by
        apply Nat.div_lt_of_lt_mul
        rw [← pow_succ, show (krKcTreeOfMatrix mat kr kc null).h - 1 + 1
          = (krKcTreeOfMatrix mat kr kc null).h by omega]
        exact hi
      have hdc : j / kc ^ ((krKcTreeOfMatrix mat kr kc null).h - 1) < kc := by
        apply Nat.div_lt_of_lt_mul
        rw [← pow_succ, show (krKcTreeOfMatrix mat kr kc null).h - 1 + 1
          = (krKcTreeOfMatrix mat kr kc null).h by omega]
        exact hj
      have hs : i / kr ^ ((krKcTreeOfMatrix mat kr kc null).h - 1) * kc
            + j / kc ^ ((krKcTreeOfMatrix mat kr kc null).h - 1) < kr * kc :=
        group_slot_lt _ _ _ _ hdr hdc
      rw [getElement, getInit, if_neg hLne, hA, hB, hKc]
      have hnav := get_nav (f := matF mat null)
        (krKcTreeOfMatrix mat kr kc null) kr kc (krKcTreeOfMatrix mat kr kc null).h
        (by omega) (by omega) hh1 hT hL hKr hKc hN hocc0
        (krKcTreeOfMatrix mat kr kc null).h hh1 0 0
        (i / kr ^ ((krKcTreeOfMatrix mat kr kc null).h - 1) * kc
          + j / kc ^ ((krKcTreeOfMatrix mat kr kc null).h - 1))
        (i % kr ^ ((krKcTreeOfMatrix mat kr kc null).h - 1))
        (j % kc ^ ((krKcTreeOfMatrix mat kr kc null).h - 1))
        (by omega)
        (by rw [lvlCount_zero kr kc _ hocc0]; omega)
        hs (Nat.mod_lt _ hApos) (Nat.mod_lt _ hBpos)
      rw [show lvlOff (matF mat null) null kr kc (krKcTreeOfMatrix mat kr kc null).h 0
            + (0 * (kr * kc)
              + (i / kr ^ ((krKcTreeOfMatrix mat kr kc null).h - 1) * kc
                + j / kc ^ ((krKcTreeOfMatrix mat kr kc null).h - 1)))
          = i / kr ^ ((krKcTreeOfMatrix mat kr kc null).h - 1) * kc
            + j / kc ^ ((krKcTreeOfMatrix mat kr kc null).h - 1) by
        rw [show lvlOff (matF mat null) null kr kc (krKcTreeOfMatrix mat kr kc null).h 0
          = 0 from rfl]
        omega] at hnav
      rw [hnav]
      have hnode : nodeAt (matF mat null) null kr kc
          (krKcTreeOfMatrix mat kr kc null).h 0 0 = (0, 0) := by
        simp [nodeAt, rootLvl, lvl, hocc0]
      have hdiv : (i / kr ^ ((krKcTreeOfMatrix mat kr kc null).h - 1) * kc
            + j / kc ^ ((krKcTreeOfMatrix mat kr kc null).h - 1)) / kc
          = i / kr ^ ((krKcTreeOfMatrix mat kr kc null).h - 1) := by
        rw [Nat.mul_comm (i / kr ^ ((krKcTreeOfMatrix mat kr kc null).h - 1)) kc,
          Nat.mul_add_div (by omega), Nat.div_eq_of_lt hdc]
        omega
      have hmod : (i / kr ^ ((krKcTreeOfMatrix mat kr kc null).h - 1) * kc
            + j / kc ^ ((krKcTreeOfMatrix mat kr kc null).h - 1)) % kc
          = j / kc ^ ((krKcTreeOfMatrix mat kr kc null).h - 1) := by
        rw [Nat.mul_comm (i / kr ^ ((krKcTreeOfMatrix mat kr kc null).h - 1)) kc,
          Nat.mul_add_mod, Nat.mod_eq_of_lt hdc]
      have hcr : childRegion (matF mat null) null kr kc
            (krKcTreeOfMatrix mat kr kc null).h 0 0
            (i / kr ^ ((krKcTreeOfMatrix mat kr kc null).h - 1) * kc
              + j / kc ^ ((krKcTreeOfMatrix mat kr kc null).h - 1))
          = (i / kr ^ ((krKcTreeOfMatrix mat kr kc null).h - 1)
                * kr ^ ((krKcTreeOfMatrix mat kr kc null).h - 1),
              j / kc ^ ((krKcTreeOfMatrix mat kr kc null).h - 1)
                * kc ^ ((krKcTreeOfMatrix mat kr kc null).h - 1)) := by
        rw [childRegion, hnode]
        rw [show (krKcTreeOfMatrix mat kr kc null).h - 0 - 1
          = (krKcTreeOfMatrix mat kr kc null).h - 1 by omega]
        rw [childOrigins_getD (show 0 < kc by omega) hs, hdiv, hmod]
        simp
      rw [hcr]
      have e1 : i / kr ^ ((krKcTreeOfMatrix mat kr kc null).h - 1)
            * kr ^ ((krKcTreeOfMatrix mat kr kc null).h - 1)
            + i % kr ^ ((krKcTreeOfMatrix mat kr kc null).h - 1) = i := by
        have := Nat.div_add_mod' i (kr ^ ((krKcTreeOfMatrix mat kr kc null).h - 1))
        omega
      have e2 : j / kc ^ ((krKcTreeOfMatrix mat kr kc null).h - 1)
            * kc ^ ((krKcTreeOfMatrix mat kr kc null).h - 1)
            + j % kc ^ ((krKcTreeOfMatrix mat kr kc null).h - 1) = j := by
        have := Nat.div_add_mod' j (kc ^ ((krKcTreeOfMatrix mat kr kc null).h - 1))
        omega
      show matF mat null _ _ = _
      rw [e1, e2]
      rfl

/-- Concrete instantiation of the C1 roundtrip theorem: the 2-by-2 matrix
[[0, 5], [0, 0]] with kr = kc = 2 and null = 0, queried at cell (0, 1). -/
theorem c1_getElement_matrix_witness :
    getElement (krKcTreeOfMatrix [[0, 5], [0, 0]] 2 2 0) 0 1
      = if 0 < ([[0, 5], [0, 0]] : List (List Nat)).length
            ∧ 1 < (([[0, 5], [0, 0]] : List (List Nat)).headD []).length
        then (([[0, 5], [0, 0]] : List (List Nat)).getD 0 []).getD 1 0 else 0 :=
  c1_getElement_matrix [[0, 5], [0, 0]] 2 2 0 (by decide) (by decide) 0 1
    (by decide) (by decide)

/-- Claim C9: on a structure built by the matrix constructor, setNull(i, j)
leaves T, h, kr, kc, numRows, numCols and the length of L unchanged, makes
getElement(i, j) answer null afterwards, and leaves getElement(i', j')
unchanged for every other in-range cell (i', j'). -/
theorem c9_setNull_frame_effect (mat : List (List E)) (kr kc : Nat) (null : E)
    (hkr : 2 ≤ kr) (hkc : 2 ≤ kc) (i j i' j' : Nat)
    (hi : i < (krKcTreeOfMatrix mat kr kc null).numRows)
    (hj : j < (krKcTreeOfMatrix mat kr kc null).numCols)
    (hi' : i' < (krKcTreeOfMatrix mat kr kc null).numRows)
    (hj' : j' < (krKcTreeOfMatrix mat kr kc null).numCols)
    (hne : (i', j') ≠ (i, j)) :
    (setNull (krKcTreeOfMatrix mat kr kc null) i j).T
        = (krKcTreeOfMatrix mat kr kc null).T
      ∧ (setNull (krKcTreeOfMatrix mat kr kc null) i j).h
        = (krKcTreeOfMatrix mat kr kc null).h
      ∧ (setNull (krKcTreeOfMatrix mat kr kc null) i j).kr
        = (krKcTreeOfMatrix mat kr kc null).kr
      ∧ (setNull (krKcTreeOfMatrix mat kr kc null) i j).kc
        = (krKcTreeOfMatrix mat kr kc null).kc
      ∧ (setNull (krKcTreeOfMatrix mat kr kc null) i j).numRows
        = (krKcTreeOfMatrix mat kr kc null).numRows
      ∧ (setNull (krKcTreeOfMatrix mat kr kc null) i j).numCols
        = (krKcTreeOfMatrix mat kr kc null).numCols
      ∧ (setNull (krKcTreeOfMatrix mat kr kc null) i j).L.length
        = (krKcTreeOfMatrix mat kr kc null).L.length
      ∧ getElement (setNull (krKcTreeOfMatrix mat kr kc null) i j) i j = null
      ∧ getElement (setNull (krKcTreeOfMatrix mat kr kc null) i j) i' j'
        = getElement (krKcTreeOfMatrix mat kr kc null) i' j' := by
  obtain ⟨hT, hL, hR, hC, hh1, hKr, hKc, hN⟩ :=
    krKcTreeOfMatrix_fields mat kr kc null (by omega) (by omega)
  generalize hg : krKcTreeOfMatrix mat kr kc null = tr
    at hT hL hR hC hh1 hKr hKc hN hi hj hi' hj' ⊢
  rw [hR] at hi hi'
  rw [hC] at hj hj'
  cases hocc0 : occ (matF mat null) null kr kc 0 0 tr.h tr.h with
  | false =>
      have hLnil : tr.L = [] := by
        rw [hL]
        exact (absL_eq_nil_iff kr kc _ (by omega) (by omega) hh1).mpr hocc0
      have hid : setNull tr i j = tr := by
        rw [setNull, setInit, if_pos (by rw [hLnil]; rfl)]
      rw [hid]
      refine ⟨rfl, rfl, rfl, rfl, rfl, rfl, rfl, ?_, rfl⟩
      rw [getElement, getInit, if_pos (by rw [hLnil]; rfl), hN]
  | true =>
      have hLne : tr.L.isEmpty = false := by
        rw [hL]
        cases hE : (absL (matF mat null) null kr kc tr.h).isEmpty with
        | false => rfl
        | true =>
            have := (absL_eq_nil_iff kr kc _ (by omega) (by omega) hh1).mp
              (List.isEmpty_iff.mp hE)
            rw [this] at hocc0
            exact Bool.noConfusion hocc0
      have hset : setNull tr i j
          = (rootScan (matF mat null) null kr kc tr.h i j).elim tr
              (fun l => { tr with L := tr.L.set l tr.null }) := by
        rw [setNull]
        exact rootScan_setInit tr kr kc tr.h i j (by omega) (by omega) hh1 hT hKr hKc
          rfl hR hC hocc0 hLne hi hj
      cases hro : rootScan (matF mat null) null kr kc tr.h i j with
      | none =>
          rw [hro] at hset
          have hset2 : setNull tr i j = tr := hset
          rw [hset2]
          refine ⟨rfl, rfl, rfl, rfl, rfl, rfl, rfl, ?_, rfl⟩
          rw [getElement, rootScan_getInit tr kr kc tr.h i j (by omega) (by omega) hh1
            hT hKr hKc rfl hR hC hocc0 hLne hi hj, hro]
          exact hN
      | some l =>
          rw [hro] at hset
          have hset2 : setNull tr i j = { tr with L := tr.L.set l tr.null } := hset
          obtain ⟨hlt, hcell⟩ := rootScan_cell (f := matF mat null) kr kc tr.h i j l
            (by omega) (by omega) hh1 hocc0 hi hj hro
          have hlenL : l < tr.L.length := by
            rw [hL, absL_length kr kc _ hh1]
            exact hlt
          have hLne' : (tr.L.set l tr.null).isEmpty = false := by
            cases hE : (tr.L.set l tr.null).isEmpty with
            | false => rfl
            | true =>
                have hnil := List.isEmpty_iff.mp hE
                have hlen0 : tr.L.length = 0 := by
                  simpa using congrArg List.length hnil
                omega
          rw [hset2]
          refine ⟨rfl, rfl, rfl, rfl, rfl, rfl, by simp, ?_, ?_⟩
          · rw [getElement, rootScan_getInit { tr with L := tr.L.set l tr.null }
              kr kc tr.h i j (by omega) (by omega) hh1 hT hKr hKc rfl hR hC hocc0
              hLne' hi hj, hro]
            show (tr.L.set l tr.null).getD l tr.null = null
            rw [getD_set_self _ _ _ _ hlenL, hN]
          · rw [getElement, getElement, rootScan_getInit { tr with L := tr.L.set l tr.null }
              kr kc tr.h i' j' (by omega) (by omega) hh1 hT hKr hKc rfl hR hC hocc0
              hLne' hi' hj', rootScan_getInit tr kr kc tr.h i' j' (by omega) (by omega)
              hh1 hT hKr hKc rfl hR hC hocc0 hLne hi' hj']
            cases hro' : rootScan (matF mat null) null kr kc tr.h i' j' with
            | none => rfl
            | some l' =>
                have hll : l ≠ l' := by
                  intro heq
                  obtain ⟨_, hcell'⟩ := rootScan_cell (f := matF mat null) kr kc tr.h
                    i' j' l' (by omega) (by omega) hh1 hocc0 hi' hj' hro'
                  rw [← heq] at hcell'
                  exact hne (hcell'.symm.trans hcell)
                show (tr.L.set l tr.null).getD l' tr.null = tr.L.getD l' tr.null
                exact getD_set_ne _ _ _ _ _ hll

/-- Concrete instantiation of the C9 frame-effect theorem: clearing cell
(0, 2) of the structure built from [[0, 0, 5, 0]] with kr = kc = 2 and
null = 0, observing cell (0, 0). -/
theorem c9_setNull_frame_effect_witness :
    (setNull (krKcTreeOfMatrix exMatRow5 2 2 0) 0 2).T
        = (krKcTreeOfMatrix exMatRow5 2 2 0).T
      ∧ (setNull (krKcTreeOfMatrix exMatRow5 2 2 0) 0 2).h
        = (krKcTreeOfMatrix exMatRow5 2 2 0).h
      ∧ (setNull (krKcTreeOfMatrix exMatRow5 2 2 0) 0 2).kr
        = (krKcTreeOfMatrix exMatRow5 2 2 0).kr
      ∧ (setNull (krKcTreeOfMatrix exMatRow5 2 2 0) 0 2).kc
        = (krKcTreeOfMatrix exMatRow5 2 2 0).kc
      ∧ (setNull (krKcTreeOfMatrix exMatRow5 2 2 0) 0 2).numRows
        = (krKcTreeOfMatrix exMatRow5 2 2 0).numRows
      ∧ (setNull (krKcTreeOfMatrix exMatRow5 2 2 0) 0 2).numCols
        = (krKcTreeOfMatrix exMatRow5 2 2 0).numCols
      ∧ (setNull (krKcTreeOfMatrix exMatRow5 2 2 0) 0 2).L.length
        = (krKcTreeOfMatrix exMatRow5 2 2 0).L.length
      ∧ getElement (setNull (krKcTreeOfMatrix exMatRow5 2 2 0) 0 2) 0 2 = 0
      ∧ getElement (setNull (krKcTreeOfMatrix exMatRow5 2 2 0) 0 2) 0 0
        = getElement (krKcTreeOfMatrix exMatRow5 2 2 0) 0 0 :=
  c9_setNull_frame_effect exMatRow5 2 2 0 (by decide) (by decide) 0 2 0 0
    (by decide) (by decide) (by decide) (by decide) (by decide)

/-- Claim C4: on a structure built by the matrix constructor, the list
returned by getPositionsInRange(i1, i2, j1, j2), viewed as a set, equals the
set of in-rectangle cells whose getElement is not null. -/
theorem c4_positions_range_set (mat : List (List E)) (kr kc : Nat) (null : E)
    (hkr : 2 ≤ kr) (hkc : 2 ≤ kc) (i1 i2 j1 j2 : Nat)
    (h12 : i1 ≤ i2) (hi2 : i2 < (krKcTreeOfMatrix mat kr kc null).numRows)
    (hj12 : j1 ≤ j2) (hj2 : j2 < (krKcTreeOfMatrix mat kr kc null).numCols)
    (x : Nat × Nat) :
    x ∈ getPositionsInRange (krKcTreeOfMatrix mat kr kc null) i1 i2 j1 j2
      ↔ i1 ≤ x.1 ∧ x.1 ≤ i2 ∧ j1 ≤ x.2 ∧ x.2 ≤ j2 ∧
        getElement (krKcTreeOfMatrix mat kr kc null) x.1 x.2 ≠ null := by
  obtain ⟨hT, hL, hR, hC, hh1, hKr, hKc, hN⟩ :=
    krKcTreeOfMatrix_fields mat kr kc null (by omega) (by omega)
  generalize hg : krKcTreeOfMatrix mat kr kc null = tr
    at hT hL hR hC hh1 hKr hKc hN hi2 hj2 ⊢
  rw [hR] at hi2
  rw [hC] at hj2
  cases hocc0 : occ (matF mat null) null kr kc 0 0 tr.h tr.h with
  | false =>
      have hLnil : tr.L = [] := by
        rw [hL]
        exact (absL_eq_nil_iff kr kc _ (by omega) (by omega) hh1).mpr hocc0
      rw [getPositionsInRange, rangePosInit, if_pos (by rw [hLnil]; rfl)]
      simp only [List.not_mem_nil, false_iff]
      rintro ⟨hx1, hx2, hx3, hx4, hxne⟩
      apply hxne
      rw [getElement_eq tr kr kc tr.h x.1 x.2 hkr hkc hh1 hT hL hKr hKc hN rfl hR hC
        (by omega) (by omega)]
      have := occ_false_all (f := matF mat null) hocc0 x.1 (by omega)
        x.2 (by omega)
      simpa using this
  | true =>
      have hLne : tr.L.isEmpty = false := by
        rw [hL]
        cases hE : (absL (matF mat null) null kr kc tr.h).isEmpty with
        | false => rfl
        | true =>
            have := (absL_eq_nil_iff kr kc _ (by omega) (by omega) hh1).mp
              (List.isEmpty_iff.mp hE)
            rw [this] at hocc0
            exact Bool.noConfusion hocc0
      rw [getPositionsInRange, rangePosInit_mem tr kr kc tr.h hkr hkc hh1 hT hL hKr
        hKc hN rfl hR hC hocc0 hLne i1 i2 j1 j2 h12 hi2 hj12 hj2 x]
      constructor
      · rintro ⟨p, hpl, hpu, q, hql, hqu, hf, hx⟩
        subst hx
        refine ⟨hpl, hpu, hql, hqu, ?_⟩
        rw [getElement_eq tr kr kc tr.h p q hkr hkc hh1 hT hL hKr hKc hN rfl hR hC
          (by omega) (by omega)]
        exact hf
      · rintro ⟨hx1, hx2, hx3, hx4, hxne⟩
        refine ⟨x.1, hx1, hx2, x.2, hx3, hx4, ?_, by simp⟩
        rw [getElement_eq tr kr kc tr.h x.1 x.2 hkr hkc hh1 hT hL hKr hKc hN rfl hR hC
          (by omega) (by omega)] at hxne
        exact hxne

/-- Concrete instantiation of the C4 set-equality theorem: the structure built
from [[0, 0, 5, 0]] (kr = kc = 2, null = 0), rectangle rows 0..0, columns
0..3, probed at position (0, 2). -/
theorem c4_positions_range_set_witness :
    (0, 2) ∈ getPositionsInRange (krKcTreeOfMatrix exMatRow5 2 2 0) 0 0 0 3
      ↔ 0 ≤ ((0, 2) : Nat × Nat).1 ∧ ((0, 2) : Nat × Nat).1 ≤ 0
        ∧ 0 ≤ ((0, 2) : Nat × Nat).2 ∧ ((0, 2) : Nat × Nat).2 ≤ 3
        ∧ getElement (krKcTreeOfMatrix exMatRow5 2 2 0) ((0, 2) : Nat × Nat).1
            ((0, 2) : Nat × Nat).2 ≠ 0 :=
  c4_positions_range_set exMatRow5 2 2 0 (by decide) (by decide) 0 0 0 3
    (by decide) (by decide) (by decide) (by decide) (0, 2)

/-- Claim C5 (amended): on a freshly built matrix-mode structure whose null
element converts to boolean false (truthiness is the comparison against null),
containsElement(i1, i2, j1, j2) is true exactly when the rectangle holds a
cell whose getElement is not null; the original claim over all reachable
structures (after setNull calls) is refuted by c5_counterexample. -/
theorem c5_amended_contains_iff (mat : List (List E)) (kr kc : Nat) (null : E)
    (hkr : 2 ≤ kr) (hkc : 2 ≤ kc) (i1 i2 j1 j2 : Nat)
    (h12 : i1 ≤ i2) (hi2 : i2 < (krKcTreeOfMatrix mat kr kc null).numRows)
    (hj12 : j1 ≤ j2) (hj2 : j2 < (krKcTreeOfMatrix mat kr kc null).numCols) :
    (containsElement (fun e => decide (e ≠ null)) (krKcTreeOfMatrix mat kr kc null)
        i1 i2 j1 j2 = true
      ↔ ∃ p, i1 ≤ p ∧ p ≤ i2 ∧ ∃ q, j1 ≤ q ∧ q ≤ j2 ∧
          getElement (krKcTreeOfMatrix mat kr kc null) p q ≠ null) := by
  obtain ⟨hT, hL, hR, hC, hh1, hKr, hKc, hN⟩ :=
    krKcTreeOfMatrix_fields mat kr kc null (by omega) (by omega)
  generalize hg : krKcTreeOfMatrix mat kr kc null = tr
    at hT hL hR hC hh1 hKr hKc hN hi2 hj2 ⊢
  rw [hR] at hi2
  rw [hC] at hj2
  cases hocc0 : occ (matF mat null) null kr kc 0 0 tr.h tr.h with
  | false =>
      have hLnil : tr.L = [] := by
        rw [hL]
        exact (absL_eq_nil_iff kr kc _ (by omega) (by omega) hh1).mpr hocc0
      rw [containsElement, elemInRangeInit, if_pos (by rw [hLnil]; rfl)]
      constructor
      · intro hfalse
        exact Bool.noConfusion hfalse
      · rintro ⟨p, hpl, hpu, q, hql, hqu, hne⟩
        exfalso
        apply hne
        rw [getElement_eq tr kr kc tr.h p q hkr hkc hh1 hT hL hKr hKc hN rfl hR hC
          (by omega) (by omega)]
        have := occ_false_all (f := matF mat null) hocc0 p (by omega)
          q (by omega)
        simpa using this
  | true =>
      have hLne : tr.L.isEmpty = false := by
        rw [hL]
        cases hE : (absL (matF mat null) null kr kc tr.h).isEmpty with
        | false => rfl
        | true =>
            have := (absL_eq_nil_iff kr kc _ (by omega) (by omega) hh1).mp
              (List.isEmpty_iff.mp hE)
            rw [this] at hocc0
            exact Bool.noConfusion hocc0
      rw [containsElement, elemInRangeInit_iff tr kr kc tr.h hkr hkc hh1 hT hL hKr
        hKc hN rfl hR hC hocc0 hLne i1 i2 j1 j2 h12 hi2 hj12 hj2]
      constructor
      · rintro ⟨p, hpl, hpu, q, hql, hqu, hf⟩
        refine ⟨p, hpl, hpu, q, hql, hqu, ?_⟩
        rw [getElement_eq tr kr kc tr.h p q hkr hkc hh1 hT hL hKr hKc hN rfl hR hC
          (by omega) (by omega)]
        exact hf
      · rintro ⟨p, hpl, hpu, q, hql, hqu, hne⟩
        refine ⟨p, hpl, hpu, q, hql, hqu, ?_⟩
        rw [getElement_eq tr kr kc tr.h p q hkr hkc hh1 hT hL hKr hKc hN rfl hR hC
          (by omega) (by omega)] at hne
        exact hne

/-- Concrete instantiation of the amended C5 theorem: the structure built from
[[0, 0, 5, 0]] (kr = kc = 2, null = 0), rectangle rows 0..0, columns 2..3. -/
theorem c5_amended_contains_iff_witness :
    (containsElement (fun e => decide (e ≠ 0)) (krKcTreeOfMatrix exMatRow5 2 2 0)
        0 0 2 3 = true
      ↔ ∃ p, 0 ≤ p ∧ p ≤ 0 ∧ ∃ q, 2 ≤ q ∧ q ≤ 3 ∧
          getElement (krKcTreeOfMatrix exMatRow5 2 2 0) p q ≠ 0) :=
  c5_amended_contains_iff exMatRow5 2 2 0 (by decide) (by decide) 0 0 2 3
    (by decide) (by decide) (by decide) (by decide)

/-- Claim C2 (code_bug): the five construction modes are specified to produce
identical (T, L), but Mode L2's insert assigns the literal 1 to the leaf cell
instead of the inserted value val.  On the relation with value 5 at (0, 2)
(kr = kc = 2, null = 0), Mode M and Mode L2 agree on T but produce
L = [5, 0, 0, 0] versus L = [1, 0, 0, 0]. -/
theorem c2_modeM_modeL2_diverge :
    (krKcTreeOfMatrix exMatRow5 2 2 0).T = (krKcTreeOfListsMode2 exListsRow5 2 2 0 1).T ∧
    (krKcTreeOfMatrix exMatRow5 2 2 0).L = [5, 0, 0, 0] ∧
    (krKcTreeOfListsMode2 exListsRow5 2 2 0 1).L = [1, 0, 0, 0] ∧
    (krKcTreeOfMatrix exMatRow5 2 2 0).L ≠ (krKcTreeOfListsMode2 exListsRow5 2 2 0 1).L := by
  decide

/-- Claim C8 (code_bug): a windowed constructor does throw exactly when
(nr, nc) differs from (kr ^ h, kc ^ h), but the assignment-for-concatenation
typo in checkParameters discards the message prefix up to and including the
value of nr: for nr = 3, nc = 5, kr = kc = 5 the thrown message starts with
the digits of nc and contains no digit 3 at all, so it does not carry nr. -/
theorem c8_message_drops_nr :
    windowedCheck 3 5 5 5 =
      Except.error "5, kr = 5 and kc = 5 leading to h = 1 and 5 rows resp. 5 columns." ∧
    ("5, kr = 5 and kc = 5 leading to h = 1 and 5 rows resp. 5 columns.".toList.contains '3')
      = false := by
  constructor
  · rfl
  · decide

/-- Claim C10 (counterexample): the boolean matrix builder does NOT append an
all-zero leaf group to the leaf-level buffer; a leaf call on an all-zero
region returns an empty chunk together with the false flag, not the
four-zero group the claim predicts. -/
theorem c10_counterexample :
    boolBuildFromMatrix [[true]] 2 2 0 2 2 4 4 = ([[]], false) ∧
    ([[]] : List (List Bool)) ≠ [[false, false, false, false]] := by
  decide

/-- Claim C10 (amended): in the boolean specialisation's matrix builder an
all-zero leaf group is suppressed exactly like an internal one: the leaf call
returns the false flag AND omits the group's bits from the leaf-level
buffer. -/
theorem c10_amended_no_append (mat : List (List Bool)) (kr kc numRows numCols p q : Nat)
    (hz : ((slots kr kc).map (fun ij => matRead mat false (p + ij.1) (q + ij.2))).all
      (fun b => !b) = true) :
    boolBuildFromMatrix mat kr kc 0 numRows numCols p q = ([[]], false) := by
  simp only [boolBuildFromMatrix, hz, if_pos]

/-- Witness for c10_amended_no_append at the all-zero region (4, 4) of the
1 x 1 matrix [[true]]. -/
theorem c10_amended_no_append_witness :
    ((slots 2 2).map (fun ij => matRead [[true]] false (4 + ij.1) (4 + ij.2))).all
      (fun b => !b) = true ∧
    boolBuildFromMatrix [[true]] 2 2 0 2 2 4 4 = ([[]], false) :=
  ⟨by decide, c10_amended_no_append [[true]] 2 2 2 2 4 4 (by decide)⟩

/-- Claim C3: for every dense matrix, arities kr, kc >= 2 and every row i of
the padded extent, getSuccessorPositions(i) on the Mode M structure is
strictly ascending, every entry is a valid column index, and membership of a
valid column index j in the list is exactly getElement(i, j) != null. -/
theorem c3_successors_sorted_set (mat : List (List E)) (kr kc : Nat) (null : E)
    (hkr : 2 ≤ kr) (hkc : 2 ≤ kc) (i : Nat)
    (hi : i < (krKcTreeOfMatrix mat kr kc null).numRows) :
    (getSuccessorPositions (krKcTreeOfMatrix mat kr kc null) i).Pairwise (· < ·)
    ∧ ∀ j, j ∈ getSuccessorPositions (krKcTreeOfMatrix mat kr kc null) i
        ↔ j < (krKcTreeOfMatrix mat kr kc null).numCols
          ∧ getElement (krKcTreeOfMatrix mat kr kc null) i j ≠ null := by
  obtain ⟨hT, hL, hR, hC, hh1, hKr, hKc, hN⟩ :=
    krKcTreeOfMatrix_fields mat kr kc null (by omega) (by omega)
  generalize hg : krKcTreeOfMatrix mat kr kc null = tr
    at hT hL hR hC hh1 hKr hKc hN hi ⊢
  rw [hR] at hi
  have hfilt := allSucc_eq_filter (f := matF mat null) tr kr kc tr.h
    hkr hkc hh1 hT hL hKr hKc hN rfl hR hC i hi
  rw [getSuccessorPositions, hfilt]
  constructor
  · exact (List.pairwise_lt_range _).filter _
  · intro j
    rw [List.mem_filter, List.mem_range, hC]
    constructor
    · rintro ⟨hjr, hjf⟩
      refine ⟨hjr, ?_⟩
      rw [getElement_eq tr kr kc tr.h i j hkr hkc hh1 hT hL hKr hKc hN rfl hR hC
        hi hjr]
      simpa using hjf
    · rintro ⟨hjr, hjne⟩
      refine ⟨hjr, ?_⟩
      rw [getElement_eq tr kr kc tr.h i j hkr hkc hh1 hT hL hKr hKc hN rfl hR hC
        hi hjr] at hjne
      simpa using hjne

/-- Concrete instantiation of the C3 theorem: the structure built from
[[0, 0, 5, 0]] (kr = kc = 2, null = 0), row 0. -/
theorem c3_successors_sorted_set_witness :
    (getSuccessorPositions (krKcTreeOfMatrix exMatRow5 2 2 0) 0).Pairwise (· < ·)
    ∧ ∀ j, j ∈ getSuccessorPositions (krKcTreeOfMatrix exMatRow5 2 2 0) 0
        ↔ j < (krKcTreeOfMatrix exMatRow5 2 2 0).numCols
          ∧ getElement (krKcTreeOfMatrix exMatRow5 2 2 0) 0 j ≠ 0 :=
  c3_successors_sorted_set exMatRow5 2 2 0 (by decide) (by decide) 0 (by decide)

/-- Claim C7: on a Mode M structure (kr, kc >= 2), for every row i and
column j of the padded extent, i is in getPredecessorPositions(j) exactly
when j is in getSuccessorPositions(i). -/
theorem c7_predecessor_successor_symmetry (mat : List (List E)) (kr kc : Nat)
    (null : E) (hkr : 2 ≤ kr) (hkc : 2 ≤ kc) (i j : Nat)
    (hi : i < (krKcTreeOfMatrix mat kr kc null).numRows)
    (hj : j < (krKcTreeOfMatrix mat kr kc null).numCols) :
    (i ∈ getPredecessorPositions (krKcTreeOfMatrix mat kr kc null) j
      ↔ j ∈ getSuccessorPositions (krKcTreeOfMatrix mat kr kc null) i) := by
  obtain ⟨hT, hL, hR, hC, hh1, hKr, hKc, hN⟩ :=
    krKcTreeOfMatrix_fields mat kr kc null (by omega) (by omega)
  generalize hg : krKcTreeOfMatrix mat kr kc null = tr
    at hT hL hR hC hh1 hKr hKc hN hi hj ⊢
  rw [hR] at hi
  rw [hC] at hj
  have hfilt := allSucc_eq_filter (f := matF mat null) tr kr kc tr.h
    hkr hkc hh1 hT hL hKr hKc hN rfl hR hC i hi
  rw [getSuccessorPositions, hfilt, List.mem_filter, List.mem_range]
  cases hocc0 : occ (matF mat null) null kr kc 0 0 tr.h tr.h with
  | false =>
      have hLnil : tr.L = [] := by
        rw [hL]
        exact (absL_eq_nil_iff kr kc _ (by omega) (by omega) hh1).mpr hocc0
      rw [getPredecessorPositions, predecessorsPosInit, if_pos (by rw [hLnil]; rfl)]
      simp only [List.not_mem_nil, false_iff]
      rintro ⟨hjlt, hjf⟩
      simp only [decide_eq_true_eq] at hjf
      apply hjf
      have := occ_false_all (f := matF mat null) hocc0 i hi j hj
      simpa using this
  | true =>
      have hLne : tr.L.isEmpty = false := by
        rw [hL]
        cases hE : (absL (matF mat null) null kr kc tr.h).isEmpty with
        | false => rfl
        | true =>
            have := (absL_eq_nil_iff kr kc _ (by omega) (by omega) hh1).mp
              (List.isEmpty_iff.mp hE)
            rw [this] at hocc0
            exact Bool.noConfusion hocc0
      rw [getPredecessorPositions, predecessorsPosInit_mem tr kr kc tr.h hkr hkc
        hh1 hT hL hKr hKc hN rfl hR hC hocc0 hLne j hj i]
      constructor
      · rintro ⟨r, hr, hf, hx⟩
        subst hx
        exact ⟨hj, by simpa using hf⟩
      · rintro ⟨hjlt, hjf⟩
        exact ⟨i, hi, by simpa using hjf, rfl⟩

/-- Concrete instantiation of the C7 symmetry theorem: the structure built
from [[0, 0, 5, 0]] (kr = kc = 2, null = 0), row 0 and column 2. -/
theorem c7_predecessor_successor_symmetry_witness :
    (0 ∈ getPredecessorPositions (krKcTreeOfMatrix exMatRow5 2 2 0) 2
      ↔ 2 ∈ getSuccessorPositions (krKcTreeOfMatrix exMatRow5 2 2 0) 0) :=
  c7_predecessor_successor_symmetry exMatRow5 2 2 0 (by decide) (by decide) 0 2
    (by decide) (by decide)

/-- Claim C6: on a Mode M structure (kr, kc >= 2), for every row i of the
padded extent, getFirstSuccessor(i) equals numCols when getSuccessorPositions(i)
is empty, and otherwise equals its minimum: it is a member of the list and a
lower bound of it. -/
theorem c6_first_successor_min (mat : List (List E)) (kr kc : Nat) (null : E)
    (hkr : 2 ≤ kr) (hkc : 2 ≤ kc) (i : Nat)
    (hi : i < (krKcTreeOfMatrix mat kr kc null).numRows) :
    (getSuccessorPositions (krKcTreeOfMatrix mat kr kc null) i = [] →
      getFirstSuccessor (krKcTreeOfMatrix mat kr kc null) i
        = (krKcTreeOfMatrix mat kr kc null).numCols)
    ∧ (getSuccessorPositions (krKcTreeOfMatrix mat kr kc null) i ≠ [] →
        getFirstSuccessor (krKcTreeOfMatrix mat kr kc null) i
          ∈ getSuccessorPositions (krKcTreeOfMatrix mat kr kc null) i)
    ∧ ∀ m ∈ getSuccessorPositions (krKcTreeOfMatrix mat kr kc null) i,
        getFirstSuccessor (krKcTreeOfMatrix mat kr kc null) i ≤ m := by
  obtain ⟨hT, hL, hR, hC, hh1, hKr, hKc, hN⟩ :=
    krKcTreeOfMatrix_fields mat kr kc null (by omega) (by omega)
  generalize hg : krKcTreeOfMatrix mat kr kc null = tr
    at hT hL hR hC hh1 hKr hKc hN hi ⊢
  rw [hR] at hi
  have hsucc := allSucc_eq_filter (f := matF mat null) tr kr kc tr.h
    hkr hkc hh1 hT hL hKr hKc hN rfl hR hC i hi
  have hfirst := firstSucc_eq_filter (f := matF mat null) tr kr kc tr.h
    hkr hkc hh1 hT hL hKr hKc hN rfl hR hC i hi
  rw [getSuccessorPositions, getFirstSuccessor, hsucc, hfirst]
  have hpair0 := (List.pairwise_lt_range (kc ^ tr.h)).filter
    (fun q => decide (matF mat null i q ≠ null))
  cases hl : (List.range (kc ^ tr.h)).filter
      (fun q => decide (matF mat null i q ≠ null)) with
  | nil =>
      refine ⟨fun _ => by simp [hC], fun hne => absurd rfl hne,
        fun m hm => absurd hm (List.not_mem_nil m)⟩
  | cons c t =>
      rw [hl] at hpair0
      refine ⟨fun habs => (List.cons_ne_nil c t habs).elim, fun _ => ?_, ?_⟩
      · show c ∈ c :: t
        exact List.mem_cons_self c t
      · intro m hm
        show c ≤ m
        rcases List.mem_cons.mp hm with hcm | hcm
        · exact Nat.le_of_eq hcm.symm
        · exact Nat.le_of_lt ((List.pairwise_cons.mp hpair0).1 m hcm)

/-- Concrete instantiation of the C6 theorem: the structure built from
[[0, 0, 5, 0]] (kr = kc = 2, null = 0), row 0. -/
theorem c6_first_successor_min_witness :
    ((getSuccessorPositions (krKcTreeOfMatrix exMatRow5 2 2 0) 0 = [] →
      getFirstSuccessor (krKcTreeOfMatrix exMatRow5 2 2 0) 0
        = (krKcTreeOfMatrix exMatRow5 2 2 0).numCols)
    ∧ (getSuccessorPositions (krKcTreeOfMatrix exMatRow5 2 2 0) 0 ≠ [] →
        getFirstSuccessor (krKcTreeOfMatrix exMatRow5 2 2 0) 0
          ∈ getSuccessorPositions (krKcTreeOfMatrix exMatRow5 2 2 0) 0)
    ∧ ∀ m ∈ getSuccessorPositions (krKcTreeOfMatrix exMatRow5 2 2 0) 0,
        getFirstSuccessor (krKcTreeOfMatrix exMatRow5 2 2 0) 0 ≤ m) :=
  c6_first_successor_min exMatRow5 2 2 0 (by decide) (by decide) 0 (by decide)

/-- Claim C5 (counterexample): after clearing every non-null cell of a
freshly built structure with setNull, containsElement on the whole extent
still returns true although every cell is null (the documented stale
whole-extent shortcut). -/
theorem c5_counterexample :
    containsElement (fun x => decide (x ≠ 0)) exTreeCleared 0 (exTreeCleared.numRows - 1) 0
      (exTreeCleared.numCols - 1) = true ∧
    getElement exTreeCleared 0 0 = exTreeCleared.null ∧
    getElement exTreeCleared 0 1 = exTreeCleared.null ∧
    getElement exTreeCleared 1 0 = exTreeCleared.null ∧
    getElement exTreeCleared 1 1 = exTreeCleared.null ∧
    exTreeCleared.numRows = 2 ∧ exTreeCleared.numCols = 2 := by
  decide

end K2
